import Mathlib

/-!
# packtool: the pack archive writer and reader

A shallow embedding of `src/packtool.c`.

Conventions of the embedding:

* the host is LP64 and little-endian: `int`, `unsigned` and `uint32_t` are
  32 bits wide, `off_t` and `size_t` are 64 bits wide;
* a value of an unsigned 32-bit C object is a `Nat`; every store into such an
  object goes through `u32` (reduction modulo `2 ^ 32`);
* the global `header` (a `union pack_header_block`) is the record
  `pack_header`; its memory image is `header_bytes`;
* the file behind `pack_handle` is a `pack_file`: its bytes and the file
  position;
* `write` transfers every byte it is asked for; `read` transfers the bytes
  it is asked for up to the end of the file and, as on Linux, at most
  `0x7ffff000` bytes in one call; there are no I/O errors, and a source file
  is a byte buffer that does not change while the pack is written;
* zlib's `crc32` is the standard CRC-32 (reflected polynomial `0xEDB88320`,
  pre- and post-conditioning with `0xFFFFFFFF`).
-/

namespace Packtool

/-! ## Bytes and machine words -/

/-- One octet. -/
abbrev Byte := Fin 256

/-- Conversion of a non-negative value to `uint32_t`. -/
def u32 (n : Nat) : Nat := n % 4294967296

/-- Conversion of a signed value (an `off_t`) to `uint32_t`. -/
def u32_of_int (x : Int) : Nat := (x % 4294967296).toNat

/-- The low octet of a number. -/
def low_byte (n : Nat) : Byte := ⟨n % 256, Nat.mod_lt n (by decide)⟩

/-- Memory image of a 32-bit word (little-endian). -/
def le32 (v : Nat) : List Byte :=
  [low_byte v, low_byte (v / 256), low_byte (v / 65536), low_byte (v / 16777216)]

/-- The 32-bit word stored in the first four bytes of `b` (little-endian). -/
def rd32 (b : List Byte) : Nat :=
  (b.getD 0 0).val + 256 * (b.getD 1 0).val + 65536 * (b.getD 2 0).val
    + 16777216 * (b.getD 3 0).val

/-! ## zlib's `crc32` -/

/-- One bit of the CRC-32 shift register. -/
def crc_shift (c : Nat) : Nat :=
  if c % 2 = 1 then (c / 2) ^^^ 0xEDB88320 else c / 2

/-- Feed one byte into the CRC-32 register. -/
def crc_byte (c : Nat) (b : Byte) : Nat :=
  crc_shift (crc_shift (crc_shift (crc_shift (crc_shift (crc_shift (crc_shift (crc_shift
    (c ^^^ b.val))))))))

/-- The function `crc32(crc, buf, len)` of zlib: update the running CRC-32 `crc`
with the bytes of `buf`. -/
def crc32 (crc : Nat) (buf : List Byte) : Nat :=
  (buf.foldl crc_byte (u32 crc ^^^ 0xFFFFFFFF)) ^^^ 0xFFFFFFFF

/-! ## Constants and layout (lines 12-51) -/

def PACK_HDR_MAGIC : Nat := 0x4B434150
def PACK_TRAILER_MAGIC : Nat := 0x5041434B
def PACK_BLOCK_SIZE : Nat := 512
def PACK_HEADER_SIZE : Nat := 1024
def PACK_LABEL_LEN : Nat := 15

/-- The record `struct pack_item`. -/
structure pack_item where
  flags : Nat
  label : List Byte
  load_addr : Nat
  offset : Nat
  size : Nat
  load_size : Nat
  data_crc : Nat
deriving DecidableEq, Repr

/-- The value of `sizeof(struct pack_item)`: five words and `label[PACK_LABEL_LEN + 1]`. -/
def sizeof_pack_item : Nat := 4 + (PACK_LABEL_LEN + 1) + 4 + 4 + 4 + 4 + 4

/-- The value of `sizeof(struct pack_header)`: six words, `items[0]` takes no room. -/
def sizeof_pack_header : Nat := 4 + 4 + 4 + 4 + 4 + 4

/-- The value of `sizeof(union pack_header_block)`. -/
def sizeof_header : Nat := PACK_HEADER_SIZE / 4 * 4

def N_PACK_ITEMS : Nat := (sizeof_header - sizeof_pack_header) / sizeof_pack_item

def ALIGN_SIZE : Nat := PACK_BLOCK_SIZE

/-- The macro `ALIGN_UP(x)` on a `uint32_t` operand: sum and difference are formed in
32-bit unsigned arithmetic (subtracting one adds `2 ^ 32 - 1`) and `~(ALIGN_SIZE - 1)` is
the mask `0xFFFFFE00`. -/
def ALIGN_UP (x : Nat) : Nat :=
  u32 (u32 (x + ALIGN_SIZE) + 4294967295) &&& (4294967295 - (ALIGN_SIZE - 1))

/-- The object `union pack_header_block`, seen through its member `hdr`; `items` are the
slots of the item table that lie inside the block. -/
structure pack_header where
  magic : Nat
  version : Nat
  n_items : Nat
  pack_size : Nat
  revision : Nat
  hdr_crc : Nat
  items : List pack_item
deriving DecidableEq, Repr

/-- Memory image of a `struct pack_item`. -/
def item_bytes (it : pack_item) : List Byte :=
  le32 it.flags ++ it.label ++ le32 it.load_addr ++ le32 it.offset ++ le32 it.size
    ++ le32 it.load_size ++ le32 it.data_crc

/-- Memory image of the header block, the bytes `crc32` and `write` see. -/
def header_bytes (h : pack_header) : List Byte :=
  le32 h.magic ++ le32 h.version ++ le32 h.n_items ++ le32 h.pack_size ++ le32 h.revision
    ++ le32 h.hdr_crc ++ (h.items.map item_bytes).flatten

/-- The `struct pack_item` whose memory image starts `b`. -/
def item_of_bytes (b : List Byte) : pack_item :=
  { flags := rd32 b
    label := (b.drop 4).take (PACK_LABEL_LEN + 1)
    load_addr := rd32 (b.drop 20)
    offset := rd32 (b.drop 24)
    size := rd32 (b.drop 28)
    load_size := rd32 (b.drop 32)
    data_crc := rd32 (b.drop 36) }

/-- The header block whose memory image starts `b`: what
`memcpy(&header, buffer, sizeof(header))` leaves in `header` (line 342). -/
def header_of_bytes (b : List Byte) : pack_header :=
  { magic := rd32 b
    version := rd32 (b.drop 4)
    n_items := rd32 (b.drop 8)
    pack_size := rd32 (b.drop 12)
    revision := rd32 (b.drop 16)
    hdr_crc := rd32 (b.drop 20)
    items := (List.range N_PACK_ITEMS).map
      (fun i => item_of_bytes (b.drop (sizeof_pack_header + sizeof_pack_item * i))) }

/-- A table entry all of whose fields are values of their C types. -/
structure pack_item.wf (it : pack_item) : Prop where
  flags_lt : it.flags < 4294967296
  label_len : it.label.length = PACK_LABEL_LEN + 1
  load_addr_lt : it.load_addr < 4294967296
  offset_lt : it.offset < 4294967296
  size_lt : it.size < 4294967296
  load_size_lt : it.load_size < 4294967296
  data_crc_lt : it.data_crc < 4294967296

/-- A header block all of whose fields are values of their C types. -/
structure pack_header.wf (h : pack_header) : Prop where
  magic_lt : h.magic < 4294967296
  version_lt : h.version < 4294967296
  n_items_lt : h.n_items < 4294967296
  pack_size_lt : h.pack_size < 4294967296
  revision_lt : h.revision < 4294967296
  hdr_crc_lt : h.hdr_crc < 4294967296
  items_len : h.items.length = N_PACK_ITEMS
  items_wf : ∀ it ∈ h.items, it.wf

/-! ## Files -/

/-- The file open as `pack_handle`: its bytes and the file position. -/
structure pack_file where
  data : List Byte
  pos : Nat
deriving DecidableEq, Repr

/-- The call `write(pack_handle, buf, len)`: the bytes go to the file position (a gap
past the end of the file reads as zeros) and the position moves past them. -/
def pack_file.write (f : pack_file) (buf : List Byte) : pack_file :=
  { data := f.data.take f.pos ++ List.replicate (f.pos - f.data.length) 0 ++ buf
      ++ f.data.drop (f.pos + buf.length)
    pos := f.pos + buf.length }

/-- The call `lseek(pack_handle, 0, SEEK_SET)`. -/
def pack_file.seek_set (f : pack_file) : pack_file :=
  { data := f.data, pos := 0 }

/-- The call `lseek(pack_handle, 0, SEEK_END)`: the file afterwards; the call returns the
new position. -/
def pack_file.seek_end (f : pack_file) : pack_file :=
  let length := f.data.length
  { data := f.data, pos := length }

/-- What `open(file_name, O_RDONLY)` finds. -/
inductive Source where
  /-- The call `open` fails. -/
  | missing
  /-- A regular file with these bytes. -/
  | regular (content : List Byte)
  /-- A file that opens but cannot seek (a pipe): `lseek` returns `-1`. -/
  | unseekable (content : List Byte)
deriving DecidableEq, Repr

/-- The record `struct item_descriptor`; `label` holds the bytes at `label` (the C string
is the part before the first zero byte) and `file_name` the file that path names. -/
structure item_descriptor where
  label : List Byte
  file_name : Source
  flags : Nat
  load_addr : Nat
deriving DecidableEq, Repr

/-- The C string at `s`: the bytes before the first zero byte. -/
def c_string (s : List Byte) : List Byte := s.takeWhile (fun b => b ≠ 0)

/-- The function `strlen`. -/
def strlen (s : List Byte) : Nat := (c_string s).length

/-- The array `label` after `memset(&item, 0, sizeof(item))` and
`strcpy(item.label, label)`, for a label that fits. -/
def strcpy_label (s : List Byte) : List Byte :=
  c_string s ++ List.replicate (PACK_LABEL_LEN + 1 - strlen s) 0

/-- The globals a write session works on: `header` and the file behind `pack_handle`. -/
structure session where
  header : pack_header
  out : pack_file
deriving DecidableEq, Repr

/-! ## The header operations (lines 70-112) -/

/-- The all-zero `struct pack_item`. -/
def zero_item : pack_item :=
  { flags := 0, label := List.replicate (PACK_LABEL_LEN + 1) 0, load_addr := 0, offset := 0,
    size := 0, load_size := 0, data_crc := 0 }

def header_init (fw_revision : Nat) : pack_header :=
  { magic := PACK_HDR_MAGIC
    version := 1
    n_items := 0
    pack_size := 0
    revision := u32 fw_revision
    hdr_crc := 0
    items := List.replicate N_PACK_ITEMS zero_item }

def recalc_header_crc (h : pack_header) : pack_header :=
  let h0 := { h with hdr_crc := 0 }
  { h0 with hdr_crc := u32 (crc32 0 (header_bytes h0)) }

/-- The function `header_finalise`: `lseek(pack_handle, 0, SEEK_END)` moves to the end of
the file and returns its length; the `int pack_size` and the store into the `uint32_t`
field keep the low 32 bits of length plus `sizeof(header)`. -/
def header_finalise (s : session) : session :=
  let out := s.out.seek_end
  let pack_size := u32 (out.pos + sizeof_header)
  { header := recalc_header_crc { s.header with pack_size := pack_size }, out := out }

def change_header_to_trailer (h : pack_header) : pack_header :=
  recalc_header_crc { h with magic := PACK_TRAILER_MAGIC }

/-- The function `add_item_to_header`: the return value and `header` afterwards. -/
def add_item_to_header (h : pack_header) (item : pack_item) : Int × pack_header :=
  if h.n_items < N_PACK_ITEMS then
    (0, { h with items := h.items.set h.n_items item, n_items := u32 (h.n_items + 1) })
  else
    (-1, h)

/-! ## Adding an item (lines 114-164) -/

/-- The return sites of `add_item`, named after the failure each one reports. -/
inductive add_status where
  /-- Line 163, `add_item_to_header` returned 0. -/
  | ok
  /-- Line 126. -/
  | label_too_long
  /-- Line 139. -/
  | source_unavailable
  /-- Line 148. -/
  | empty_source
  /-- Line 163, `add_item_to_header` returned -1. -/
  | capacity_exceeded
deriving DecidableEq, Repr

/-- The `int` that `add_item` returns. -/
def add_status.ret : add_status → Int
  | .ok => 0
  | _ => -1

/-- The result of `lseek(in_handle, 0, SEEK_END)` on an opened source. -/
def lseek_end : Source → Int
  | .missing => -1
  | .regular content => content.length
  | .unseekable _ => -1

/-- The bytes `read` can deliver from an opened source. -/
def Source.content : Source → List Byte
  | .missing => []
  | .regular content => content
  | .unseekable content => content

/-- The array `buffer` after `memset(buffer, 0, sizeof(buffer))` and
`read(in_handle, buffer, sizeof(buffer))` with `input` left in the source. -/
def read_block (input : List Byte) : List Byte :=
  input.take PACK_BLOCK_SIZE ++ List.replicate (PACK_BLOCK_SIZE - input.length) 0

/-- The copy loop of `add_item` (lines 154-159), entered with the loop counter `copied`,
the unread rest `input` of the source, the running `data_crc` and the output file. The
counter never passes `load_size`, itself below `2 ^ 32`, so the unsigned comparison
`copied < item.load_size` is the comparison of the numbers. -/
def copy_loop (load_size : Nat) (copied : Nat) (input : List Byte) (data_crc : Nat)
    (out : pack_file) : Nat × pack_file :=
  if copied < load_size then
    let buffer := read_block input
    copy_loop load_size (copied + PACK_BLOCK_SIZE) (input.drop PACK_BLOCK_SIZE)
      (u32 (crc32 data_crc buffer)) (out.write buffer)
  else
    (data_crc, out)
termination_by load_size - copied
decreasing_by
  simp only [PACK_BLOCK_SIZE]
  omega

/-- The function `add_item`: the return site taken and the globals afterwards. -/
def add_item (label : List Byte) (flags load_addr : Nat) (file_name : Source)
    (s : session) : add_status × session :=
  if strlen label > PACK_LABEL_LEN then
    (.label_too_long, s)
  else
    let offset := u32 s.out.pos
    if file_name = .missing then
      (.source_unavailable, s)
    else
      let size := u32_of_int (lseek_end file_name)
      if size ≤ 0 then
        (.empty_source, s)
      else
        let load_size := ALIGN_UP size
        let copied := copy_loop load_size 0 file_name.content 0 s.out
        let item : pack_item :=
          { flags := u32 flags
            label := strcpy_label label
            load_addr := u32 load_addr
            offset := offset
            size := size
            load_size := load_size
            data_crc := copied.1 }
        let added := add_item_to_header s.header item
        if added.1 = 0 then
          (.ok, { header := added.2, out := copied.2 })
        else
          (.capacity_exceeded, { header := added.2, out := copied.2 })

/-! ## Validation (lines 279-313) -/

/-- Lines 286-294 of `verify_checksums`: the header block after the check (the stored
`hdr_crc` is put back) and whether the stored and the computed checksum agree. -/
def header_check (h : pack_header) : pack_header × Bool :=
  let tmp_crc32 := h.hdr_crc
  let h0 := { h with hdr_crc := 0 }
  let calc_crc32 := u32 (crc32 0 (header_bytes h0))
  let h1 := { h0 with hdr_crc := tmp_crc32 }
  (h1, decide (tmp_crc32 = calc_crc32))

/-- The item loop of `verify_checksums` (lines 298-309) over the indices `is`: the indices
reported as mismatches, or `none` when the loop reads outside the header block or
outside `buffer`, which C leaves undefined. -/
def verify_items (h : pack_header) (buffer : List Byte) : List Nat → Option (List Nat)
  | [] => some []
  | i :: rest =>
    match h.items[i]? with
    | none => none
    | some item =>
      if item.offset + item.load_size ≤ buffer.length then
        let calc_crc32 := u32 (crc32 0 ((buffer.drop item.offset).take item.load_size))
        match verify_items h buffer rest with
        | none => none
        | some bad => some (if calc_crc32 ≠ item.data_crc then i :: bad else bad)
      else
        none

/-- What a call of `verify_checksums` does. -/
inductive verify_result where
  /-- Header checksum mismatch: `exit(1)` at line 293. -/
  | header_mismatch
  /-- The call returns, having reported these item indices as mismatches. -/
  | checked (mismatches : List Nat)
  /-- The item loop reads outside the header block or the buffer. -/
  | undefined
deriving DecidableEq, Repr

def verify_checksums (h : pack_header) (buffer : List Byte) : verify_result :=
  let checked := header_check h
  if checked.2 = false then
    .header_mismatch
  else
    match verify_items checked.1 buffer (List.range checked.1.n_items) with
    | none => .undefined
    | some bad => .checked bad

/-! ## The write session (lines 349-408) -/

/-- The loop of `do_write` over the item descriptors (lines 376-385): the exit status
(`1` for `exit(1)`, else `0`) and the globals. -/
def write_items : List item_descriptor → session → Int × session
  | [], s => (0, s)
  | item :: rest, s =>
    let added := add_item item.label item.flags item.load_addr item.file_name s
    if added.1.ret ≠ 0 then (1, added.2) else write_items rest added.2

/-- The function `do_write` up to `close(pack_handle)`: the exit status (`1` when the
session ends in `exit(1)`) and the globals; `out.data` is the file on disk. The
closing call of `do_list` reads that file back. -/
def do_write (fw_revision : Nat) (item_descriptors : List item_descriptor) : Int × session :=
  let created : pack_file := { data := [], pos := 0 }
  let header := header_init fw_revision
  let out := created.write (header_bytes header)
  let after_items := write_items item_descriptors { header := header, out := out }
  if after_items.1 ≠ 0 then after_items
  else
    let s := header_finalise after_items.2
    let out := s.out.seek_set.write (header_bytes s.header)
    let trailer := change_header_to_trailer s.header
    let out := out.seek_end.write (header_bytes trailer)
    (0, { header := trailer, out := out })

/-! ## Descriptions of what a write session leaves behind

The functions below are not in the source: they name the values the theorems speak
about. -/

/-- The first `n` bytes of `content` followed by zeros without end. -/
def zero_padded (content : List Byte) (n : Nat) : List Byte :=
  content.take n ++ List.replicate (n - content.length) 0

/-- The `size` field `add_item` computes for an opened source (line 142). -/
def Source.size (src : Source) : Nat := u32_of_int (lseek_end src)

/-- The `load_size` field `add_item` computes for an opened source (line 151). -/
def Source.load_size (src : Source) : Nat := ALIGN_UP src.size

/-- The bytes the copy loop of `add_item` writes for an opened source. -/
def Source.payload (src : Source) : List Byte := zero_padded src.content src.load_size

/-- The table entry `add_item` builds for a descriptor when the file position is `pos`. -/
def item_descriptor.entry (d : item_descriptor) (pos : Nat) : pack_item :=
  { flags := u32 d.flags
    label := strcpy_label d.label
    load_addr := u32 d.load_addr
    offset := u32 pos
    size := d.file_name.size
    load_size := d.file_name.load_size
    data_crc := crc32 0 d.file_name.payload }

/-- The table entries for a run of descriptors written from file position `pos` on. -/
def entries : Nat → List item_descriptor → List pack_item
  | _, [] => []
  | pos, d :: ds => d.entry pos :: entries (pos + d.file_name.load_size) ds

/-- The item table after storing `es` in the slots `n`, `n + 1`, ... in turn. -/
def store_items : List pack_item → Nat → List pack_item → List pack_item
  | items, _, [] => items
  | items, n, e :: es => store_items (items.set n e) (n + 1) es

/-- The descriptors `add_item` does not turn down before it copies: the label fits,
the source opens and its `size` field is not zero. -/
def item_descriptor.accepted (d : item_descriptor) : Prop :=
  strlen d.label ≤ PACK_LABEL_LEN ∧ d.file_name ≠ .missing ∧ d.file_name.size ≠ 0

instance (d : item_descriptor) : Decidable d.accepted := by
  unfold item_descriptor.accepted; infer_instance

/-- The payload bytes of a run of descriptors, one after the other. -/
def payloads (ds : List item_descriptor) : List Byte :=
  (ds.map (fun d => d.file_name.payload)).flatten

/-- The sum of the `load_size` fields of a run of descriptors. -/
def total_load_size (ds : List item_descriptor) : Nat :=
  (ds.map (fun d => d.file_name.load_size)).sum

/-- The header block `header_finalise` leaves after the descriptors `ds` were all
appended in a session started with revision `fw_revision`. -/
def finalised_header (fw_revision : Nat) (ds : List item_descriptor) : pack_header :=
  recalc_header_crc
    { header_init fw_revision with
      n_items := ds.length
      pack_size := u32 (PACK_HEADER_SIZE + total_load_size ds + sizeof_header)
      items := store_items (header_init fw_revision).items 0 (entries PACK_HEADER_SIZE ds) }

/-- Whether the item loop of `verify_checksums` reports index `i`: the checksum over the
`load_size` bytes of `buffer` from `offset` on differs from the stored `data_crc`. -/
def item_mismatch (h : pack_header) (buffer : List Byte) (i : Nat) : Bool :=
  match h.items[i]? with
  | none => false
  | some item =>
    decide (u32 (crc32 0 ((buffer.drop item.offset).take item.load_size)) ≠ item.data_crc)

/-- The reads of the item loop at index `i` stay inside the header block and `buffer`. -/
def item_in_bounds (h : pack_header) (buffer : List Byte) (i : Nat) : Prop :=
  ∃ item : pack_item, h.items[i]? = some item ∧ item.offset + item.load_size ≤ buffer.length

/-! ## The read session (lines 166-185 and 315-347) -/

/-- Conversion of a file length (an `off_t`) to `int`: the low 32 bits, read as a signed
number. -/
def to_int (n : Nat) : Int :=
  if n % 4294967296 < 2147483648 then (n % 4294967296 : Nat)
  else (n % 4294967296 : Nat) - 4294967296

/-- What `print_header` writes: the six header fields and one line for each entry. -/
structure listing where
  magic : Nat
  version : Nat
  revision : Nat
  pack_size : Nat
  n_items : Nat
  crc : Nat
  items : List pack_item
deriving DecidableEq, Repr

/-- The loop of `print_header` (lines 177-184) over the indices `is`: the entries printed,
or `none` when an index lies outside the header block, which C leaves undefined. -/
def print_items (h : pack_header) : List Nat → Option (List pack_item)
  | [] => some []
  | i :: rest =>
    match h.items[i]? with
    | none => none
    | some item =>
      match print_items h rest with
      | none => none
      | some printed => some (item :: printed)

def print_header (h : pack_header) : Option listing :=
  match print_items h (List.range h.n_items) with
  | none => none
  | some printed =>
    some { magic := h.magic, version := h.version, revision := h.revision,
           pack_size := h.pack_size, n_items := h.n_items, crc := h.hdr_crc,
           items := printed }

/-- The most bytes one call of `read` transfers on Linux (the kernel's `MAX_RW_COUNT`,
`0x7ffff000`). -/
def MAX_RW_COUNT : Nat := 2147479552

/-- The value `read(fd, buf, count)` returns when `available` bytes of the file lie after
the file position. -/
def read_count (available count : Nat) : Nat := min (min count MAX_RW_COUNT) available

/-- What a call of `do_list` does. -/
inductive list_result where
  /-- The buffer cannot be allocated (`fsize` is negative): `exit(1)` at line 334. -/
  | no_buffer
  /-- The call of `read` returns fewer than `fsize` bytes: `exit(1)` at line 339. -/
  | short_read
  /-- The `memcpy` of line 342, `print_header` or `verify_checksums` reads outside the
  buffer or the header block. -/
  | undefined
  /-- The header is printed; then `verify_checksums` runs. -/
  | listed (printed : listing) (verified : verify_result)
deriving DecidableEq, Repr

/-- The function `do_list` on a pack file with these bytes: `fsize` is an `int`,
`malloc(fsize)` fails for a negative `fsize` (a `size_t` above `2 ^ 63`) and returns a
buffer otherwise, `read` fills it with the first bytes of the file and the process ends
when these are not `fsize` bytes; `print_header` runs before `verify_checksums`. -/
def do_list (file : List Byte) : list_result :=
  let fsize := to_int file.length
  if fsize < 0 then
    .no_buffer
  else
    let got := read_count file.length fsize.toNat
    if (got : Int) ≠ fsize then
      .short_read
    else
      let buffer := file.take got
      if buffer.length < sizeof_header then
        .undefined
      else
        let header := header_of_bytes buffer
        match print_header header with
        | none => .undefined
        | some printed => .listed printed (verify_checksums header buffer)

/-- The exit status of the process after `do_list` (`main` returns 0 when `do_list`
returns); `none` where C leaves the behaviour undefined. -/
def list_result.exit_code : list_result → Option Int
  | .no_buffer => some 1
  | .short_read => some 1
  | .undefined => none
  | .listed _ .header_mismatch => some 1
  | .listed _ (.checked _) => some 0
  | .listed _ .undefined => none

/-! ## The descriptor table (lines 201-251) -/

/-- The function `add_item_descriptor` on the table `item_descriptors[0 .. n_items)`:
`parsed` is what the tokens of the argument give (lines 216-234, `none` for
`token_error`); `none` is `bad_args()`, which ends the process. -/
def add_item_descriptor (parsed : Option item_descriptor) (table : List item_descriptor) :
    Option (List item_descriptor) :=
  if table.length ≥ N_PACK_ITEMS then
    none
  else
    match parsed with
    | none => none
    | some d => some (table ++ [d])

/-- The loop of `parse_args` over the `-i` options, in order. -/
def parse_args : List (Option item_descriptor) → List item_descriptor →
    Option (List item_descriptor)
  | [], table => some table
  | parsed :: rest, table =>
    match add_item_descriptor parsed table with
    | none => none
    | some table => parse_args rest table

/-- Following the spec ("CRC32 computed over exactly `load_size` bytes of the
(zero-padded) payload as written"): the checksum, in one call, of the first `load_size`
bytes of the source followed by zeros. -/
def one_shot_data_crc (content : List Byte) (load_size : Nat) : Nat :=
  crc32 0 (content.take load_size ++ List.replicate (load_size - content.length) 0)

/-- The globals of `do_write` when its item loop starts: `header_init` has run and the
placeholder header is written (lines 362-373). -/
def session_start (fw_revision : Nat) : session :=
  { header := header_init fw_revision
    out := pack_file.write { data := [], pos := 0 } (header_bytes (header_init fw_revision)) }

/-! ## Machine words -/

theorem u32_lt (n : Nat) : u32 n < 4294967296 := by
  unfold u32; omega

theorem u32_of_lt {n : Nat} (h : n < 4294967296) : u32 n = n := by
  unfold u32; omega

theorem u32_u32 (n : Nat) : u32 (u32 n) = u32 n := u32_of_lt (u32_lt n)

theorem u32_of_int_natCast (n : Nat) : u32_of_int (n : Int) = u32 n := by
  unfold u32_of_int u32; omega

theorem u32_of_int_neg_one : u32_of_int (-1) = 4294967295 := by
  unfold u32_of_int; decide

theorem le32_length (v : Nat) : (le32 v).length = 4 := rfl

theorem rd32_le32 {v : Nat} (h : v < 4294967296) (rest : List Byte) :
    rd32 (le32 v ++ rest) = v := by
  simp only [rd32, le32, low_byte, List.cons_append, List.nil_append, List.getD_cons_zero,
    List.getD_cons_succ]
  omega

/-! ## `ALIGN_UP` -/

theorem land_mask (y : Nat) (h : y < 4294967296) : y &&& 4294966784 = y / 512 * 512 := by
  apply Nat.eq_of_testBit_eq
  intro i
  have hm : (4294966784 : Nat) = (2 ^ 23 - 1) <<< 9 := by decide
  have hy : y / 512 * 512 = (y >>> 9) <<< 9 := by
    rw [Nat.shiftLeft_eq, Nat.shiftRight_eq_div_pow]
  rw [Nat.testBit_and, hm, hy, Nat.testBit_shiftLeft, Nat.testBit_shiftLeft,
    Nat.testBit_two_pow_sub_one, Nat.testBit_shiftRight]
  by_cases h9 : 9 ≤ i
  · have e : 9 + (i - 9) = i := by omega
    simp only [ge_iff_le, h9, decide_True, Bool.true_and, e]
    by_cases h32 : i - 9 < 23
    · simp [h32]
    · have : y.testBit i = false := by
        apply Nat.testBit_lt_two_pow
        calc y < 2 ^ 32 := h
          _ ≤ 2 ^ i := Nat.pow_le_pow_right (by decide) (by omega)
      simp [this]
  · simp [h9]

theorem ALIGN_UP_eq (x : Nat) :
    ALIGN_UP x = (x + 511) % 4294967296 / 512 * 512 := by
  have h : u32 (u32 (x + ALIGN_SIZE) + 4294967295) = (x + 511) % 4294967296 := by
    simp only [u32, ALIGN_SIZE, PACK_BLOCK_SIZE]; omega
  unfold ALIGN_UP
  rw [h]
  exact land_mask _ (Nat.mod_lt _ (by decide))

theorem ALIGN_UP_of_le {x : Nat} (h : x ≤ 4294966784) : ALIGN_UP x = (x + 511) / 512 * 512 := by
  rw [ALIGN_UP_eq, Nat.mod_eq_of_lt (by omega)]

theorem ALIGN_UP_dvd (x : Nat) : 512 ∣ ALIGN_UP x := by
  rw [ALIGN_UP_eq]; exact Nat.dvd_mul_left _ _

theorem ALIGN_UP_lt (x : Nat) : ALIGN_UP x < 4294967296 := by
  rw [ALIGN_UP_eq]; omega

/-! ## CRC-32 -/

theorem crc_shift_lt {c : Nat} (h : c < 4294967296) : crc_shift c < 4294967296 := by
  unfold crc_shift
  split
  · exact Nat.xor_lt_two_pow (n := 32) (by omega) (by decide)
  · omega

theorem crc_byte_lt {c : Nat} (h : c < 4294967296) (b : Byte) : crc_byte c b < 4294967296 := by
  unfold crc_byte
  have hb : b.val < 4294967296 := by omega
  have h0 : c ^^^ b.val < 4294967296 := Nat.xor_lt_two_pow (n := 32) h hb
  exact crc_shift_lt (crc_shift_lt (crc_shift_lt (crc_shift_lt (crc_shift_lt (crc_shift_lt
    (crc_shift_lt (crc_shift_lt h0)))))))

theorem crc_fold_lt (buf : List Byte) {c : Nat} (h : c < 4294967296) :
    buf.foldl crc_byte c < 4294967296 := by
  induction buf generalizing c with
  | nil => exact h
  | cons b rest ih => exact ih (crc_byte_lt h b)

theorem xor_ones_lt {c : Nat} (h : c < 4294967296) : c ^^^ 0xFFFFFFFF < 4294967296 :=
  Nat.xor_lt_two_pow (n := 32) h (by decide)

theorem xor_ones_twice (c : Nat) : c ^^^ 0xFFFFFFFF ^^^ 0xFFFFFFFF = c := by
  rw [Nat.xor_assoc, Nat.xor_self, Nat.xor_zero]

theorem crc32_lt (crc : Nat) (buf : List Byte) : crc32 crc buf < 4294967296 :=
  xor_ones_lt (crc_fold_lt buf (xor_ones_lt (u32_lt crc)))

theorem u32_crc32 (crc : Nat) (buf : List Byte) : u32 (crc32 crc buf) = crc32 crc buf :=
  u32_of_lt (crc32_lt crc buf)

/-- Running the checksum over two buffers in turn is running it over their concatenation. -/
theorem crc32_append (crc : Nat) (a b : List Byte) :
    crc32 (crc32 crc a) b = crc32 crc (a ++ b) := by
  unfold crc32
  rw [u32_of_lt (xor_ones_lt (crc_fold_lt a (xor_ones_lt (u32_lt crc)))), xor_ones_twice,
    List.foldl_append]

theorem crc32_nil {crc : Nat} (h : crc < 4294967296) : crc32 crc [] = crc := by
  unfold crc32
  rw [List.foldl_nil, u32_of_lt h, xor_ones_twice]

theorem crc_shift_inj {c d : Nat} (hc : c < 4294967296) (hd : d < 4294967296)
    (h : crc_shift c = crc_shift d) : c = d := by
  have top : ∀ x : Nat, x < 4294967296 → ((x / 2) ^^^ 0xEDB88320).testBit 31 = true := by
    intro x hx
    rw [Nat.testBit_xor, Nat.testBit_lt_two_pow (show x / 2 < 2 ^ 31 by omega)]
    decide
  have low : ∀ x : Nat, x < 4294967296 → (x / 2).testBit 31 = false := by
    intro x hx
    exact Nat.testBit_lt_two_pow (show x / 2 < 2 ^ 31 by omega)
  unfold crc_shift at h
  split at h <;> split at h
  · have := Nat.xor_left_injective h
    omega
  · have h1 := top c hc
    rw [h, low d hd] at h1
    exact absurd h1 (by decide)
  · have h1 := top d hd
    rw [← h, low c hc] at h1
    exact absurd h1 (by decide)
  · omega

theorem crc_byte_inj_state {c d : Nat} (hc : c < 4294967296) (hd : d < 4294967296) (b : Byte)
    (h : crc_byte c b = crc_byte d b) : c = d := by
  unfold crc_byte at h
  have hb : b.val < 4294967296 := by omega
  have hc0 : c ^^^ b.val < 4294967296 := Nat.xor_lt_two_pow (n := 32) hc hb
  have hd0 : d ^^^ b.val < 4294967296 := Nat.xor_lt_two_pow (n := 32) hd hb
  have hc1 := crc_shift_lt hc0
  have hd1 := crc_shift_lt hd0
  have hc2 := crc_shift_lt hc1
  have hd2 := crc_shift_lt hd1
  have hc3 := crc_shift_lt hc2
  have hd3 := crc_shift_lt hd2
  have hc4 := crc_shift_lt hc3
  have hd4 := crc_shift_lt hd3
  have hc5 := crc_shift_lt hc4
  have hd5 := crc_shift_lt hd4
  have hc6 := crc_shift_lt hc5
  have hd6 := crc_shift_lt hd5
  have e := crc_shift_inj hc0 hd0 (crc_shift_inj hc1 hd1 (crc_shift_inj hc2 hd2
    (crc_shift_inj hc3 hd3 (crc_shift_inj hc4 hd4 (crc_shift_inj hc5 hd5
    (crc_shift_inj hc6 hd6 (crc_shift_inj (crc_shift_lt hc6) (crc_shift_lt hd6) h)))))))
  exact Nat.xor_left_injective e

theorem crc_byte_inj_byte {c : Nat} (hc : c < 4294967296) (a b : Byte)
    (h : crc_byte c a = crc_byte c b) : a = b := by
  unfold crc_byte at h
  have ha : a.val < 4294967296 := by omega
  have hb : b.val < 4294967296 := by omega
  have hc0 : c ^^^ a.val < 4294967296 := Nat.xor_lt_two_pow (n := 32) hc ha
  have hd0 : c ^^^ b.val < 4294967296 := Nat.xor_lt_two_pow (n := 32) hc hb
  have hc1 := crc_shift_lt hc0
  have hd1 := crc_shift_lt hd0
  have hc2 := crc_shift_lt hc1
  have hd2 := crc_shift_lt hd1
  have hc3 := crc_shift_lt hc2
  have hd3 := crc_shift_lt hd2
  have hc4 := crc_shift_lt hc3
  have hd4 := crc_shift_lt hd3
  have hc5 := crc_shift_lt hc4
  have hd5 := crc_shift_lt hd4
  have hc6 := crc_shift_lt hc5
  have hd6 := crc_shift_lt hd5
  have e := crc_shift_inj hc0 hd0 (crc_shift_inj hc1 hd1 (crc_shift_inj hc2 hd2
    (crc_shift_inj hc3 hd3 (crc_shift_inj hc4 hd4 (crc_shift_inj hc5 hd5
    (crc_shift_inj hc6 hd6 (crc_shift_inj (crc_shift_lt hc6) (crc_shift_lt hd6) h)))))))
  exact Fin.ext (Nat.xor_right_injective e)

theorem crc_fold_inj (buf : List Byte) {c d : Nat} (hc : c < 4294967296) (hd : d < 4294967296)
    (h : buf.foldl crc_byte c = buf.foldl crc_byte d) : c = d := by
  induction buf generalizing c d with
  | nil => exact h
  | cons b rest ih =>
    exact crc_byte_inj_state hc hd b (ih (crc_byte_lt hc b) (crc_byte_lt hd b) h)

/-- The checksum tells apart two buffers that differ in exactly one byte. -/
theorem crc32_one_byte (crc : Nat) (pre post : List Byte) (a b : Byte) (hab : a ≠ b) :
    crc32 crc (pre ++ a :: post) ≠ crc32 crc (pre ++ b :: post) := by
  intro h
  unfold crc32 at h
  have h1 := Nat.xor_left_injective h
  rw [List.foldl_append, List.foldl_append, List.foldl_cons, List.foldl_cons] at h1
  have hs := crc_fold_lt pre (xor_ones_lt (u32_lt crc))
  exact hab (crc_byte_inj_byte hs a b
    (crc_fold_inj post (crc_byte_lt hs a) (crc_byte_lt hs b) h1))

/-! ## The memory image of the header block -/

theorem drop_append_add {α : Type} (a b : List α) (n m : Nat) (h : a.length = n) :
    (a ++ b).drop (n + m) = b.drop m := by
  subst h
  rw [List.drop_append_eq_append_drop, List.drop_eq_nil_of_le (by omega)]
  simp

theorem item_bytes_length {it : pack_item} (h : it.wf) : (item_bytes it).length = 40 := by
  simp only [item_bytes, List.length_append, le32_length, h.label_len, PACK_LABEL_LEN]

theorem item_bytes_append (it : pack_item) (rest : List Byte) :
    item_bytes it ++ rest = le32 it.flags ++ (it.label ++ (le32 it.load_addr ++
      (le32 it.offset ++ (le32 it.size ++ (le32 it.load_size ++ (le32 it.data_crc ++ rest)))))) := by
  simp only [item_bytes, List.append_assoc]

theorem item_of_bytes_item_bytes {it : pack_item} (h : it.wf) (rest : List Byte) :
    item_of_bytes (item_bytes it ++ rest) = it := by
  have hl : it.label.length = 16 := h.label_len
  rw [item_bytes_append]
  have d4 : ∀ x : List Byte, (le32 it.flags ++ x).drop 4 = x := fun x =>
    drop_append_add _ x 4 0 (le32_length _)
  have d20 : ∀ x : List Byte, (le32 it.flags ++ (it.label ++ x)).drop 20 = x := fun x => by
    rw [← List.append_assoc]
    exact drop_append_add _ x 20 0 (by simp [le32_length, hl])
  have d24 : ∀ x : List Byte,
      (le32 it.flags ++ (it.label ++ (le32 it.load_addr ++ x))).drop 24 = x := fun x => by
    rw [← List.append_assoc, ← List.append_assoc]
    exact drop_append_add _ x 24 0 (by simp [le32_length, hl])
  have d28 : ∀ x : List Byte,
      (le32 it.flags ++ (it.label ++ (le32 it.load_addr ++ (le32 it.offset ++ x)))).drop 28
        = x := fun x => by
    rw [← List.append_assoc, ← List.append_assoc, ← List.append_assoc]
    exact drop_append_add _ x 28 0 (by simp [le32_length, hl])
  have d32 : ∀ x : List Byte,
      (le32 it.flags ++ (it.label ++ (le32 it.load_addr ++ (le32 it.offset ++
        (le32 it.size ++ x))))).drop 32 = x := fun x => by
    rw [← List.append_assoc, ← List.append_assoc, ← List.append_assoc, ← List.append_assoc]
    exact drop_append_add _ x 32 0 (by simp [le32_length, hl])
  have d36 : ∀ x : List Byte,
      (le32 it.flags ++ (it.label ++ (le32 it.load_addr ++ (le32 it.offset ++
        (le32 it.size ++ (le32 it.load_size ++ x)))))).drop 36 = x := fun x => by
    rw [← List.append_assoc, ← List.append_assoc, ← List.append_assoc, ← List.append_assoc,
      ← List.append_assoc]
    exact drop_append_add _ x 36 0 (by simp [le32_length, hl])
  unfold item_of_bytes
  rw [d4, d20, d24, d28, d32, d36, rd32_le32 h.flags_lt, rd32_le32 h.load_addr_lt,
    rd32_le32 h.offset_lt, rd32_le32 h.size_lt, rd32_le32 h.load_size_lt,
    rd32_le32 h.data_crc_lt]
  have ht : List.take (PACK_LABEL_LEN + 1) (it.label ++ (le32 it.load_addr ++ (le32 it.offset ++
      (le32 it.size ++ (le32 it.load_size ++ (le32 it.data_crc ++ rest)))))) = it.label := by
    rw [← h.label_len]
    exact List.take_left _ _
  rw [ht]

theorem items_bytes_length (its : List pack_item) (h : ∀ it ∈ its, it.wf) :
    ((its.map item_bytes).flatten).length = 40 * its.length := by
  induction its with
  | nil => rfl
  | cons it rest ih =>
    rw [List.map_cons, List.flatten_cons, List.length_append,
      item_bytes_length (h it (List.mem_cons_self _ _)),
      ih (fun x hx => h x (List.mem_cons_of_mem _ hx)), List.length_cons]
    omega

theorem items_of_bytes (its : List pack_item) (h : ∀ it ∈ its, it.wf) (rest : List Byte) :
    (List.range its.length).map
      (fun i => item_of_bytes (((its.map item_bytes).flatten ++ rest).drop (40 * i))) = its := by
  induction its with
  | nil => rfl
  | cons it tl ih =>
    have hit := h it (List.mem_cons_self _ _)
    rw [List.length_cons, List.range_succ_eq_map, List.map_cons, List.map_map]
    congr 1
    · rw [List.map_cons, List.flatten_cons, Nat.mul_zero, List.drop_zero, List.append_assoc]
      exact item_of_bytes_item_bytes hit _
    · refine Eq.trans ?_ (ih (fun x hx => h x (List.mem_cons_of_mem _ hx)))
      apply List.map_congr_left
      intro i _
      simp only [Function.comp, List.map_cons, List.flatten_cons, List.append_assoc]
      rw [show 40 * i.succ = 40 + 40 * i by omega,
        drop_append_add _ _ 40 (40 * i) (item_bytes_length hit)]

theorem header_bytes_length {h : pack_header} (hw : h.wf) : (header_bytes h).length = 1024 := by
  simp only [header_bytes, List.length_append, le32_length, items_bytes_length _ hw.items_wf,
    hw.items_len]
  decide

theorem header_bytes_append (h : pack_header) (rest : List Byte) :
    header_bytes h ++ rest = le32 h.magic ++ (le32 h.version ++ (le32 h.n_items ++
      (le32 h.pack_size ++ (le32 h.revision ++ (le32 h.hdr_crc ++
        ((h.items.map item_bytes).flatten ++ rest)))))) := by
  simp only [header_bytes, List.append_assoc]

/-- Reading a header block back from its memory image gives the block. -/
theorem header_of_bytes_header_bytes {h : pack_header} (hw : h.wf) (rest : List Byte) :
    header_of_bytes (header_bytes h ++ rest) = h := by
  rw [header_bytes_append]
  have d4 : ∀ (a : Nat) (x : List Byte) (m : Nat), (le32 a ++ x).drop (4 + m) = x.drop m :=
    fun a x m => drop_append_add _ x 4 m (le32_length _)
  unfold header_of_bytes
  have e1 : ∀ (a : Nat) (x : List Byte), (le32 a ++ x).drop 4 = x := fun a x => d4 a x 0
  have e2 : ∀ (a b : Nat) (x : List Byte), (le32 a ++ (le32 b ++ x)).drop 8 = x :=
    fun a b x => by rw [show 8 = 4 + 4 by rfl, d4, e1]
  have e3 : ∀ (a b c : Nat) (x : List Byte),
      (le32 a ++ (le32 b ++ (le32 c ++ x))).drop 12 = x :=
    fun a b c x => by rw [show 12 = 4 + 8 by rfl, d4, e2]
  have e4 : ∀ (a b c d : Nat) (x : List Byte),
      (le32 a ++ (le32 b ++ (le32 c ++ (le32 d ++ x)))).drop 16 = x :=
    fun a b c d x => by rw [show 16 = 4 + 12 by rfl, d4, e3]
  have e5 : ∀ (a b c d e : Nat) (x : List Byte),
      (le32 a ++ (le32 b ++ (le32 c ++ (le32 d ++ (le32 e ++ x))))).drop 20 = x :=
    fun a b c d e x => by rw [show 20 = 4 + 16 by rfl, d4, e4]
  have e6 : ∀ (a b c d e f : Nat) (x : List Byte) (m : Nat),
      (le32 a ++ (le32 b ++ (le32 c ++ (le32 d ++ (le32 e ++ (le32 f ++ x)))))).drop (24 + m)
        = x.drop m :=
    fun a b c d e f x m => by
      rw [show 24 + m = 4 + (4 + (4 + (4 + (4 + (4 + m))))) by omega, d4, d4, d4, d4, d4, d4]
  rw [e1, e2, e3, e4, e5, rd32_le32 hw.magic_lt, rd32_le32 hw.version_lt,
    rd32_le32 hw.n_items_lt, rd32_le32 hw.pack_size_lt, rd32_le32 hw.revision_lt,
    rd32_le32 hw.hdr_crc_lt]
  have hi : (List.range N_PACK_ITEMS).map (fun i => item_of_bytes
      ((le32 h.magic ++ (le32 h.version ++ (le32 h.n_items ++ (le32 h.pack_size ++
        (le32 h.revision ++ (le32 h.hdr_crc ++ ((h.items.map item_bytes).flatten ++ rest)))))))
        |>.drop (sizeof_pack_header + sizeof_pack_item * i))) = h.items := by
    rw [← hw.items_len]
    conv_rhs => rw [← items_of_bytes h.items hw.items_wf rest]
    apply List.map_congr_left
    intro i _
    rw [show sizeof_pack_header + sizeof_pack_item * i = 24 + 40 * i by
      simp [sizeof_pack_header, sizeof_pack_item, PACK_LABEL_LEN], e6]
  rw [hi]

/-! ## Well-formed header blocks -/

theorem u32_of_int_lt (x : Int) : u32_of_int x < 4294967296 := by
  unfold u32_of_int; omega

theorem zero_item_wf : zero_item.wf :=
  ⟨by decide, by simp [zero_item], by decide, by decide, by decide, by decide, by decide⟩

theorem header_init_wf (rev : Nat) : (header_init rev).wf :=
  ⟨by simp [header_init, PACK_HDR_MAGIC], by simp [header_init], by simp [header_init],
    by simp [header_init], u32_lt _, by simp [header_init], by simp [header_init], by
      intro it hit
      rw [header_init, List.mem_replicate] at hit
      rw [hit.2]; exact zero_item_wf⟩

theorem recalc_header_crc_wf {h : pack_header} (hw : h.wf) : (recalc_header_crc h).wf :=
  ⟨hw.magic_lt, hw.version_lt, hw.n_items_lt, hw.pack_size_lt, hw.revision_lt, u32_lt _,
    hw.items_len, hw.items_wf⟩

theorem change_header_to_trailer_wf {h : pack_header} (hw : h.wf) :
    (change_header_to_trailer h).wf :=
  recalc_header_crc_wf ⟨by simp [PACK_TRAILER_MAGIC], hw.version_lt, hw.n_items_lt, hw.pack_size_lt,
    hw.revision_lt, hw.hdr_crc_lt, hw.items_len, hw.items_wf⟩

theorem strlen_le_length (s : List Byte) : strlen s ≤ s.length := by
  unfold strlen c_string
  exact (List.takeWhile_sublist _).length_le

theorem strcpy_label_length {s : List Byte} (h : strlen s ≤ PACK_LABEL_LEN) :
    (strcpy_label s).length = PACK_LABEL_LEN + 1 := by
  unfold strcpy_label
  rw [List.length_append, List.length_replicate]
  unfold strlen at *
  omega

theorem entry_wf {d : item_descriptor} (h : strlen d.label ≤ PACK_LABEL_LEN) (pos : Nat) :
    (d.entry pos).wf :=
  ⟨u32_lt _, strcpy_label_length h, u32_lt _, u32_lt _, u32_of_int_lt _, ALIGN_UP_lt _,
    crc32_lt _ _⟩

theorem set_items_wf {items : List pack_item} (h : ∀ it ∈ items, it.wf) {e : pack_item}
    (he : e.wf) (n : Nat) : ∀ it ∈ items.set n e, it.wf := by
  intro it hit
  rcases List.mem_or_eq_of_mem_set hit with hm | rfl
  · exact h it hm
  · exact he

/-! ## Writing to the pack file -/

theorem zero_padded_length (content : List Byte) (n : Nat) :
    (zero_padded content n).length = n := by
  unfold zero_padded
  rw [List.length_append, List.length_take, List.length_replicate]
  omega

theorem zero_padded_zero (content : List Byte) : zero_padded content 0 = [] := by
  simp [zero_padded]

theorem zero_padded_add (content : List Byte) (a b : Nat) :
    zero_padded content (a + b) = zero_padded content a ++ zero_padded (content.drop a) b := by
  unfold zero_padded
  rw [List.take_add, List.length_drop]
  by_cases h : a ≤ content.length
  · rw [show a - content.length = 0 by omega, List.replicate_zero, List.append_nil,
      show a + b - content.length = b - (content.length - a) by omega, List.append_assoc]
  · rw [List.drop_eq_nil_of_le (by omega), List.take_nil, List.append_nil,
      show content.length - a = 0 by omega, Nat.sub_zero, List.nil_append,
      List.append_assoc, ← List.replicate_add]
    congr 2
    omega

theorem read_block_eq (input : List Byte) : read_block input = zero_padded input 512 := rfl

theorem write_at_end (f : pack_file) (buf : List Byte) (h : f.pos = f.data.length) :
    f.write buf = { data := f.data ++ buf, pos := f.data.length + buf.length } := by
  unfold pack_file.write
  rw [h, List.take_length, Nat.sub_self, List.replicate_zero, List.append_nil,
    List.drop_eq_nil_of_le (by omega), List.append_nil]

/-- The copy loop, entered `k` blocks before the end with the file position at the end of
the file, appends the next `512 * k` bytes of the source, zero-padded, and chains the
checksum over them. -/
theorem copy_loop_blocks (k : Nat) : ∀ (load_size copied : Nat) (input : List Byte)
    (crc : Nat) (out : pack_file), load_size = copied + 512 * k → crc < 4294967296 →
    out.pos = out.data.length →
    copy_loop load_size copied input crc out =
      (crc32 crc (zero_padded input (512 * k)),
        { data := out.data ++ zero_padded input (512 * k),
          pos := out.data.length + 512 * k }) := by
  induction k with
  | zero =>
    intro load_size copied input crc out hl hc hp
    rw [copy_loop, if_neg (by omega), Nat.mul_zero, zero_padded_zero, crc32_nil hc,
      List.append_nil, Nat.add_zero, ← hp]
  | succ k ih =>
    intro load_size copied input crc out hl hc hp
    rw [copy_loop, if_pos (by omega)]
    simp only []
    rw [read_block_eq, write_at_end _ _ hp, u32_crc32,
      ih load_size (copied + PACK_BLOCK_SIZE) _ _ _ (by simp only [PACK_BLOCK_SIZE]; omega)
        (crc32_lt _ _) (by simp), crc32_append,
      show 512 * (k + 1) = 512 + 512 * k by omega, zero_padded_add]
    simp only [PACK_BLOCK_SIZE, List.append_assoc, List.length_append, zero_padded_length,
      Nat.add_assoc]

theorem copy_loop_eq (src : Source) (out : pack_file) (hp : out.pos = out.data.length) :
    copy_loop src.load_size 0 src.content 0 out =
      (crc32 0 src.payload,
        { data := out.data ++ src.payload, pos := out.data.length + src.load_size }) := by
  obtain ⟨k, hk⟩ := ALIGN_UP_dvd src.size
  have hk' : src.load_size = 512 * k := hk
  rw [copy_loop_blocks k src.load_size 0 src.content 0 out (by omega) (by decide) hp,
    Source.payload, hk']

/-! ## `add_item` and the item loop of `do_write` -/

/-- What `add_item` does for a descriptor it does not turn down, called with the file
position at the end of the file. -/
theorem add_item_of_accepted (d : item_descriptor) (s : session) (ha : d.accepted)
    (hp : s.out.pos = s.out.data.length) :
    add_item d.label d.flags d.load_addr d.file_name s =
      (if s.header.n_items < N_PACK_ITEMS then add_status.ok else add_status.capacity_exceeded,
        { header := (add_item_to_header s.header (d.entry s.out.pos)).2
          out := { data := s.out.data ++ d.file_name.payload
                   pos := s.out.data.length + d.file_name.load_size } }) := by
  obtain ⟨h1, h2, h3⟩ := ha
  have hs : ¬ u32_of_int (lseek_end d.file_name) ≤ 0 := by
    have : d.file_name.size ≠ 0 := h3
    unfold Source.size at this
    omega
  have hc := copy_loop_eq d.file_name s.out hp
  unfold Source.load_size Source.size at hc
  unfold add_item
  rw [if_neg (by omega), if_neg h2, if_neg hs]
  simp only [hc]
  unfold add_item_to_header item_descriptor.entry Source.load_size Source.size
  by_cases hn : s.header.n_items < N_PACK_ITEMS
  · simp [hn]
  · simp [hn]

/-- A descriptor that is turned down leaves the globals alone. -/
theorem add_item_of_not_accepted (d : item_descriptor) (s : session) (ha : ¬ d.accepted) :
    (add_item d.label d.flags d.load_addr d.file_name s).1.ret = -1 ∧
      (add_item d.label d.flags d.load_addr d.file_name s).2 = s := by
  unfold add_item
  by_cases h1 : strlen d.label > PACK_LABEL_LEN
  · rw [if_pos h1]; exact ⟨rfl, rfl⟩
  · rw [if_neg h1]
    by_cases h2 : d.file_name = .missing
    · rw [if_pos h2]; exact ⟨rfl, rfl⟩
    · rw [if_neg h2]
      by_cases h3 : u32_of_int (lseek_end d.file_name) ≤ 0
      · rw [if_pos h3]; exact ⟨rfl, rfl⟩
      · exfalso
        apply ha
        refine ⟨by omega, h2, ?_⟩
        unfold Source.size
        omega

theorem payloads_cons (d : item_descriptor) (ds : List item_descriptor) :
    payloads (d :: ds) = d.file_name.payload ++ payloads ds := rfl

theorem total_load_size_cons (d : item_descriptor) (ds : List item_descriptor) :
    total_load_size (d :: ds) = d.file_name.load_size + total_load_size ds := by
  simp [total_load_size]

theorem payload_length (src : Source) : src.payload.length = src.load_size :=
  zero_padded_length _ _

theorem payloads_length (ds : List item_descriptor) :
    (payloads ds).length = total_load_size ds := by
  induction ds with
  | nil => rfl
  | cons d ds ih =>
    rw [payloads_cons, total_load_size_cons, List.length_append, payload_length, ih]

/-- The item loop of `do_write` over descriptors that are not turned down and fit in the
table: every one is appended. -/
theorem write_items_of_accepted (ds : List item_descriptor) : ∀ (s : session),
    (∀ d ∈ ds, d.accepted) → s.header.n_items + ds.length ≤ N_PACK_ITEMS →
    s.out.pos = s.out.data.length →
    write_items ds s =
      (0, { header := { s.header with
              items := store_items s.header.items s.header.n_items (entries s.out.pos ds)
              n_items := s.header.n_items + ds.length }
            out := { data := s.out.data ++ payloads ds
                     pos := s.out.data.length + total_load_size ds } }) := by
  induction ds with
  | nil =>
    intro s _ _ hp
    simp only [write_items, entries, store_items, payloads, total_load_size, List.map_nil,
      List.flatten_nil, List.append_nil, List.sum_nil, List.length_nil, Nat.add_zero, ← hp]
  | cons d ds ih =>
    intro s ha hn hp
    have hlt : s.header.n_items < N_PACK_ITEMS := by
      rw [List.length_cons] at hn; omega
    have hN : N_PACK_ITEMS = 25 := by decide
    rw [write_items]
    simp only []
    rw [add_item_of_accepted d s (ha d (List.mem_cons_self _ _)) hp, if_pos hlt]
    simp only [add_status.ret, ne_eq, not_true_eq_false, if_false]
    rw [ih _ (fun x hx => ha x (List.mem_cons_of_mem _ hx))
      (by simp only [add_item_to_header, if_pos hlt, u32]
          rw [List.length_cons] at hn; omega) (by simp [payload_length])]
    simp only [add_item_to_header, if_pos hlt, entries, store_items, payloads_cons,
      total_load_size_cons, List.length_append, payload_length, List.append_assoc,
      List.length_cons, hp]
    rw [u32_of_lt (by omega)]
    simp only [Nat.add_assoc, Nat.add_comm 1]

/-- The item loop of `do_write` ends without `exit(1)` exactly when no descriptor is
turned down and all fit in the table. -/
theorem write_items_status (ds : List item_descriptor) : ∀ (s : session),
    s.header.n_items ≤ N_PACK_ITEMS → s.out.pos = s.out.data.length →
    ((write_items ds s).1 = 0 ↔
      (∀ d ∈ ds, d.accepted) ∧ s.header.n_items + ds.length ≤ N_PACK_ITEMS) := by
  induction ds with
  | nil =>
    intro s hn _
    simp [write_items, hn]
  | cons d ds ih =>
    intro s hn hp
    have hN : N_PACK_ITEMS = 25 := by decide
    rw [write_items]
    by_cases ha : d.accepted
    · rw [add_item_of_accepted d s ha hp]
      by_cases hlt : s.header.n_items < N_PACK_ITEMS
      · rw [if_pos hlt]
        simp only [add_status.ret, ne_eq, not_true_eq_false, if_false]
        rw [ih _ (by simp only [add_item_to_header, if_pos hlt, u32]; omega)
          (by simp [payload_length])]
        simp only [add_item_to_header, if_pos hlt, List.mem_cons, forall_eq_or_imp, ha,
          true_and, List.length_cons]
        rw [u32_of_lt (by omega)]
        constructor
        · rintro ⟨h1, h2⟩; exact ⟨h1, by omega⟩
        · rintro ⟨h1, h2⟩; exact ⟨h1, by omega⟩
      · rw [if_neg hlt]
        simp only [add_status.ret, List.length_cons]
        rw [if_pos (by decide)]
        constructor
        · intro h; simp at h
        · rintro ⟨_, h2⟩; omega
    · have := add_item_of_not_accepted d s ha
      rw [if_pos (by rw [this.1]; decide)]
      constructor
      · intro h; simp at h
      · rintro ⟨h1, _⟩; exact absurd (h1 d (List.mem_cons_self _ _)) ha

/-! ## The item table of a session -/

theorem store_items_length (es : List pack_item) : ∀ (items : List pack_item) (n : Nat),
    (store_items items n es).length = items.length := by
  induction es with
  | nil => intro items n; rfl
  | cons e es ih => intro items n; rw [store_items, ih, List.length_set]

theorem store_items_get_other (es : List pack_item) : ∀ (items : List pack_item) (n j : Nat),
    j < n ∨ n + es.length ≤ j → (store_items items n es)[j]? = items[j]? := by
  induction es with
  | nil => intro items n j _; rfl
  | cons e es ih =>
    intro items n j hj
    rw [store_items, ih _ _ _ (by rw [List.length_cons] at hj; omega),
      List.getElem?_set_ne (by rw [List.length_cons] at hj; omega)]

theorem store_items_get (es : List pack_item) : ∀ (items : List pack_item) (n i : Nat),
    i < es.length → n + es.length ≤ items.length →
    (store_items items n es)[n + i]? = es[i]? := by
  induction es with
  | nil => intro items n i hi; exact absurd hi (by simp)
  | cons e es ih =>
    intro items n i hi hn
    rw [List.length_cons] at hi hn
    rw [store_items]
    cases i with
    | zero =>
      rw [store_items_get_other _ _ _ _ (Or.inl (by omega))]
      simp only [Nat.add_zero, List.getElem?_cons_zero]
      exact List.getElem?_set_self (by omega)
    | succ i =>
      rw [show n + (i + 1) = (n + 1) + i by omega,
        ih _ _ _ (by omega) (by rw [List.length_set]; omega), List.getElem?_cons_succ]

theorem store_items_wf (es : List pack_item) : ∀ (items : List pack_item) (n : Nat),
    (∀ it ∈ items, it.wf) → (∀ e ∈ es, e.wf) → ∀ it ∈ store_items items n es, it.wf := by
  induction es with
  | nil => intro items n h _; exact h
  | cons e es ih =>
    intro items n h he
    rw [store_items]
    exact ih _ _ (set_items_wf h (he e (List.mem_cons_self _ _)) n)
      (fun x hx => he x (List.mem_cons_of_mem _ hx))

theorem entries_length (ds : List item_descriptor) : ∀ pos : Nat,
    (entries pos ds).length = ds.length := by
  induction ds with
  | nil => intro pos; rfl
  | cons d ds ih => intro pos; rw [entries, List.length_cons, ih, List.length_cons]

theorem total_load_size_nil : total_load_size [] = 0 := rfl

theorem entries_get (ds : List item_descriptor) : ∀ (pos i : Nat) (hi : i < ds.length),
    (entries pos ds)[i]? = some (ds[i].entry (pos + total_load_size (ds.take i))) := by
  induction ds with
  | nil => intro pos i hi; exact absurd hi (by simp)
  | cons d ds ih =>
    intro pos i hi
    cases i with
    | zero => simp [entries, total_load_size_nil]
    | succ i =>
      rw [List.length_cons] at hi
      rw [entries, List.getElem?_cons_succ, ih _ _ (by omega), List.take_succ_cons,
        total_load_size_cons, List.getElem_cons_succ, Nat.add_assoc]

theorem entries_wf (ds : List item_descriptor) (ha : ∀ d ∈ ds, d.accepted) : ∀ pos : Nat,
    ∀ e ∈ entries pos ds, e.wf := by
  induction ds with
  | nil => intro pos e he; exact absurd he (by simp [entries])
  | cons d ds ih =>
    intro pos e he
    rw [entries, List.mem_cons] at he
    rcases he with rfl | he
    · exact entry_wf (ha d (List.mem_cons_self _ _)).1 pos
    · exact ih (fun x hx => ha x (List.mem_cons_of_mem _ hx)) _ e he

theorem finalised_header_wf (rev : Nat) (ds : List item_descriptor)
    (ha : ∀ d ∈ ds, d.accepted) (hn : ds.length ≤ N_PACK_ITEMS) :
    (finalised_header rev ds).wf := by
  have h0 := header_init_wf rev
  have hN : N_PACK_ITEMS = 25 := by decide
  exact recalc_header_crc_wf ⟨h0.magic_lt, h0.version_lt, by show ds.length < _; omega,
    u32_lt _, h0.revision_lt, h0.hdr_crc_lt,
    by show (store_items _ _ _).length = _; rw [store_items_length]; exact h0.items_len,
    store_items_wf _ _ _ h0.items_wf (entries_wf ds ha _)⟩

/-! ## The write session -/

/-- The file and the header block a write session leaves when every descriptor is
appended: finalised header, payloads in order, trailer. -/
theorem do_write_of_accepted (rev : Nat) (ds : List item_descriptor)
    (ha : ∀ d ∈ ds, d.accepted) (hn : ds.length ≤ N_PACK_ITEMS) :
    do_write rev ds =
      (0, { header := change_header_to_trailer (finalised_header rev ds)
            out := { data := header_bytes (finalised_header rev ds) ++ payloads ds
                       ++ header_bytes (change_header_to_trailer (finalised_header rev ds))
                     pos := PACK_HEADER_SIZE + total_load_size ds + sizeof_header } }) := by
  have hl0 := header_bytes_length (header_init_wf rev)
  have hlf := header_bytes_length (finalised_header_wf rev ds ha hn)
  have hlt := header_bytes_length
    (change_header_to_trailer_wf (finalised_header_wf rev ds ha hn))
  have hw : ({ data := [], pos := 0 } : pack_file).write (header_bytes (header_init rev))
      = { data := header_bytes (header_init rev), pos := 1024 } := by
    rw [write_at_end _ _ rfl, hl0, List.nil_append, List.length_nil, Nat.zero_add]
  unfold do_write
  simp only [hw]
  rw [write_items_of_accepted ds _ ha (by simpa [header_init] using hn) (by simp [hl0])]
  simp only [ne_eq, not_true_eq_false, if_false, header_finalise, pack_file.seek_end,
    pack_file.seek_set, List.length_append, hl0, payloads_length]
  have hfin : recalc_header_crc
      { magic := (header_init rev).magic, version := (header_init rev).version,
        n_items := (header_init rev).n_items + ds.length,
        pack_size := u32 (1024 + total_load_size ds + sizeof_header),
        revision := (header_init rev).revision, hdr_crc := (header_init rev).hdr_crc,
        items := store_items (header_init rev).items (header_init rev).n_items
          (entries 1024 ds) } = finalised_header rev ds := by
    simp [finalised_header, header_init, PACK_HEADER_SIZE]
  rw [hfin]
  have hw2 : ({ data := header_bytes (header_init rev) ++ payloads ds, pos := 0 } :
      pack_file).write (header_bytes (finalised_header rev ds))
      = { data := header_bytes (finalised_header rev ds) ++ payloads ds, pos := 1024 } := by
    unfold pack_file.write
    simp only [List.take_zero, Nat.zero_sub, List.replicate_zero, List.nil_append,
      Nat.zero_add, hlf]
    rw [show (1024 : Nat) = (header_bytes (header_init rev)).length from hl0.symm,
      List.drop_left]
  rw [hw2]
  simp only []
  rw [write_at_end _ _ (by simp)]
  simp only [List.length_append, hlf, hlt, payloads_length, PACK_HEADER_SIZE, sizeof_header]

theorem do_write_status (rev : Nat) (ds : List item_descriptor) :
    (do_write rev ds).1 = 0 ↔ (∀ d ∈ ds, d.accepted) ∧ ds.length ≤ N_PACK_ITEMS := by
  have hl0 := header_bytes_length (header_init_wf rev)
  have hw : ({ data := [], pos := 0 } : pack_file).write (header_bytes (header_init rev))
      = { data := header_bytes (header_init rev), pos := 1024 } := by
    rw [write_at_end _ _ rfl, hl0, List.nil_append, List.length_nil, Nat.zero_add]
  have hs := write_items_status ds
    { header := header_init rev, out := { data := header_bytes (header_init rev), pos := 1024 } }
    (by simp [header_init]) (by simp [hl0])
  have e : (header_init rev).n_items + ds.length = ds.length := by simp [header_init]
  simp only [e] at hs
  rw [← hs]
  unfold do_write
  simp only [hw]
  split
  · rfl
  · rename_i h
    simp only [ne_eq, Decidable.not_not] at h
    simp [h]

/-! ## `add_item`: which return site is taken -/

theorem add_item_status (label : List Byte) (flags load_addr : Nat) (src : Source)
    (s : session) :
    (add_item label flags load_addr src s).1 =
      if strlen label > PACK_LABEL_LEN then add_status.label_too_long
      else if src = .missing then add_status.source_unavailable
      else if src.size ≤ 0 then add_status.empty_source
      else if s.header.n_items < N_PACK_ITEMS then add_status.ok
      else add_status.capacity_exceeded := by
  unfold add_item Source.size add_item_to_header
  by_cases h1 : strlen label > PACK_LABEL_LEN
  · simp only [if_pos h1]
  · simp only [if_neg h1]
    by_cases h2 : src = .missing
    · simp only [if_pos h2]
    · simp only [if_neg h2]
      by_cases h3 : u32_of_int (lseek_end src) ≤ 0
      · simp only [if_pos h3]
      · simp only [if_neg h3]
        by_cases h4 : s.header.n_items < N_PACK_ITEMS
        · simp [if_pos h4]
        · simp [if_neg h4]

/-- The header block after a call of `add_item` that returns 0. -/
theorem add_item_header (label : List Byte) (flags load_addr : Nat) (src : Source)
    (s : session) (hok : (add_item label flags load_addr src s).1 = add_status.ok) :
    (add_item label flags load_addr src s).2.header =
      { s.header with
        items := s.header.items.set s.header.n_items
          { flags := u32 flags
            label := strcpy_label label
            load_addr := u32 load_addr
            offset := u32 s.out.pos
            size := src.size
            load_size := src.load_size
            data_crc := (copy_loop src.load_size 0 src.content 0 s.out).1 }
        n_items := u32 (s.header.n_items + 1) } := by
  rw [add_item_status] at hok
  by_cases h1 : strlen label > PACK_LABEL_LEN
  · rw [if_pos h1] at hok; exact absurd hok (by decide)
  · rw [if_neg h1] at hok
    by_cases h2 : src = .missing
    · rw [if_pos h2] at hok; exact absurd hok (by decide)
    · rw [if_neg h2] at hok
      by_cases h3 : src.size ≤ 0
      · rw [if_pos h3] at hok; exact absurd hok (by decide)
      · rw [if_neg h3] at hok
        by_cases h4 : s.header.n_items < N_PACK_ITEMS
        · unfold Source.size at h3
          unfold add_item add_item_to_header Source.load_size Source.size
          simp [h1, h2, h3, h4]
        · rw [if_neg h4] at hok; exact absurd hok (by decide)

theorem Source.size_regular (content : List Byte) :
    (Source.regular content).size = u32 content.length := by
  unfold Source.size lseek_end
  exact u32_of_int_natCast _

/-! ## C2: alignment of `load_size` -/

/-- C2 (amended): the `load_size` that `add_item` records for a source of length `L` is
always a multiple of 512, and when `L ≤ 2 ^ 32 - 512` the recorded `size` is `L` and the
recorded `load_size` is `ceil(L / 512) * 512`, so `L ≤ load_size < L + 512`. -/
theorem load_size_alignment (label : List Byte) (flags load_addr : Nat) (content : List Byte)
    (s : session) (hslots : s.header.items.length = N_PACK_ITEMS)
    (hok : (add_item label flags load_addr (.regular content) s).1 = add_status.ok) :
    ∃ item : pack_item,
      (add_item label flags load_addr (.regular content) s).2.header.items[s.header.n_items]?
        = some item ∧
      item.load_size = ALIGN_UP item.size ∧
      512 ∣ item.load_size ∧
      (content.length ≤ 4294966784 →
        item.size = content.length ∧
        item.load_size = (content.length + 511) / 512 * 512 ∧
        content.length ≤ item.load_size ∧
        item.load_size - content.length < 512) := by
  have hn : s.header.n_items < N_PACK_ITEMS := by
    rw [add_item_status] at hok
    by_contra hc
    simp only [hc, if_false] at hok
    split at hok
    · exact absurd hok (by decide)
    · split at hok
      · exact absurd hok (by decide)
      · split at hok <;> exact absurd hok (by decide)
  rw [add_item_header _ _ _ _ _ hok]
  refine ⟨_, List.getElem?_set_self (by omega), rfl, ALIGN_UP_dvd _, ?_⟩
  intro hL
  have hsz : (Source.regular content).size = content.length := by
    rw [Source.size_regular, u32_of_lt (by omega)]
  have hls : (Source.regular content).load_size = (content.length + 511) / 512 * 512 := by
    unfold Source.load_size
    rw [hsz, ALIGN_UP_of_le hL]
  refine ⟨hsz, hls, ?_, ?_⟩
  · show content.length ≤ (Source.regular content).load_size
    rw [hls]; omega
  · show (Source.regular content).load_size - content.length < 512
    rw [hls]; omega

/-- C2, witness: a 600-byte source in a fresh session. -/
theorem load_size_alignment_witness :
    ∃ item : pack_item,
      (add_item [65] 0 0 (.regular (List.replicate 600 7))
        { header := header_init 0, out := { data := [], pos := 0 } }).2.header.items[0]?
        = some item ∧
      item.load_size = ALIGN_UP item.size ∧
      512 ∣ item.load_size ∧
      ((List.replicate 600 (7 : Byte)).length ≤ 4294966784 →
        item.size = (List.replicate 600 (7 : Byte)).length ∧
        item.load_size = ((List.replicate 600 (7 : Byte)).length + 511) / 512 * 512 ∧
        (List.replicate 600 (7 : Byte)).length ≤ item.load_size ∧
        item.load_size - (List.replicate 600 (7 : Byte)).length < 512) :=
  load_size_alignment [65] 0 0 (List.replicate 600 7)
    { header := header_init 0, out := { data := [], pos := 0 } } (by simp [header_init])
    (by rw [add_item_status, Source.size_regular, List.length_replicate]; decide)

/-- C2 as stated fails: for a source of `2 ^ 32 - 1` bytes `add_item` returns 0 and
records `load_size = 0`, not `2 ^ 32`; the recorded `load_size` is below the length. -/
theorem load_size_alignment_fails :
    ∃ item : pack_item,
      (add_item [65] 0 0 (.regular (List.replicate 4294967295 0))
        { header := header_init 0, out := { data := [], pos := 0 } }).1 = add_status.ok ∧
      (add_item [65] 0 0 (.regular (List.replicate 4294967295 0))
        { header := header_init 0, out := { data := [], pos := 0 } }).2.header.items[0]?
        = some item ∧
      item.load_size = 0 ∧
      item.load_size ≠ ((List.replicate 4294967295 (0 : Byte)).length + 511) / 512 * 512 ∧
      ¬ (List.replicate 4294967295 (0 : Byte)).length ≤ item.load_size := by
  have hsz : (Source.regular (List.replicate 4294967295 0)).size = 4294967295 := by
    rw [Source.size_regular, List.length_replicate]; rfl
  have hls : (Source.regular (List.replicate 4294967295 0)).load_size = 0 := by
    unfold Source.load_size
    rw [hsz]; decide
  have hok : (add_item [65] 0 0 (.regular (List.replicate 4294967295 0))
      { header := header_init 0, out := { data := [], pos := 0 } }).1 = add_status.ok := by
    rw [add_item_status, hsz]; decide
  rw [add_item_header _ _ _ _ _ hok, hls]
  refine ⟨_, hok, List.getElem?_set_self (by simp [header_init]; decide), rfl, ?_, ?_⟩
  · rw [List.length_replicate]; decide
  · rw [List.length_replicate]; decide

/-! ## C6: the capacity of the item table -/

/-- C6 (amended): `add_item_to_header` fails exactly when `n_items` is at least the
capacity `N_PACK_ITEMS`, which for a header block with `n_items` at most the capacity is
exactly when `n_items` equals the capacity, and then it leaves the block as it is;
otherwise it returns 0, stores the entry at index `n_items`, adds one to `n_items` and
leaves every other entry and every other field as it is. -/
theorem add_item_to_header_capacity (h : pack_header) (item : pack_item)
    (hslots : h.items.length = N_PACK_ITEMS) :
    ((add_item_to_header h item).1 = -1 ↔ N_PACK_ITEMS ≤ h.n_items) ∧
    ((add_item_to_header h item).1 = 0 ↔ h.n_items < N_PACK_ITEMS) ∧
    (h.n_items ≤ N_PACK_ITEMS →
      ((add_item_to_header h item).1 = -1 ↔ h.n_items = N_PACK_ITEMS)) ∧
    (N_PACK_ITEMS ≤ h.n_items → add_item_to_header h item = (-1, h)) ∧
    (h.n_items < N_PACK_ITEMS →
      (add_item_to_header h item).1 = 0 ∧
      (add_item_to_header h item).2.items[h.n_items]? = some item ∧
      (add_item_to_header h item).2.n_items = h.n_items + 1 ∧
      (∀ j : Nat, j ≠ h.n_items → (add_item_to_header h item).2.items[j]? = h.items[j]?) ∧
      (add_item_to_header h item).2.items.length = h.items.length ∧
      (add_item_to_header h item).2.magic = h.magic ∧
      (add_item_to_header h item).2.version = h.version ∧
      (add_item_to_header h item).2.pack_size = h.pack_size ∧
      (add_item_to_header h item).2.revision = h.revision ∧
      (add_item_to_header h item).2.hdr_crc = h.hdr_crc) := by
  have hN : N_PACK_ITEMS = 25 := by decide
  have h01 : ¬ ((0 : Int) = -1) := by decide
  have h10 : ¬ ((-1 : Int) = 0) := by decide
  unfold add_item_to_header
  by_cases hlt : h.n_items < N_PACK_ITEMS
  · rw [if_pos hlt]
    refine ⟨⟨fun hc => absurd hc h01, fun hc => by omega⟩,
      ⟨fun _ => hlt, fun _ => rfl⟩,
      fun _ => ⟨fun hc => absurd hc h01, fun hc => by omega⟩,
      fun hc => by omega, fun _ => ?_⟩
    refine ⟨rfl, List.getElem?_set_self (by omega), u32_of_lt (by omega), ?_,
      List.length_set _ _ _, rfl, rfl, rfl, rfl, rfl⟩
    intro j hj
    exact List.getElem?_set_ne (fun e => hj e.symm)
  · rw [if_neg hlt]
    exact ⟨⟨fun _ => by omega, fun _ => rfl⟩,
      ⟨fun hc => absurd hc h10, fun hc => absurd hc hlt⟩,
      fun hle => ⟨fun _ => by omega, fun _ => rfl⟩,
      fun _ => rfl, fun hc => absurd hc hlt⟩

/-- C6, witness: a full table, on which the call fails and leaves `n_items` at the
capacity, and the first entry of a fresh header block. -/
theorem add_item_to_header_capacity_witness :
    add_item_to_header { header_init 0 with n_items := N_PACK_ITEMS } zero_item
      = (-1, { header_init 0 with n_items := N_PACK_ITEMS }) ∧
    ((add_item_to_header { header_init 0 with n_items := N_PACK_ITEMS } zero_item).1 = -1 ↔
      ({ header_init 0 with n_items := N_PACK_ITEMS } : pack_header).n_items
        = N_PACK_ITEMS) ∧
    (add_item_to_header (header_init 0) zero_item).1 = 0 ∧
    (add_item_to_header (header_init 0) zero_item).2.n_items = (header_init 0).n_items + 1 :=
  have hfull := add_item_to_header_capacity { header_init 0 with n_items := N_PACK_ITEMS }
    zero_item (by simp [header_init])
  have hfresh := (add_item_to_header_capacity (header_init 0) zero_item
    (by simp [header_init])).2.2.2.2 (by decide)
  ⟨hfull.2.2.2.1 (Nat.le_refl _), hfull.2.2.1 (Nat.le_refl _), hfresh.1, hfresh.2.2.1⟩

/-- C6 as stated fails: on a header block whose `n_items` is 26, one more than the
capacity, `add_item_to_header` fails although `n_items` does not equal the capacity. -/
theorem add_item_to_header_capacity_fails :
    N_PACK_ITEMS = 25 ∧
    ({ header_init 0 with n_items := 26 } : pack_header).n_items ≠ N_PACK_ITEMS ∧
    (add_item_to_header { header_init 0 with n_items := 26 } zero_item).1 = -1 ∧
    add_item_to_header { header_init 0 with n_items := 26 } zero_item
      = (-1, { header_init 0 with n_items := 26 }) := by
  refine ⟨by decide, by decide, ?_, ?_⟩
  · unfold add_item_to_header
    rw [if_neg (by decide)]
  · unfold add_item_to_header
    rw [if_neg (by decide)]

/-! ## C7: the label bound -/

/-- C7 (amended): `add_item` returns at the "label too long" site exactly when the label is
longer than 15 bytes; with a regular source of `L` bytes, `0 < L < 2 ^ 32`, and a table
that is not full, a label of 15 bytes is accepted (the call returns 0) and a label of
16 bytes is turned down. -/
theorem label_bound (label : List Byte) (flags load_addr : Nat) (src : Source) (s : session) :
    ((add_item label flags load_addr src s).1 = add_status.label_too_long
      ↔ strlen label > 15) ∧
    (strlen label = 16 →
      (add_item label flags load_addr src s).1 = add_status.label_too_long ∧
      (add_item label flags load_addr src s).1.ret = -1) ∧
    (strlen label = 15 → s.header.n_items < N_PACK_ITEMS →
      ∀ content : List Byte, src = .regular content → 0 < content.length →
        content.length < 4294967296 →
        (add_item label flags load_addr src s).1 = add_status.ok ∧
        (add_item label flags load_addr src s).1.ret = 0) := by
  rw [add_item_status]
  refine ⟨?_, ?_, ?_⟩
  · by_cases h1 : strlen label > PACK_LABEL_LEN
    · rw [if_pos h1]
      simp only [true_iff]
      exact h1
    · rw [if_neg h1]
      constructor
      · intro hc
        split at hc
        · exact absurd hc (by decide)
        · split at hc
          · exact absurd hc (by decide)
          · split at hc <;> exact absurd hc (by decide)
      · intro hc
        exact absurd hc h1
  · intro h16
    rw [if_pos (by rw [h16]; decide)]
    exact ⟨rfl, rfl⟩
  · intro h15 hn content hsrc hpos hlt
    subst hsrc
    have hsz : (Source.regular content).size = content.length := by
      rw [Source.size_regular, u32_of_lt hlt]
    rw [if_neg (by rw [h15]; decide), if_neg (by simp), if_neg (by rw [hsz]; omega), if_pos hn]
    exact ⟨rfl, rfl⟩

/-- C7, witness: labels of 15 and of 16 bytes with a one-byte source in a fresh session. -/
theorem label_bound_witness :
    (add_item (List.replicate 15 65) 0 0 (.regular [1])
      { header := header_init 0, out := { data := [], pos := 0 } }).1 = add_status.ok ∧
    (add_item (List.replicate 16 65) 0 0 (.regular [1])
      { header := header_init 0, out := { data := [], pos := 0 } }).1
      = add_status.label_too_long :=
  ⟨((label_bound (List.replicate 15 65) 0 0 (.regular [1])
      { header := header_init 0, out := { data := [], pos := 0 } }).2.2 (by decide) (by decide)
      [1] rfl (by decide) (by decide)).1,
    ((label_bound (List.replicate 16 65) 0 0 (.regular [1])
      { header := header_init 0, out := { data := [], pos := 0 } }).2.1 (by decide)).1⟩

/-- C7 as stated fails: with a 15-byte label, a table that is not full and a non-empty
source of exactly `2 ^ 32` bytes, `add_item` turns the item down (the 32-bit `size` is
zero). -/
theorem label_bound_fails :
    strlen (List.replicate 15 65) = 15 ∧
    (List.replicate 4294967296 (0 : Byte)).length ≠ 0 ∧
    (header_init 0).n_items < N_PACK_ITEMS ∧
    (add_item (List.replicate 15 65) 0 0 (.regular (List.replicate 4294967296 0))
      { header := header_init 0, out := { data := [], pos := 0 } }).1
      = add_status.empty_source := by
  have hsz : (Source.regular (List.replicate 4294967296 0)).size = 0 := by
    rw [Source.size_regular, List.length_replicate]; rfl
  refine ⟨by decide, by rw [List.length_replicate]; decide, by decide, ?_⟩
  rw [add_item_status, hsz]
  decide

/-! ## The file a successful write session leaves -/

/-- The file and the header left by a write session that does not end in `exit(1)`. -/
theorem do_write_layout (rev : Nat) (ds : List item_descriptor)
    (hok : (do_write rev ds).1 = 0) :
    (do_write rev ds).2.out.data = header_bytes (finalised_header rev ds) ++
      (payloads ds ++ header_bytes (change_header_to_trailer (finalised_header rev ds))) ∧
    (do_write rev ds).2.header = change_header_to_trailer (finalised_header rev ds) ∧
    (finalised_header rev ds).wf ∧
    (∀ d ∈ ds, d.accepted) ∧ ds.length ≤ N_PACK_ITEMS := by
  obtain ⟨ha, hn⟩ := (do_write_status rev ds).1 hok
  rw [do_write_of_accepted rev ds ha hn]
  exact ⟨List.append_assoc _ _ _, rfl, finalised_header_wf rev ds ha hn, ha, hn⟩

theorem do_write_length (rev : Nat) (ds : List item_descriptor)
    (hok : (do_write rev ds).1 = 0) :
    (do_write rev ds).2.out.data.length = 1024 + total_load_size ds + 1024 := by
  obtain ⟨hf, _, hw, _, _⟩ := do_write_layout rev ds hok
  rw [hf, List.length_append, List.length_append, header_bytes_length hw,
    header_bytes_length (change_header_to_trailer_wf hw), payloads_length]
  omega

/-- The header block at the start of the file is the finalised header. -/
theorem do_write_header_block (rev : Nat) (ds : List item_descriptor)
    (hok : (do_write rev ds).1 = 0) :
    (do_write rev ds).2.out.data.take 1024 = header_bytes (finalised_header rev ds) := by
  obtain ⟨hf, _, hw, _, _⟩ := do_write_layout rev ds hok
  rw [hf, ← header_bytes_length hw]
  exact List.take_left _ _

/-- The block at the end of the file is the trailer. -/
theorem do_write_trailer_block (rev : Nat) (ds : List item_descriptor)
    (hok : (do_write rev ds).1 = 0) :
    (do_write rev ds).2.out.data.drop ((do_write rev ds).2.out.data.length - 1024)
      = header_bytes (change_header_to_trailer (finalised_header rev ds)) := by
  obtain ⟨hf, _, hw, _, _⟩ := do_write_layout rev ds hok
  rw [do_write_length rev ds hok, hf, ← List.append_assoc]
  apply List.drop_left'
  rw [List.length_append, header_bytes_length hw, payloads_length]
  omega

/-- What `memcpy(&header, buffer, sizeof(header))` reads back from the file. -/
theorem do_write_header_read (rev : Nat) (ds : List item_descriptor)
    (hok : (do_write rev ds).1 = 0) :
    header_of_bytes (do_write rev ds).2.out.data = finalised_header rev ds := by
  obtain ⟨hf, _, hw, _, _⟩ := do_write_layout rev ds hok
  rw [hf]
  exact header_of_bytes_header_bytes hw _

theorem header_bytes_drop_24 (h : pack_header) :
    (header_bytes h).drop 24 = (h.items.map item_bytes).flatten := by
  unfold header_bytes
  apply List.drop_left'
  simp only [List.length_append, le32_length]

theorem header_bytes_words (h : pack_header) :
    ((header_bytes h).take 20).drop 4
      = le32 h.version ++ le32 h.n_items ++ le32 h.pack_size ++ le32 h.revision := by
  have e : header_bytes h = (le32 h.magic ++ (le32 h.version ++ le32 h.n_items
      ++ le32 h.pack_size ++ le32 h.revision)) ++ (le32 h.hdr_crc
      ++ (h.items.map item_bytes).flatten) := by
    simp only [header_bytes, List.append_assoc]
  rw [e, List.take_left' (by simp only [List.length_append, le32_length])]
  exact List.drop_left' (le32_length _)

/-! ## C9: the trailer -/

/-- C9: `change_header_to_trailer` sets `magic` to the trailer tag, recomputes `hdr_crc` and
leaves `version`, `n_items`, `pack_size`, `revision` and the item table alone; in the file
of a successful write session the last 1024 bytes are the image of the trailer made from
the header block in the first 1024 bytes, and the two blocks agree on the bytes `[4, 20)`
(version, item count, pack size, revision) and `[24, 1024)` (the whole item table). -/
theorem trailer_consistency (rev : Nat) (ds : List item_descriptor)
    (hok : (do_write rev ds).1 = 0) :
    (∀ h : pack_header, change_header_to_trailer h =
      { h with magic := PACK_TRAILER_MAGIC, hdr_crc := (change_header_to_trailer h).hdr_crc }) ∧
    ((do_write rev ds).2.out.data.take 1024).length = 1024 ∧
    ((do_write rev ds).2.out.data.drop ((do_write rev ds).2.out.data.length - 1024)).length
      = 1024 ∧
    (do_write rev ds).2.out.data.drop ((do_write rev ds).2.out.data.length - 1024)
      = header_bytes (change_header_to_trailer
          (header_of_bytes ((do_write rev ds).2.out.data.take 1024))) ∧
    rd32 ((do_write rev ds).2.out.data.drop ((do_write rev ds).2.out.data.length - 1024))
      = 0x5041434B ∧
    (((do_write rev ds).2.out.data.drop ((do_write rev ds).2.out.data.length - 1024)).take 20
      ).drop 4 = (((do_write rev ds).2.out.data.take 1024).take 20).drop 4 ∧
    ((do_write rev ds).2.out.data.drop ((do_write rev ds).2.out.data.length - 1024)).drop 24
      = ((do_write rev ds).2.out.data.take 1024).drop 24 := by
  obtain ⟨_, _, hw, _, _⟩ := do_write_layout rev ds hok
  have hr : header_of_bytes (header_bytes (finalised_header rev ds))
      = finalised_header rev ds := by
    have := header_of_bytes_header_bytes hw []
    rwa [List.append_nil] at this
  rw [do_write_trailer_block rev ds hok, do_write_header_block rev ds hok, hr]
  refine ⟨fun h => rfl, header_bytes_length hw,
    header_bytes_length (change_header_to_trailer_wf hw), rfl, ?_, ?_, ?_⟩
  · have := rd32_le32 (show PACK_TRAILER_MAGIC < 4294967296 by decide)
      (le32 (finalised_header rev ds).version ++ (le32 (finalised_header rev ds).n_items ++
        (le32 (finalised_header rev ds).pack_size ++ (le32 (finalised_header rev ds).revision
        ++ (le32 (change_header_to_trailer (finalised_header rev ds)).hdr_crc ++
        (((finalised_header rev ds).items.map item_bytes).flatten))))))
    have e : (1346454347 : Nat) = PACK_TRAILER_MAGIC := rfl
    rw [e, ← this]
    simp only [header_bytes, change_header_to_trailer, recalc_header_crc, List.append_assoc]
  · rw [header_bytes_words, header_bytes_words]
    rfl
  · rw [header_bytes_drop_24, header_bytes_drop_24]
    rfl

/-- C9, witness: the session with no items. -/
theorem trailer_consistency_witness :
    ((do_write 0 []).2.out.data.drop ((do_write 0 []).2.out.data.length - 1024)).drop 24
      = ((do_write 0 []).2.out.data.take 1024).drop 24 :=
  (trailer_consistency 0 [] (by decide)).2.2.2.2.2.2

/-! ## C10: the header checksum -/

/-- C10: the header check of `verify_checksums` accepts every block that
`recalc_header_crc` produced, and leaves every block it checks as it found it; so in the
file of a successful write session both the header block and the trailer block pass the
check. -/
theorem header_checksum_valid :
    (∀ h : pack_header, header_check (recalc_header_crc h) = (recalc_header_crc h, true)) ∧
    (∀ h : pack_header, (header_check h).1 = h) ∧
    (∀ (rev : Nat) (ds : List item_descriptor), (do_write rev ds).1 = 0 →
      (header_check (header_of_bytes ((do_write rev ds).2.out.data.take 1024))).2 = true ∧
      (header_check (header_of_bytes ((do_write rev ds).2.out.data.drop
        ((do_write rev ds).2.out.data.length - 1024)))).2 = true) := by
  have h1 : ∀ h : pack_header,
      header_check (recalc_header_crc h) = (recalc_header_crc h, true) := by
    intro h
    simp [header_check, recalc_header_crc]
  refine ⟨h1, fun h => rfl, ?_⟩
  intro rev ds hok
  obtain ⟨_, _, hw, _, _⟩ := do_write_layout rev ds hok
  have hr : ∀ h : pack_header, h.wf → header_of_bytes (header_bytes h) = h := by
    intro h hh
    have := header_of_bytes_header_bytes hh []
    rwa [List.append_nil] at this
  rw [do_write_trailer_block rev ds hok, do_write_header_block rev ds hok, hr _ hw,
    hr _ (change_header_to_trailer_wf hw)]
  constructor
  · unfold finalised_header
    rw [h1]
  · unfold change_header_to_trailer
    rw [h1]

/-- C10, witness: the session with no items. -/
theorem header_checksum_valid_witness :
    (header_check (header_of_bytes ((do_write 0 []).2.out.data.take 1024))).2 = true :=
  (header_checksum_valid.2.2 0 [] (by decide)).1

/-! ## The item table of the finalised header -/

theorem finalised_item (rev : Nat) (ds : List item_descriptor) (hn : ds.length ≤ N_PACK_ITEMS)
    (i : Nat) (hi : i < ds.length) :
    (finalised_header rev ds).items[i]?
      = some (ds[i].entry (1024 + total_load_size (ds.take i))) := by
  have h := store_items_get (entries PACK_HEADER_SIZE ds) (header_init rev).items 0 i
    (by rw [entries_length]; exact hi)
    (by rw [entries_length, (header_init_wf rev).items_len]; omega)
  rw [Nat.zero_add] at h
  show (store_items (header_init rev).items 0 (entries PACK_HEADER_SIZE ds))[i]? = _
  rw [h, entries_get ds _ i hi]
  rfl

theorem finalised_n_items (rev : Nat) (ds : List item_descriptor) :
    (finalised_header rev ds).n_items = ds.length := rfl

theorem finalised_pack_size (rev : Nat) (ds : List item_descriptor) :
    (finalised_header rev ds).pack_size = u32 (1024 + total_load_size ds + 1024) := rfl

theorem finalised_magic (rev : Nat) (ds : List item_descriptor) :
    (finalised_header rev ds).magic = PACK_HDR_MAGIC := rfl

theorem finalised_version (rev : Nat) (ds : List item_descriptor) :
    (finalised_header rev ds).version = 1 := rfl

theorem finalised_revision (rev : Nat) (ds : List item_descriptor) :
    (finalised_header rev ds).revision = u32 rev := rfl

theorem total_load_size_append (xs ys : List item_descriptor) :
    total_load_size (xs ++ ys) = total_load_size xs + total_load_size ys := by
  unfold total_load_size
  rw [List.map_append, List.sum_append]

theorem total_load_size_single (d : item_descriptor) :
    total_load_size [d] = d.file_name.load_size := by
  unfold total_load_size
  rw [List.map_cons, List.map_nil, List.sum_cons, List.sum_nil, Nat.add_zero]

theorem total_load_size_take_succ (ds : List item_descriptor) (i : Nat) (hi : i < ds.length) :
    total_load_size (ds.take (i + 1))
      = total_load_size (ds.take i) + ds[i].file_name.load_size := by
  rw [List.take_succ, total_load_size_append, List.getElem?_eq_getElem hi, Option.toList,
    total_load_size_single]

theorem total_load_size_take_le (ds : List item_descriptor) (i j : Nat) (hij : i ≤ j) :
    total_load_size (ds.take i) ≤ total_load_size (ds.take j) := by
  have e : ds.take j = ds.take i ++ (ds.take j).drop i := by
    conv_lhs => rw [← List.take_append_drop i (ds.take j)]
    rw [List.take_take, Nat.min_eq_left hij]
  rw [e, total_load_size_append]
  omega

theorem total_load_size_take_le_total (ds : List item_descriptor) (i : Nat) :
    total_load_size (ds.take i) ≤ total_load_size ds := by
  by_cases hi : i ≤ ds.length
  · have h := total_load_size_take_le ds i ds.length hi
    rwa [List.take_length] at h
  · have e : ds.take i = ds := List.take_of_length_le (by omega)
    rw [e]

theorem store_items_take (es : List pack_item) (items : List pack_item)
    (h : es.length ≤ items.length) : (store_items items 0 es).take es.length = es := by
  apply List.ext_getElem?
  intro i
  by_cases hi : i < es.length
  · rw [List.getElem?_take_of_lt hi]
    have := store_items_get es items 0 i hi (by omega)
    rwa [Nat.zero_add] at this
  · rw [List.getElem?_eq_none (by rw [List.length_take, store_items_length]; omega),
      List.getElem?_eq_none (by omega)]

theorem entries_load_sizes (ds : List item_descriptor) : ∀ pos : Nat,
    (entries pos ds).map (fun e => e.load_size) = ds.map (fun d => d.file_name.load_size) := by
  induction ds with
  | nil => intro pos; rfl
  | cons d ds ih => intro pos; rw [entries, List.map_cons, List.map_cons, ih]; rfl

theorem finalised_load_sizes (rev : Nat) (ds : List item_descriptor)
    (hn : ds.length ≤ N_PACK_ITEMS) :
    (((finalised_header rev ds).items.take (finalised_header rev ds).n_items).map
      (fun e => e.load_size)).sum = total_load_size ds := by
  have h := store_items_take (entries PACK_HEADER_SIZE ds) (header_init rev).items
    (by rw [entries_length, (header_init_wf rev).items_len]; exact hn)
  rw [entries_length] at h
  show (((store_items (header_init rev).items 0 (entries PACK_HEADER_SIZE ds)).take
    ds.length).map (fun e => e.load_size)).sum = _
  rw [h, entries_load_sizes]
  rfl

theorem Source.load_size_regular (content : List Byte) :
    (Source.regular content).load_size = ALIGN_UP (u32 content.length) := by
  unfold Source.load_size
  rw [Source.size_regular]

/-! ## C4: the payloads lie one after the other -/

/-- C4 (amended): in the file of a successful write session that is shorter than
`2 ^ 32` bytes, the header block read back records as many entries as there were items;
entry 0 has offset 1024, each further entry starts where the one before ends, the last
one ends where the trailer block starts (so the ranges `[offset, offset + load_size)` are
disjoint, in table order and without gap between header block and trailer block). For
the items `A` (600 bytes) and `BOOT` (10 bytes) the entries are offset 1024, size 600,
load size 1024 and offset 2048, size 10, load size 512. -/
theorem contiguous_layout :
    (∀ (rev : Nat) (ds : List item_descriptor), (do_write rev ds).1 = 0 →
      (do_write rev ds).2.out.data.length < 4294967296 →
      (header_of_bytes (do_write rev ds).2.out.data).n_items = ds.length ∧
      (ds = [] → (do_write rev ds).2.out.data.length = 1024 + 1024) ∧
      (∀ i : Nat, i < ds.length → ∃ item : pack_item,
        (header_of_bytes (do_write rev ds).2.out.data).items[i]? = some item ∧
        (i = 0 → item.offset = 1024) ∧
        1024 ≤ item.offset ∧
        (i + 1 = ds.length →
          item.offset + item.load_size = (do_write rev ds).2.out.data.length - 1024) ∧
        (∀ j : Nat, i < j → j < ds.length → ∃ later : pack_item,
          (header_of_bytes (do_write rev ds).2.out.data).items[j]? = some later ∧
          (j = i + 1 → later.offset = item.offset + item.load_size) ∧
          item.offset + item.load_size ≤ later.offset))) ∧
    (∀ (rev flags0 addr0 flags1 addr1 : Nat) (a b : List Byte),
      a.length = 600 → b.length = 10 →
      ∃ item0 item1 : pack_item,
        (do_write rev [⟨[65], .regular a, flags0, addr0⟩,
          ⟨[66, 79, 79, 84], .regular b, flags1, addr1⟩]).1 = 0 ∧
        (header_of_bytes (do_write rev [⟨[65], .regular a, flags0, addr0⟩,
          ⟨[66, 79, 79, 84], .regular b, flags1, addr1⟩]).2.out.data).items[0]? = some item0 ∧
        (header_of_bytes (do_write rev [⟨[65], .regular a, flags0, addr0⟩,
          ⟨[66, 79, 79, 84], .regular b, flags1, addr1⟩]).2.out.data).items[1]? = some item1 ∧
        item0.offset = 1024 ∧ item0.size = 600 ∧ item0.load_size = 1024 ∧
        item1.offset = 2048 ∧ item1.size = 10 ∧ item1.load_size = 512) := by
  constructor
  · intro rev ds hok hfit
    obtain ⟨_, _, _, _, hn⟩ := do_write_layout rev ds hok
    have hlen := do_write_length rev ds hok
    rw [do_write_header_read rev ds hok]
    rw [hlen] at hfit
    refine ⟨rfl, ?_, ?_⟩
    · intro hnil
      rw [hlen, hnil, total_load_size_nil]
    · intro i hi
      have hti := total_load_size_take_le_total ds (i + 1)
      have hsi := total_load_size_take_succ ds i hi
      refine ⟨_, finalised_item rev ds hn i hi, ?_, ?_, ?_, ?_⟩
      · intro h0
        subst h0
        show u32 (1024 + total_load_size (ds.take 0)) = 1024
        rw [List.take_zero, total_load_size_nil]
        rfl
      · show 1024 ≤ u32 (1024 + total_load_size (ds.take i))
        rw [u32_of_lt (by omega)]
        omega
      · intro hlast
        show u32 (1024 + total_load_size (ds.take i)) + ds[i].file_name.load_size = _
        rw [u32_of_lt (by omega), hlen]
        rw [hlast, List.take_length] at hsi
        omega
      · intro j hij hj
        have htj := total_load_size_take_le_total ds j
        have hle := total_load_size_take_le ds (i + 1) j (by omega)
        refine ⟨_, finalised_item rev ds hn j hj, ?_, ?_⟩
        · intro hji
          subst hji
          show u32 (1024 + total_load_size (ds.take (i + 1)))
            = u32 (1024 + total_load_size (ds.take i)) + ds[i].file_name.load_size
          rw [u32_of_lt (by omega), u32_of_lt (by omega)]
          omega
        · show u32 (1024 + total_load_size (ds.take i)) + ds[i].file_name.load_size
            ≤ u32 (1024 + total_load_size (ds.take j))
          rw [u32_of_lt (by omega), u32_of_lt (by omega)]
          omega
  · intro rev flags0 addr0 flags1 addr1 a b ha hb
    have hsa : (Source.regular a).size = 600 := by rw [Source.size_regular, ha]; rfl
    have hsb : (Source.regular b).size = 10 := by rw [Source.size_regular, hb]; rfl
    have hla : (Source.regular a).load_size = 1024 := by
      unfold Source.load_size; rw [hsa]; decide
    have hlb : (Source.regular b).load_size = 512 := by
      unfold Source.load_size; rw [hsb]; decide
    have h2 : ([⟨[65], .regular a, flags0, addr0⟩,
        ⟨[66, 79, 79, 84], .regular b, flags1, addr1⟩] : List item_descriptor).length
          ≤ N_PACK_ITEMS := by
      show 2 ≤ N_PACK_ITEMS
      decide
    have hok : (do_write rev [⟨[65], .regular a, flags0, addr0⟩,
        ⟨[66, 79, 79, 84], .regular b, flags1, addr1⟩]).1 = 0 := by
      rw [do_write_status]
      refine ⟨?_, h2⟩
      intro d hd
      rw [List.mem_cons, List.mem_singleton] at hd
      rcases hd with rfl | rfl
      · exact ⟨show strlen [65] ≤ PACK_LABEL_LEN by decide, fun h => Source.noConfusion h,
          by rw [hsa]; decide⟩
      · exact ⟨show strlen [66, 79, 79, 84] ≤ PACK_LABEL_LEN by decide,
          fun h => Source.noConfusion h, by rw [hsb]; decide⟩
    rw [do_write_header_read rev _ hok]
    refine ⟨_, _, hok, finalised_item rev _ h2 0 (Nat.zero_lt_succ _),
      finalised_item rev _ h2 1 (Nat.succ_lt_succ (Nat.zero_lt_succ _)), ?_, hsa, hla, ?_, hsb,
      hlb⟩
    · rfl
    · show u32 (1024 + total_load_size [⟨[65], .regular a, flags0, addr0⟩]) = 2048
      rw [total_load_size_single, hla]
      rfl

/-- C4, witness: the items `A` (600 bytes) and `BOOT` (10 bytes). -/
theorem contiguous_layout_witness :
    ∃ item : pack_item,
      (header_of_bytes (do_write 5 [⟨[65], .regular (List.replicate 600 7), 0, 0⟩,
        ⟨[66, 79, 79, 84], .regular (List.replicate 10 9), 1, 4096⟩]).2.out.data).items[0]?
        = some item ∧
      (0 = 0 → item.offset = 1024) :=
  have hok := (contiguous_layout.2 5 0 0 1 4096 (List.replicate 600 7) (List.replicate 10 9)
    (List.length_replicate _ _) (List.length_replicate _ _)).choose_spec.choose_spec.1
  have h := (contiguous_layout.1 5 [⟨[65], .regular (List.replicate 600 7), 0, 0⟩,
      ⟨[66, 79, 79, 84], .regular (List.replicate 10 9), 1, 4096⟩] hok
    (by
      rw [do_write_length _ _ hok, total_load_size_cons, total_load_size_single,
        Source.load_size_regular, Source.load_size_regular, List.length_replicate,
        List.length_replicate]
      decide)).2.2 0 (Nat.zero_lt_succ _)
  ⟨h.choose, h.choose_spec.1, h.choose_spec.2.1⟩

/-- After a big first item the 32-bit offset of the second item wraps around. -/
theorem second_offset_wraps (big : List Byte) (hbig : big.length = 4294966784) :
    ∃ first second : pack_item,
      (do_write 0 [⟨[65], .regular big, 0, 0⟩, ⟨[66], .regular [1], 0, 0⟩]).1 = 0 ∧
      (header_of_bytes (do_write 0 [⟨[65], .regular big, 0, 0⟩,
        ⟨[66], .regular [1], 0, 0⟩]).2.out.data).items[0]? = some first ∧
      (header_of_bytes (do_write 0 [⟨[65], .regular big, 0, 0⟩,
        ⟨[66], .regular [1], 0, 0⟩]).2.out.data).items[1]? = some second ∧
      first.offset = 1024 ∧ first.load_size = 4294966784 ∧ second.offset = 512 ∧
      second.offset ≠ first.offset + first.load_size := by
  have hsz : (Source.regular big).size = 4294966784 := by
    rw [Source.size_regular, hbig]; rfl
  have hls : (Source.regular big).load_size = 4294966784 := by
    rw [Source.load_size_regular, hbig]; decide
  have h2 : ([⟨[65], .regular big, 0, 0⟩, ⟨[66], .regular [1], 0, 0⟩] :
      List item_descriptor).length ≤ N_PACK_ITEMS := by
    show 2 ≤ N_PACK_ITEMS
    decide
  have hok : (do_write 0 [⟨[65], .regular big, 0, 0⟩, ⟨[66], .regular [1], 0, 0⟩]).1 = 0 := by
    rw [do_write_status]
    refine ⟨?_, h2⟩
    intro d hd
    rw [List.mem_cons, List.mem_singleton] at hd
    rcases hd with rfl | rfl
    · exact ⟨show strlen [65] ≤ PACK_LABEL_LEN by decide, fun h => Source.noConfusion h,
        by rw [hsz]; decide⟩
    · exact ⟨show strlen [66] ≤ PACK_LABEL_LEN by decide, fun h => Source.noConfusion h,
        by decide⟩
  rw [do_write_header_read 0 _ hok]
  have e0 := finalised_item 0 _ h2 0 (Nat.zero_lt_succ _)
  have e1 := finalised_item 0 _ h2 1 (Nat.succ_lt_succ (Nat.zero_lt_succ _))
  simp only [List.getElem_cons_zero, List.take_zero, total_load_size_nil] at e0
  simp only [List.getElem_cons_succ, List.getElem_cons_zero, List.take_succ_cons,
    List.take_zero, total_load_size_single, hls] at e1
  refine ⟨_, _, hok, e0, e1, ?_, ?_, ?_, ?_⟩
  · show u32 (1024 + 0) = 1024
    decide
  · show (Source.regular big).load_size = 4294966784
    exact hls
  · show u32 (1024 + 4294966784) = 512
    decide
  · show u32 (1024 + 4294966784) ≠ u32 (1024 + 0) + (Source.regular big).load_size
    rw [hls]
    decide

/-- C4 as stated fails: after a successful session with a source of `2 ^ 32 - 512` bytes
followed by a one-byte source, entry 1 has offset 512, not `offset(0) + load_size(0)`. -/
theorem contiguous_layout_fails :
    ∃ first second : pack_item,
      (do_write 0 [⟨[65], .regular (List.replicate 4294966784 0), 0, 0⟩,
        ⟨[66], .regular [1], 0, 0⟩]).1 = 0 ∧
      (header_of_bytes (do_write 0 [⟨[65], .regular (List.replicate 4294966784 0), 0, 0⟩,
        ⟨[66], .regular [1], 0, 0⟩]).2.out.data).items[0]? = some first ∧
      (header_of_bytes (do_write 0 [⟨[65], .regular (List.replicate 4294966784 0), 0, 0⟩,
        ⟨[66], .regular [1], 0, 0⟩]).2.out.data).items[1]? = some second ∧
      first.offset = 1024 ∧ first.load_size = 4294966784 ∧ second.offset = 512 ∧
      second.offset ≠ first.offset + first.load_size :=
  second_offset_wraps (List.replicate 4294966784 0) (List.length_replicate _ _)

/-! ## C5: the pack size -/

/-- C5 (amended): in the file of a successful write session that is shorter than
`2 ^ 32` bytes, the `pack_size` of the header block is 1024 plus the sum of the `load_size`
of the entries plus 1024, which is the length of the file; with no items it is 2048, and
for the items `A` (600 bytes) and `BOOT` (10 bytes) it is 3584. -/
theorem pack_size_total :
    (∀ (rev : Nat) (ds : List item_descriptor), (do_write rev ds).1 = 0 →
      (do_write rev ds).2.out.data.length < 4294967296 →
      (header_of_bytes (do_write rev ds).2.out.data).pack_size
        = 1024 + (((header_of_bytes (do_write rev ds).2.out.data).items.take
            (header_of_bytes (do_write rev ds).2.out.data).n_items).map
              (fun e => e.load_size)).sum + 1024 ∧
      (header_of_bytes (do_write rev ds).2.out.data).pack_size
        = (do_write rev ds).2.out.data.length ∧
      (do_write rev ds).2.header.pack_size
        = (header_of_bytes (do_write rev ds).2.out.data).pack_size) ∧
    (∀ rev : Nat, (do_write rev []).1 = 0 ∧
      (header_of_bytes (do_write rev []).2.out.data).pack_size = 2048) ∧
    (∀ (rev flags0 addr0 flags1 addr1 : Nat) (a b : List Byte),
      a.length = 600 → b.length = 10 →
      (do_write rev [⟨[65], .regular a, flags0, addr0⟩,
        ⟨[66, 79, 79, 84], .regular b, flags1, addr1⟩]).1 = 0 ∧
      (header_of_bytes (do_write rev [⟨[65], .regular a, flags0, addr0⟩,
        ⟨[66, 79, 79, 84], .regular b, flags1, addr1⟩]).2.out.data).pack_size = 3584) := by
  refine ⟨?_, ?_, ?_⟩
  · intro rev ds hok hfit
    obtain ⟨_, hh, _, _, hn⟩ := do_write_layout rev ds hok
    have hlen := do_write_length rev ds hok
    rw [hlen] at hfit
    have hp : (finalised_header rev ds).pack_size = 1024 + total_load_size ds + 1024 := by
      rw [finalised_pack_size, u32_of_lt hfit]
    have ht : (change_header_to_trailer (finalised_header rev ds)).pack_size
        = (finalised_header rev ds).pack_size := rfl
    rw [do_write_header_read rev ds hok, finalised_load_sizes rev ds hn, hlen, hh, ht, hp]
    exact ⟨rfl, rfl, rfl⟩
  · intro rev
    have hok : (do_write rev []).1 = 0 := by
      rw [do_write_status]
      exact ⟨fun d hd => absurd hd (List.not_mem_nil d), Nat.zero_le _⟩
    rw [do_write_header_read rev _ hok, finalised_pack_size, total_load_size_nil]
    exact ⟨hok, rfl⟩
  · intro rev flags0 addr0 flags1 addr1 a b ha hb
    have hsa : (Source.regular a).size = 600 := by rw [Source.size_regular, ha]; rfl
    have hsb : (Source.regular b).size = 10 := by rw [Source.size_regular, hb]; rfl
    have hla : (Source.regular a).load_size = 1024 := by
      rw [Source.load_size_regular, ha]; decide
    have hlb : (Source.regular b).load_size = 512 := by
      rw [Source.load_size_regular, hb]; decide
    have hok : (do_write rev [⟨[65], .regular a, flags0, addr0⟩,
        ⟨[66, 79, 79, 84], .regular b, flags1, addr1⟩]).1 = 0 := by
      rw [do_write_status]
      refine ⟨?_, show 2 ≤ N_PACK_ITEMS by decide⟩
      intro d hd
      rw [List.mem_cons, List.mem_singleton] at hd
      rcases hd with rfl | rfl
      · exact ⟨show strlen [65] ≤ PACK_LABEL_LEN by decide, fun h => Source.noConfusion h,
          by rw [hsa]; decide⟩
      · exact ⟨show strlen [66, 79, 79, 84] ≤ PACK_LABEL_LEN by decide,
          fun h => Source.noConfusion h, by rw [hsb]; decide⟩
    rw [do_write_header_read rev _ hok, finalised_pack_size, total_load_size_cons,
      total_load_size_single, hla, hlb]
    exact ⟨hok, rfl⟩

/-- C5, witness: one item of 600 bytes. -/
theorem pack_size_total_witness :
    (header_of_bytes (do_write 5 [⟨[65], .regular (List.replicate 600 7), 0, 0⟩]).2.out.data
      ).pack_size
      = (do_write 5 [⟨[65], .regular (List.replicate 600 7), 0, 0⟩]).2.out.data.length :=
  have hok : (do_write 5 [⟨[65], .regular (List.replicate 600 7), 0, 0⟩]).1 = 0 := by
    rw [do_write_status]
    refine ⟨?_, show 1 ≤ N_PACK_ITEMS by decide⟩
    intro d hd
    rw [List.mem_singleton] at hd
    subst hd
    exact ⟨show strlen [65] ≤ PACK_LABEL_LEN by decide, fun h => Source.noConfusion h, by
      show (Source.regular (List.replicate 600 7)).size ≠ 0
      rw [Source.size_regular, List.length_replicate]; decide⟩
  (pack_size_total.1 5 [⟨[65], .regular (List.replicate 600 7), 0, 0⟩] hok (by
    rw [do_write_length _ _ hok, total_load_size_single, Source.load_size_regular,
      List.length_replicate]
    decide)).2.1

/-- With one item of `2 ^ 32 - 512` bytes the 32-bit `pack_size` wraps around. -/
theorem pack_size_wraps (big : List Byte) (hbig : big.length = 4294966784) :
    (do_write 0 [⟨[65], .regular big, 0, 0⟩]).1 = 0 ∧
    (header_of_bytes (do_write 0 [⟨[65], .regular big, 0, 0⟩]).2.out.data).pack_size = 1536 ∧
    (((header_of_bytes (do_write 0 [⟨[65], .regular big, 0, 0⟩]).2.out.data).items.take
        (header_of_bytes (do_write 0 [⟨[65], .regular big, 0, 0⟩]).2.out.data).n_items).map
          (fun e => e.load_size)).sum = 4294966784 ∧
    (header_of_bytes (do_write 0 [⟨[65], .regular big, 0, 0⟩]).2.out.data).pack_size
      ≠ 1024 + (((header_of_bytes (do_write 0 [⟨[65], .regular big, 0, 0⟩]
          ).2.out.data).items.take
        (header_of_bytes (do_write 0 [⟨[65], .regular big, 0, 0⟩]).2.out.data).n_items).map
          (fun e => e.load_size)).sum + 1024 := by
  have hsz : (Source.regular big).size = 4294966784 := by
    rw [Source.size_regular, hbig]; rfl
  have hls : (Source.regular big).load_size = 4294966784 := by
    rw [Source.load_size_regular, hbig]; decide
  have h1 : ([⟨[65], .regular big, 0, 0⟩] : List item_descriptor).length ≤ N_PACK_ITEMS := by
    show 1 ≤ N_PACK_ITEMS
    decide
  have hok : (do_write 0 [⟨[65], .regular big, 0, 0⟩]).1 = 0 := by
    rw [do_write_status]
    refine ⟨?_, h1⟩
    intro d hd
    rw [List.mem_singleton] at hd
    subst hd
    exact ⟨show strlen [65] ≤ PACK_LABEL_LEN by decide, fun h => Source.noConfusion h,
      by rw [hsz]; decide⟩
  rw [do_write_header_read 0 _ hok, finalised_load_sizes 0 _ h1, finalised_pack_size,
    total_load_size_single, hls]
  exact ⟨hok, by decide, rfl, by decide⟩

/-- C5 as stated fails: after a successful session with one source of `2 ^ 32 - 512`
bytes the `pack_size` of the header block is 1536, while the `load_size` of its one entry
is `2 ^ 32 - 512`. -/
theorem pack_size_total_fails :
    (do_write 0 [⟨[65], .regular (List.replicate 4294966784 0), 0, 0⟩]).1 = 0 ∧
    (header_of_bytes (do_write 0 [⟨[65], .regular (List.replicate 4294966784 0), 0, 0⟩]
      ).2.out.data).pack_size = 1536 ∧
    (((header_of_bytes (do_write 0 [⟨[65], .regular (List.replicate 4294966784 0), 0, 0⟩]
      ).2.out.data).items.take
        (header_of_bytes (do_write 0 [⟨[65], .regular (List.replicate 4294966784 0), 0, 0⟩]
          ).2.out.data).n_items).map (fun e => e.load_size)).sum = 4294966784 ∧
    (header_of_bytes (do_write 0 [⟨[65], .regular (List.replicate 4294966784 0), 0, 0⟩]
      ).2.out.data).pack_size
      ≠ 1024 + (((header_of_bytes (do_write 0
          [⟨[65], .regular (List.replicate 4294966784 0), 0, 0⟩]).2.out.data).items.take
        (header_of_bytes (do_write 0 [⟨[65], .regular (List.replicate 4294966784 0), 0, 0⟩]
          ).2.out.data).n_items).map (fun e => e.load_size)).sum + 1024 :=
  pack_size_wraps (List.replicate 4294966784 0) (List.length_replicate _ _)

/-! ## The item loop of `verify_checksums` -/

/-- When every read stays in bounds the item loop reports exactly the indices whose
checksum differs. -/
theorem verify_items_of_in_bounds (h : pack_header) (buffer : List Byte) (is : List Nat)
    (hb : ∀ i ∈ is, item_in_bounds h buffer i) :
    verify_items h buffer is = some (is.filter (item_mismatch h buffer)) := by
  induction is with
  | nil => rfl
  | cons i rest ih =>
    obtain ⟨item, hi, hle⟩ := hb i (List.mem_cons_self _ _)
    have ih' := ih (fun j hj => hb j (List.mem_cons_of_mem _ hj))
    have hm : item_mismatch h buffer i
        = decide (u32 (crc32 0 ((buffer.drop item.offset).take item.load_size))
            ≠ item.data_crc) := by
      unfold item_mismatch
      rw [hi]
    rw [verify_items, hi]
    simp only []
    rw [if_pos hle, ih', List.filter_cons, hm]
    by_cases hne : u32 (crc32 0 ((buffer.drop item.offset).take item.load_size)) ≠ item.data_crc
    · simp [hne]
    · simp [hne]

/-! ## Blocks laid one after the other in a file -/

theorem blocks_slice (bs : List (List Byte)) : ∀ (pre post : List Byte) (i : Nat)
    (hi : i < bs.length),
    ((pre ++ (bs.flatten ++ post)).drop (pre.length + ((bs.take i).map List.length).sum)).take
      bs[i].length = bs[i] := by
  induction bs with
  | nil => intro pre post i hi; exact absurd hi (by simp)
  | cons b bs ih =>
    intro pre post i hi
    cases i with
    | zero =>
      rw [List.take_zero, List.map_nil, List.sum_nil, Nat.add_zero, List.drop_left,
        List.flatten_cons, List.append_assoc, List.getElem_cons_zero, List.take_left]
    | succ i =>
      rw [List.length_cons] at hi
      have h := ih (pre ++ b) post i (by omega)
      rw [List.append_assoc, List.length_append] at h
      rw [List.take_succ_cons, List.map_cons, List.sum_cons, List.flatten_cons,
        List.append_assoc, List.getElem_cons_succ, ← Nat.add_assoc]
      exact h

theorem blocks_set (bs : List (List Byte)) : ∀ (pre post : List Byte) (k q : Nat) (v : Byte)
    (hk : k < bs.length), q < bs[k].length →
    (pre ++ (bs.flatten ++ post)).set (pre.length + ((bs.take k).map List.length).sum + q) v
      = pre ++ ((bs.set k (bs[k].set q v)).flatten ++ post) := by
  induction bs with
  | nil => intro pre post k q v hk; exact absurd hk (by simp)
  | cons b bs ih =>
    intro pre post k q v hk hq
    cases k with
    | zero =>
      rw [List.getElem_cons_zero] at hq
      rw [List.take_zero, List.map_nil, List.sum_nil, Nat.add_zero, List.set_cons_zero,
        List.flatten_cons, List.flatten_cons, List.getElem_cons_zero, List.append_assoc,
        List.append_assoc, List.set_append_right _ _ (by omega),
        show pre.length + q - pre.length = q by omega, List.set_append_left _ _ hq]
    | succ k =>
      rw [List.length_cons] at hk
      rw [List.getElem_cons_succ] at hq
      have h := ih (pre ++ b) post k q v (by omega) hq
      rw [List.append_assoc, List.append_assoc, List.length_append] at h
      rw [List.take_succ_cons, List.map_cons, List.sum_cons, List.flatten_cons,
        List.append_assoc, List.getElem_cons_succ, List.set_cons_succ, List.flatten_cons,
        List.append_assoc, ← Nat.add_assoc]
      exact h

theorem blocks_get (bs : List (List Byte)) : ∀ (pre post : List Byte) (k q : Nat)
    (hk : k < bs.length), q < bs[k].length →
    (pre ++ (bs.flatten ++ post))[pre.length + ((bs.take k).map List.length).sum + q]?
      = bs[k][q]? := by
  induction bs with
  | nil => intro pre post k q hk; exact absurd hk (by simp)
  | cons b bs ih =>
    intro pre post k q hk hq
    cases k with
    | zero =>
      rw [List.getElem_cons_zero] at hq
      rw [List.take_zero, List.map_nil, List.sum_nil, Nat.add_zero, List.flatten_cons,
        List.getElem_cons_zero, List.append_assoc, List.getElem?_append_right (by omega),
        show pre.length + q - pre.length = q by omega, List.getElem?_append_left hq]
    | succ k =>
      rw [List.length_cons] at hk
      rw [List.getElem_cons_succ] at hq
      have h := ih (pre ++ b) post k q (by omega) hq
      rw [List.append_assoc, List.length_append] at h
      rw [List.take_succ_cons, List.map_cons, List.sum_cons, List.flatten_cons,
        List.append_assoc, List.getElem_cons_succ, ← Nat.add_assoc]
      exact h

/-! ## C3: zero padding -/

theorem zero_padded_of_le (content : List Byte) (n : Nat) (h : content.length ≤ n) :
    zero_padded content n = content ++ List.replicate (n - content.length) 0 := by
  unfold zero_padded
  rw [List.take_of_length_le h]

theorem add_item_ok_accepted (label : List Byte) (flags load_addr : Nat) (src : Source)
    (s : session) (hok : (add_item label flags load_addr src s).1 = add_status.ok) :
    (item_descriptor.mk label src flags load_addr).accepted ∧
      s.header.n_items < N_PACK_ITEMS := by
  rw [add_item_status] at hok
  by_cases h1 : strlen label > PACK_LABEL_LEN
  · rw [if_pos h1] at hok; exact absurd hok (by decide)
  · rw [if_neg h1] at hok
    by_cases h2 : src = .missing
    · rw [if_pos h2] at hok; exact absurd hok (by decide)
    · rw [if_neg h2] at hok
      by_cases h3 : src.size ≤ 0
      · rw [if_pos h3] at hok; exact absurd hok (by decide)
      · rw [if_neg h3] at hok
        by_cases h4 : s.header.n_items < N_PACK_ITEMS
        · exact ⟨⟨by show strlen label ≤ PACK_LABEL_LEN; omega, h2,
            by show src.size ≠ 0; omega⟩, h4⟩
        · rw [if_neg h4] at hok; exact absurd hok (by decide)

/-- C3 (amended): when `add_item` is called with the output file positioned at its end (as
in every call of a write session) and returns 0 for a source of length `L`, the file grows
by exactly the recorded `load_size` bytes, what was in the file before stays, and the new
bytes are the first `load_size` bytes of the source followed by zeros; when
`L ≤ 2 ^ 32 - 512` the first `L` new bytes are the source and the bytes at `[L, load_size)`
are zero. -/
theorem zero_padding (label : List Byte) (flags load_addr : Nat) (content : List Byte)
    (s : session) (hslots : s.header.items.length = N_PACK_ITEMS)
    (hpos : s.out.pos = s.out.data.length)
    (hok : (add_item label flags load_addr (.regular content) s).1 = add_status.ok) :
    ∃ (item : pack_item) (appended : List Byte),
      (add_item label flags load_addr (.regular content) s).2.header.items[s.header.n_items]?
        = some item ∧
      (add_item label flags load_addr (.regular content) s).2.out.data
        = s.out.data ++ appended ∧
      (add_item label flags load_addr (.regular content) s).2.out.pos
        = s.out.pos + item.load_size ∧
      appended.length = item.load_size ∧
      appended = content.take item.load_size
        ++ List.replicate (item.load_size - content.length) 0 ∧
      (content.length ≤ 4294966784 →
        content.length ≤ item.load_size ∧
        appended.take content.length = content ∧
        ∀ i : Nat, content.length ≤ i → i < item.load_size → appended[i]? = some 0) := by
  obtain ⟨ha, hn⟩ := add_item_ok_accepted _ _ _ _ _ hok
  have hN : N_PACK_ITEMS = 25 := by decide
  have h := add_item_of_accepted ⟨label, .regular content, flags, load_addr⟩ s ha hpos
  have h' : add_item label flags load_addr (.regular content) s = _ := h
  rw [h']
  simp only [add_item_to_header, if_pos hn]
  refine ⟨_, _, List.getElem?_set_self (by omega), rfl, by rw [hpos]; rfl,
    payload_length _, rfl, ?_⟩
  intro hL
  have hsz : (Source.regular content).size = content.length := by
    rw [Source.size_regular, u32_of_lt (by omega)]
  have hls : (Source.regular content).load_size = (content.length + 511) / 512 * 512 := by
    unfold Source.load_size
    rw [hsz, ALIGN_UP_of_le hL]
  have hle : content.length ≤ (Source.regular content).load_size := by
    rw [hls]; omega
  have hp : (Source.regular content).payload
      = content ++ List.replicate ((Source.regular content).load_size - content.length) 0 :=
    zero_padded_of_le content _ hle
  refine ⟨hle, ?_, ?_⟩
  · show List.take content.length (Source.regular content).payload = content
    rw [hp, List.take_left]
  · intro i hi1 hi2
    show (Source.regular content).payload[i]? = some 0
    rw [hp, List.getElem?_append_right hi1, List.getElem?_replicate]
    have hi3 : i < (Source.regular content).load_size := hi2
    rw [if_pos (by omega)]

/-- C3, witness: a three-byte source appended to a file of two bytes. -/
theorem zero_padding_witness :
    ∃ (item : pack_item) (appended : List Byte),
      (add_item [65] 0 0 (.regular [1, 2, 3])
        { header := header_init 0, out := { data := [9, 9], pos := 2 } }).2.out.data
        = [9, 9] ++ appended ∧
      appended.length = item.load_size ∧
      appended.take 3 = [1, 2, 3] :=
  have h := zero_padding [65] 0 0 [1, 2, 3]
    { header := header_init 0, out := { data := [9, 9], pos := 2 } }
    (by rw [(header_init_wf 0).items_len]) rfl (by rw [add_item_status]; decide)
  ⟨h.choose, h.choose_spec.choose, h.choose_spec.choose_spec.2.1,
    h.choose_spec.choose_spec.2.2.2.1,
    (h.choose_spec.choose_spec.2.2.2.2.2 (by decide)).2.1⟩

/-- A source of `2 ^ 32 - 1` bytes is accepted and nothing of it is written. -/
theorem nothing_written (content : List Byte) (hc : content.length = 4294967295) :
    (add_item [65] 0 0 (.regular content)
      { header := header_init 0, out := { data := [], pos := 0 } }).1 = add_status.ok ∧
    (add_item [65] 0 0 (.regular content)
      { header := header_init 0, out := { data := [], pos := 0 } }).2.out.data = [] ∧
    ¬ ∃ appended : List Byte,
      (add_item [65] 0 0 (.regular content)
        { header := header_init 0, out := { data := [], pos := 0 } }).2.out.data
        = [] ++ appended ∧ appended.take content.length = content := by
  have hsz : (Source.regular content).size = 4294967295 := by
    rw [Source.size_regular, hc]; rfl
  have hls : (Source.regular content).load_size = 0 := by
    rw [Source.load_size_regular, hc]; decide
  have ha : (item_descriptor.mk [65] (.regular content) 0 0).accepted :=
    ⟨show strlen [65] ≤ PACK_LABEL_LEN by decide, fun h => Source.noConfusion h,
      by show (Source.regular content).size ≠ 0; rw [hsz]; decide⟩
  have h := add_item_of_accepted ⟨[65], .regular content, 0, 0⟩
    { header := header_init 0, out := { data := [], pos := 0 } } ha rfl
  have h' : add_item [65] 0 0 (.regular content)
      { header := header_init 0, out := { data := [], pos := 0 } } = _ := h
  have hp : (Source.regular content).payload = [] := by
    apply List.eq_nil_of_length_eq_zero
    rw [payload_length, hls]
  rw [h']
  simp only [hp, List.append_nil, List.nil_append]
  refine ⟨by decide, trivial, ?_⟩
  rintro ⟨appended, rfl, ht⟩
  rw [List.take_nil] at ht
  rw [← ht] at hc
  exact absurd hc (by decide)

/-- C3 as stated fails: a non-empty source of `2 ^ 32 - 1` bytes is accepted by `add_item`
(it returns 0), but no byte is appended to the output file, so the appended bytes do not
start with the source bytes. -/
theorem zero_padding_fails :
    (add_item [65] 0 0 (.regular (List.replicate 4294967295 0))
      { header := header_init 0, out := { data := [], pos := 0 } }).1 = add_status.ok ∧
    (add_item [65] 0 0 (.regular (List.replicate 4294967295 0))
      { header := header_init 0, out := { data := [], pos := 0 } }).2.out.data = [] ∧
    ¬ ∃ appended : List Byte,
      (add_item [65] 0 0 (.regular (List.replicate 4294967295 0))
        { header := header_init 0, out := { data := [], pos := 0 } }).2.out.data
        = [] ++ appended ∧
      appended.take (List.replicate 4294967295 (0 : Byte)).length
        = List.replicate 4294967295 0 :=
  nothing_written (List.replicate 4294967295 0) (List.length_replicate _ _)

/-! ## The payloads in the file -/

theorem payload_blocks_lengths (ds : List item_descriptor) : ∀ i : Nat,
    (((ds.map (fun d => d.file_name.payload)).take i).map List.length).sum
      = total_load_size (ds.take i) := by
  induction ds with
  | nil => intro i; rw [List.map_nil, List.take_nil, List.take_nil, List.map_nil]; rfl
  | cons d ds ih =>
    intro i
    cases i with
    | zero => rw [List.take_zero, List.take_zero, List.map_nil]; rfl
    | succ i =>
      rw [List.map_cons, List.take_succ_cons, List.take_succ_cons, List.map_cons,
        List.sum_cons, total_load_size_cons, ih, payload_length]

theorem header_check_recalc (h : pack_header) :
    header_check (recalc_header_crc h) = (recalc_header_crc h, true) := by
  simp [header_check, recalc_header_crc]

/-- The bytes of the file a table entry points at are the payload written for it. -/
theorem payload_slice (ds : List item_descriptor) (pre post : List Byte) (i : Nat)
    (hi : i < ds.length) :
    ((pre ++ (payloads ds ++ post)).drop (pre.length + total_load_size (ds.take i))).take
      ds[i].file_name.load_size = ds[i].file_name.payload := by
  have h := blocks_slice (ds.map (fun d => d.file_name.payload)) pre post i
    (by rw [List.length_map]; exact hi)
  rw [payload_blocks_lengths, List.getElem_map, payload_length] at h
  exact h

/-- Every read of the item loop of `verify_checksums` on the file of a successful write
session shorter than `2 ^ 32` bytes stays in bounds, and reads the payload written for the
entry. -/
theorem do_write_item (rev : Nat) (ds : List item_descriptor) (hok : (do_write rev ds).1 = 0)
    (hfit : (do_write rev ds).2.out.data.length < 4294967296) (i : Nat) (hi : i < ds.length) :
    (finalised_header rev ds).items[i]?
      = some (ds[i].entry (1024 + total_load_size (ds.take i))) ∧
    (ds[i].entry (1024 + total_load_size (ds.take i))).offset
      = 1024 + total_load_size (ds.take i) ∧
    1024 + total_load_size (ds.take i) + ds[i].file_name.load_size
      ≤ 1024 + total_load_size ds := by
  obtain ⟨_, _, _, _, hn⟩ := do_write_layout rev ds hok
  rw [do_write_length rev ds hok] at hfit
  have h1 := total_load_size_take_succ ds i hi
  have h2 := total_load_size_take_le_total ds (i + 1)
  have h3 := total_load_size_take_le_total ds i
  refine ⟨finalised_item rev ds hn i hi, ?_, by omega⟩
  show u32 (1024 + total_load_size (ds.take i)) = _
  rw [u32_of_lt (by omega)]

/-! ## C1: the round trip -/

/-- C1 (amended): for at most `N_PACK_ITEMS` descriptors whose labels have at most 15 bytes
and whose sources are non-empty buffers of at most `2 ^ 32 - 512` bytes, with the file
written shorter than `2 ^ 32` bytes, the write session succeeds, the header check and every
item check of `verify_checksums` on the file pass, and the `size` of entry `i` read back
from the file is the length of the `i`-th source. -/
theorem round_trip (rev : Nat) (ds : List item_descriptor) (hN : ds.length ≤ N_PACK_ITEMS)
    (hlabel : ∀ d ∈ ds, strlen d.label ≤ 15)
    (hsrc : ∀ d ∈ ds, ∃ content : List Byte, d.file_name = .regular content ∧ content ≠ [] ∧
      content.length ≤ 4294966784)
    (hfit : (do_write rev ds).2.out.data.length < 4294967296) :
    (do_write rev ds).1 = 0 ∧
    (header_check (header_of_bytes (do_write rev ds).2.out.data)).2 = true ∧
    verify_checksums (header_of_bytes (do_write rev ds).2.out.data)
      (do_write rev ds).2.out.data = verify_result.checked [] ∧
    (header_of_bytes (do_write rev ds).2.out.data).n_items = ds.length ∧
    ∀ (i : Nat) (hi : i < ds.length), ∃ item : pack_item,
      (header_of_bytes (do_write rev ds).2.out.data).items[i]? = some item ∧
      item.size = ds[i].file_name.content.length := by
  have hsize : ∀ d ∈ ds, d.file_name.size = d.file_name.content.length ∧
      d.file_name.content.length ≠ 0 ∧ d.file_name ≠ .missing := by
    intro d hd
    obtain ⟨content, hc, hne, hle⟩ := hsrc d hd
    rw [hc, Source.size_regular, u32_of_lt (by omega)]
    exact ⟨rfl, fun h => hne (List.eq_nil_of_length_eq_zero h), fun h => Source.noConfusion h⟩
  have ha : ∀ d ∈ ds, d.accepted := by
    intro d hd
    obtain ⟨h1, h2, h3⟩ := hsize d hd
    exact ⟨hlabel d hd, h3, by rw [h1]; exact h2⟩
  have hok : (do_write rev ds).1 = 0 := (do_write_status rev ds).2 ⟨ha, hN⟩
  obtain ⟨hf, _, hw, _, _⟩ := do_write_layout rev ds hok
  have hlen := do_write_length rev ds hok
  have hread := do_write_header_read rev ds hok
  have hcheck : header_check (finalised_header rev ds) = (finalised_header rev ds, true) := by
    unfold finalised_header
    exact header_check_recalc _
  have hitems : ∀ i ∈ List.range ds.length,
      item_in_bounds (finalised_header rev ds) (do_write rev ds).2.out.data i ∧
      item_mismatch (finalised_header rev ds) (do_write rev ds).2.out.data i = false := by
    intro i hi
    rw [List.mem_range] at hi
    obtain ⟨h1, h2, h3⟩ := do_write_item rev ds hok hfit i hi
    constructor
    · refine ⟨_, h1, ?_⟩
      rw [h2, hlen]
      show 1024 + total_load_size (ds.take i) + ds[i].file_name.load_size ≤ _
      omega
    · unfold item_mismatch
      rw [h1]
      simp only []
      rw [h2, hf]
      have hs := payload_slice ds (header_bytes (finalised_header rev ds))
        (header_bytes (change_header_to_trailer (finalised_header rev ds))) i hi
      rw [header_bytes_length hw] at hs
      have hs' : List.take (ds[i].entry (1024 + total_load_size (ds.take i))).load_size
          (List.drop (1024 + total_load_size (ds.take i))
            (header_bytes (finalised_header rev ds) ++ (payloads ds ++
              header_bytes (change_header_to_trailer (finalised_header rev ds)))))
          = ds[i].file_name.payload := hs
      rw [hs', u32_crc32]
      exact decide_eq_false (fun h => h rfl)
  refine ⟨hok, ?_, ?_, ?_, ?_⟩
  · rw [hread, hcheck]
  · unfold verify_checksums
    rw [hread, hcheck]
    simp only [Bool.true_eq_false, if_false]
    rw [finalised_n_items, verify_items_of_in_bounds _ _ _ (fun i hi => (hitems i hi).1),
      List.filter_eq_nil_iff.2 (fun i hi => by rw [(hitems i hi).2]; exact Bool.false_ne_true)]
  · rw [hread]; rfl
  · intro i hi
    rw [hread]
    refine ⟨_, finalised_item rev ds hN i hi, ?_⟩
    exact (hsize ds[i] (List.getElem_mem hi)).1

/-- C1, witness: the items `A` (600 bytes) and `BOOT` (10 bytes). -/
theorem round_trip_witness :
    verify_checksums
      (header_of_bytes (do_write 5 [⟨[65], .regular (List.replicate 600 7), 0, 0⟩,
        ⟨[66, 79, 79, 84], .regular (List.replicate 10 9), 1, 4096⟩]).2.out.data)
      (do_write 5 [⟨[65], .regular (List.replicate 600 7), 0, 0⟩,
        ⟨[66, 79, 79, 84], .regular (List.replicate 10 9), 1, 4096⟩]).2.out.data
      = verify_result.checked [] :=
  have hok : (do_write 5 [⟨[65], .regular (List.replicate 600 7), 0, 0⟩,
      ⟨[66, 79, 79, 84], .regular (List.replicate 10 9), 1, 4096⟩]).1 = 0 := by
    rw [do_write_status]
    refine ⟨?_, show 2 ≤ N_PACK_ITEMS by decide⟩
    intro d hd
    rw [List.mem_cons, List.mem_singleton] at hd
    rcases hd with rfl | rfl
    · exact ⟨show strlen [65] ≤ PACK_LABEL_LEN by decide, fun h => Source.noConfusion h, by
        show (Source.regular (List.replicate 600 7)).size ≠ 0
        rw [Source.size_regular, List.length_replicate]; decide⟩
    · exact ⟨show strlen [66, 79, 79, 84] ≤ PACK_LABEL_LEN by decide,
        fun h => Source.noConfusion h, by
        show (Source.regular (List.replicate 10 9)).size ≠ 0
        rw [Source.size_regular, List.length_replicate]; decide⟩
  (round_trip 5 [⟨[65], .regular (List.replicate 600 7), 0, 0⟩,
      ⟨[66, 79, 79, 84], .regular (List.replicate 10 9), 1, 4096⟩]
    (show 2 ≤ N_PACK_ITEMS by decide)
    (by
      intro d hd
      rw [List.mem_cons, List.mem_singleton] at hd
      rcases hd with rfl | rfl
      · show strlen [65] ≤ 15
        decide
      · show strlen [66, 79, 79, 84] ≤ 15
        decide)
    (by
      intro d hd
      rw [List.mem_cons, List.mem_singleton] at hd
      rcases hd with rfl | rfl
      · exact ⟨_, rfl, by decide, by rw [List.length_replicate]; decide⟩
      · exact ⟨_, rfl, by decide, by rw [List.length_replicate]; decide⟩)
    (by
      rw [do_write_length _ _ hok, total_load_size_cons, total_load_size_single,
        Source.load_size_regular, Source.load_size_regular, List.length_replicate,
        List.length_replicate]
      decide)).2.2.1

/-- The `size` field keeps only the low 32 bits of the length of a source. -/
theorem size_truncated (content : List Byte) (hc : content.length = 4294967297) :
    ([⟨[65], .regular content, 0, 0⟩] : List item_descriptor).length ≤ N_PACK_ITEMS ∧
    strlen [65] ≤ 15 ∧ content ≠ [] ∧
    (do_write 0 [⟨[65], .regular content, 0, 0⟩]).1 = 0 ∧
    ∃ item : pack_item,
      (header_of_bytes (do_write 0 [⟨[65], .regular content, 0, 0⟩]).2.out.data).items[0]?
        = some item ∧
      item.size = 1 ∧ item.size ≠ content.length := by
  have hsz : (Source.regular content).size = 1 := by
    rw [Source.size_regular, hc]; rfl
  have h1 : ([⟨[65], .regular content, 0, 0⟩] : List item_descriptor).length
      ≤ N_PACK_ITEMS := by
    show 1 ≤ N_PACK_ITEMS
    decide
  have hok : (do_write 0 [⟨[65], .regular content, 0, 0⟩]).1 = 0 := by
    rw [do_write_status]
    refine ⟨?_, h1⟩
    intro d hd
    rw [List.mem_singleton] at hd
    subst hd
    exact ⟨show strlen [65] ≤ PACK_LABEL_LEN by decide, fun h => Source.noConfusion h,
      by rw [hsz]; decide⟩
  refine ⟨h1, by decide, ?_, hok, ?_⟩
  · intro hnil
    rw [hnil] at hc
    exact absurd hc (by decide)
  · rw [do_write_header_read 0 _ hok]
    have e0 := finalised_item 0 _ h1 0 (Nat.zero_lt_succ _)
    simp only [List.getElem_cons_zero, List.take_zero, total_load_size_nil] at e0
    refine ⟨_, e0, hsz, ?_⟩
    show (Source.regular content).size ≠ content.length
    rw [hsz, hc]
    decide

/-- C1 as stated fails: one descriptor with a one-byte label and a non-empty source of
`2 ^ 32 + 1` bytes is written without error, and the `size` read back from entry 0 of the
file is 1, not the length of the source. -/
theorem round_trip_fails :
    ([⟨[65], .regular (List.replicate 4294967297 0), 0, 0⟩] : List item_descriptor).length
      ≤ N_PACK_ITEMS ∧
    strlen [65] ≤ 15 ∧ List.replicate 4294967297 (0 : Byte) ≠ [] ∧
    (do_write 0 [⟨[65], .regular (List.replicate 4294967297 0), 0, 0⟩]).1 = 0 ∧
    ∃ item : pack_item,
      (header_of_bytes (do_write 0 [⟨[65], .regular (List.replicate 4294967297 0), 0, 0⟩]
        ).2.out.data).items[0]? = some item ∧
      item.size = 1 ∧ item.size ≠ (List.replicate 4294967297 (0 : Byte)).length :=
  size_truncated (List.replicate 4294967297 0) (List.length_replicate _ _)

/-! ## One changed byte -/

theorem crc32_set_ne (crc : Nat) (b : List Byte) (q : Nat) (v : Byte) (hq : q < b.length)
    (hv : b[q]? ≠ some v) : crc32 crc (b.set q v) ≠ crc32 crc b := by
  have hne : v ≠ b[q] := by
    intro h
    apply hv
    rw [List.getElem?_eq_getElem hq, h]
  have h1 : b.set q v = b.take q ++ v :: b.drop (q + 1) := by
    rw [List.set_eq_take_append_cons_drop, if_pos hq]
  have h2 : b = b.take q ++ b[q] :: b.drop (q + 1) := by
    conv_lhs => rw [← List.take_append_drop q b, List.drop_eq_getElem_cons hq]
  rw [h1]
  conv_rhs => rw [h2]
  exact crc32_one_byte crc _ _ v b[q] hne

theorem filter_range_single (f : Nat → Bool) (k : Nat) : ∀ n : Nat, k < n →
    (∀ i : Nat, i < n → f i = decide (i = k)) → (List.range n).filter f = [k] := by
  intro n
  induction n with
  | zero => intro hk; exact absurd hk (Nat.not_lt_zero _)
  | succ n ih =>
    intro hk hf
    rw [List.range_succ, List.filter_append]
    by_cases hkn : k = n
    · subst hkn
      have h1 : (List.range k).filter f = [] := by
        rw [List.filter_eq_nil_iff]
        intro i hi
        rw [List.mem_range] at hi
        rw [hf i (by omega)]
        simp only [decide_eq_true_eq]
        omega
      have h2 : [k].filter f = [k] := by
        rw [List.filter_cons, hf k (by omega)]
        simp
      rw [h1, h2, List.nil_append]
    · have h1 := ih (by omega) (fun i hi => hf i (by omega))
      have h2 : [n].filter f = [] := by
        rw [List.filter_cons, hf n (by omega)]
        have : decide (n = k) = false := decide_eq_false (fun h => hkn h.symm)
        rw [this]
        rfl
      rw [h1, h2, List.append_nil]

theorem blocks_slice_of_get (bs : List (List Byte)) (pre post : List Byte) (i : Nat)
    (b : List Byte) (hb : bs[i]? = some b) :
    ((pre ++ (bs.flatten ++ post)).drop (pre.length + ((bs.take i).map List.length).sum)).take
      b.length = b := by
  obtain ⟨hi, rfl⟩ := List.getElem?_eq_some_iff.1 hb
  exact blocks_slice bs pre post i hi

theorem set_lengths (bs : List (List Byte)) (k q : Nat) (v : Byte) (b : List Byte)
    (hb : bs[k]? = some b) : (bs.set k (b.set q v)).map List.length = bs.map List.length := by
  apply List.ext_getElem?
  intro j
  rw [List.map_set, List.getElem?_set, List.length_set]
  by_cases hkj : k = j
  · subst hkj
    obtain ⟨hk, rfl⟩ := List.getElem?_eq_some_iff.1 hb
    rw [if_pos rfl, if_pos (by rw [List.length_map]; exact hk),
      List.getElem?_eq_getElem (by rw [List.length_map]; exact hk), List.getElem_map]
  · rw [if_neg hkj]

theorem take_lengths_sum (bs cs : List (List Byte)) (h : bs.map List.length = cs.map List.length)
    (i : Nat) : ((bs.take i).map List.length).sum = ((cs.take i).map List.length).sum := by
  rw [List.map_take, List.map_take, h]

/-- The bytes a table entry points at after one byte of the payload of entry `k` was
replaced: the payload of entry `k` with that byte replaced, every other payload as
written. -/
theorem tampered_slice (ds : List item_descriptor) (pre post : List Byte) (k q : Nat)
    (v : Byte) (hk : k < ds.length) (hq : q < ds[k].file_name.load_size) (i : Nat)
    (hi : i < ds.length) :
    (((pre ++ (payloads ds ++ post)).set (pre.length + total_load_size (ds.take k) + q) v).drop
      (pre.length + total_load_size (ds.take i))).take ds[i].file_name.load_size
      = if i = k then ds[k].file_name.payload.set q v else ds[i].file_name.payload := by
  have hkb : k < (ds.map (fun d => d.file_name.payload)).length := by
    rw [List.length_map]; exact hk
  have hgk : (ds.map (fun d => d.file_name.payload))[k]? = some ds[k].file_name.payload := by
    rw [List.getElem?_eq_getElem hkb, List.getElem_map]
  have hgi : (ds.map (fun d => d.file_name.payload))[i]? = some ds[i].file_name.payload := by
    rw [List.getElem?_eq_getElem (by rw [List.length_map]; exact hi), List.getElem_map]
  have hset := blocks_set (ds.map (fun d => d.file_name.payload)) pre post k q v hkb
    (by rw [List.getElem_map, payload_length]; exact hq)
  rw [payload_blocks_lengths, List.getElem_map] at hset
  have hlen := set_lengths (ds.map (fun d => d.file_name.payload)) k q v _ hgk
  have hsum := take_lengths_sum _ _ hlen i
  rw [payload_blocks_lengths] at hsum
  show (((pre ++ ((ds.map (fun d => d.file_name.payload)).flatten ++ post)).set _ v).drop _).take
    _ = _
  rw [hset, ← hsum]
  by_cases hik : i = k
  · subst hik
    rw [if_pos rfl]
    have hg : ((ds.map (fun d => d.file_name.payload)).set i
        (ds[i].file_name.payload.set q v))[i]? = some (ds[i].file_name.payload.set q v) :=
      List.getElem?_set_self (by rw [List.length_map]; exact hi)
    have h := blocks_slice_of_get _ pre post i _ hg
    rw [List.length_set, payload_length] at h
    exact h
  · rw [if_neg hik]
    have hg : ((ds.map (fun d => d.file_name.payload)).set k
        (ds[k].file_name.payload.set q v))[i]? = some ds[i].file_name.payload := by
      rw [List.getElem?_set_ne (fun h => hik h.symm)]
      exact hgi
    have h := blocks_slice_of_get _ pre post i _ hg
    rw [payload_length] at h
    exact h

/-- The byte of the file at a position inside the payload of entry `k`. -/
theorem payload_get (ds : List item_descriptor) (pre post : List Byte) (k q : Nat)
    (hk : k < ds.length) (hq : q < ds[k].file_name.load_size) :
    (pre ++ (payloads ds ++ post))[pre.length + total_load_size (ds.take k) + q]?
      = ds[k].file_name.payload[q]? := by
  have hkb : k < (ds.map (fun d => d.file_name.payload)).length := by
    rw [List.length_map]; exact hk
  have h := blocks_get (ds.map (fun d => d.file_name.payload)) pre post k q hkb
    (by rw [List.getElem_map, payload_length]; exact hq)
  rw [payload_blocks_lengths, List.getElem_map] at h
  exact h

/-! ## C8: tamper detection -/

/-- Validation of the file of a successful write session, shorter than `2 ^ 32` bytes,
after the byte at offset `q` of the payload of entry `k` was replaced by another value. -/
theorem verify_tampered (rev : Nat) (ds : List item_descriptor)
    (hok : (do_write rev ds).1 = 0)
    (hfit : (do_write rev ds).2.out.data.length < 4294967296)
    (k q : Nat) (v : Byte) (hk : k < ds.length) (hq : q < ds[k].file_name.load_size)
    (hv : (do_write rev ds).2.out.data[1024 + total_load_size (ds.take k) + q]? ≠ some v) :
    header_of_bytes ((do_write rev ds).2.out.data.set
      (1024 + total_load_size (ds.take k) + q) v) = finalised_header rev ds ∧
    verify_checksums (finalised_header rev ds) ((do_write rev ds).2.out.data.set
      (1024 + total_load_size (ds.take k) + q) v) = verify_result.checked [k] := by
  obtain ⟨hf, _, hw, _, hn⟩ := do_write_layout rev ds hok
  have hlen := do_write_length rev ds hok
  have hHb := header_bytes_length hw
  have hcheck : header_check (finalised_header rev ds) = (finalised_header rev ds, true) := by
    unfold finalised_header
    exact header_check_recalc _
  have hset : (do_write rev ds).2.out.data.set (1024 + total_load_size (ds.take k) + q) v
      = header_bytes (finalised_header rev ds) ++
        ((payloads ds ++ header_bytes (change_header_to_trailer (finalised_header rev ds))).set
          (total_load_size (ds.take k) + q) v) := by
    rw [hf, List.set_append_right _ _ (by rw [hHb]; omega), hHb,
      show 1024 + total_load_size (ds.take k) + q - 1024 = total_load_size (ds.take k) + q
        by omega]
  have hvq : ds[k].file_name.payload[q]? ≠ some v := by
    have h := payload_get ds (header_bytes (finalised_header rev ds))
      (header_bytes (change_header_to_trailer (finalised_header rev ds))) k q hk hq
    rw [hHb, ← hf] at h
    rw [← h]
    exact hv
  have hitems : ∀ i ∈ List.range ds.length,
      item_in_bounds (finalised_header rev ds) ((do_write rev ds).2.out.data.set
        (1024 + total_load_size (ds.take k) + q) v) i ∧
      item_mismatch (finalised_header rev ds) ((do_write rev ds).2.out.data.set
        (1024 + total_load_size (ds.take k) + q) v) i = decide (i = k) := by
    intro i hi
    rw [List.mem_range] at hi
    obtain ⟨h1, h2, h3⟩ := do_write_item rev ds hok hfit i hi
    constructor
    · refine ⟨_, h1, ?_⟩
      rw [h2, List.length_set, hlen]
      show 1024 + total_load_size (ds.take i) + ds[i].file_name.load_size ≤ _
      omega
    · unfold item_mismatch
      rw [h1]
      simp only []
      rw [h2, hf]
      have hs := tampered_slice ds (header_bytes (finalised_header rev ds))
        (header_bytes (change_header_to_trailer (finalised_header rev ds))) k q v hk hq i hi
      rw [hHb] at hs
      have hs' : List.take (ds[i].entry (1024 + total_load_size (ds.take i))).load_size
          (List.drop (1024 + total_load_size (ds.take i))
            ((header_bytes (finalised_header rev ds) ++ (payloads ds ++
              header_bytes (change_header_to_trailer (finalised_header rev ds)))).set
                (1024 + total_load_size (ds.take k) + q) v))
          = if i = k then ds[k].file_name.payload.set q v else ds[i].file_name.payload := hs
      rw [hs', u32_crc32]
      by_cases hik : i = k
      · subst hik
        rw [if_pos rfl]
        have hne := crc32_set_ne 0 ds[i].file_name.payload q v
          (by rw [payload_length]; exact hq) hvq
        have e : (ds[i].entry (1024 + total_load_size (ds.take i))).data_crc
            = crc32 0 ds[i].file_name.payload := rfl
        rw [e, decide_eq_true hne, decide_eq_true rfl]
      · rw [if_neg hik, decide_eq_false hik]
        exact decide_eq_false (fun h => h rfl)
  constructor
  · rw [hset]
    exact header_of_bytes_header_bytes hw _
  · unfold verify_checksums
    rw [hcheck]
    simp only [Bool.true_eq_false, if_false]
    rw [finalised_n_items, verify_items_of_in_bounds _ _ _ (fun i hi => (hitems i hi).1),
      filter_range_single _ k ds.length hk
        (fun i hi => (hitems i (List.mem_range.2 hi)).2)]

/-- C8 (amended): in the file of a successful write session that is shorter than
`2 ^ 32` bytes, replacing the byte at any position inside the range
`[offset, offset + load_size)` of entry `k` by a different value leaves the header check
passing and makes `verify_checksums` report a checksum mismatch for entry `k` and for no
other entry. -/
theorem tamper_detection (rev : Nat) (ds : List item_descriptor)
    (hok : (do_write rev ds).1 = 0)
    (hfit : (do_write rev ds).2.out.data.length < 4294967296)
    (k : Nat) (item : pack_item)
    (hk : k < (header_of_bytes (do_write rev ds).2.out.data).n_items)
    (hitem : (header_of_bytes (do_write rev ds).2.out.data).items[k]? = some item)
    (p : Nat) (hlow : item.offset ≤ p) (hhigh : p < item.offset + item.load_size)
    (v : Byte) (hv : (do_write rev ds).2.out.data[p]? ≠ some v) :
    (header_check (header_of_bytes ((do_write rev ds).2.out.data.set p v))).2 = true ∧
    verify_checksums (header_of_bytes ((do_write rev ds).2.out.data.set p v))
      ((do_write rev ds).2.out.data.set p v) = verify_result.checked [k] := by
  rw [do_write_header_read rev ds hok] at hk hitem
  have hk' : k < ds.length := hk
  obtain ⟨h1, h2, _⟩ := do_write_item rev ds hok hfit k hk'
  rw [h1] at hitem
  have hitem' := (Option.some.inj hitem).symm
  subst hitem'
  rw [h2] at hlow hhigh
  have hls : (ds[k].entry (1024 + total_load_size (ds.take k))).load_size
      = ds[k].file_name.load_size := rfl
  rw [hls] at hhigh
  have hp : p = 1024 + total_load_size (ds.take k) + (p - (1024 + total_load_size (ds.take k))) := by
    omega
  rw [hp] at hv ⊢
  obtain ⟨e1, e2⟩ := verify_tampered rev ds hok hfit k
    (p - (1024 + total_load_size (ds.take k))) v hk' (by omega) hv
  rw [e1]
  refine ⟨?_, e2⟩
  unfold finalised_header
  rw [header_check_recalc]

theorem item_mismatch_eq (h : pack_header) (buffer : List Byte) (i : Nat) (item : pack_item)
    (hi : h.items[i]? = some item) :
    item_mismatch h buffer i
      = decide (u32 (crc32 0 ((buffer.drop item.offset).take item.load_size))
          ≠ item.data_crc) := by
  unfold item_mismatch
  rw [hi]

/-- What `verify_checksums` returns for a header block that passes the header check when
every read of the item loop stays in bounds. -/
theorem verify_checksums_of_valid (h : pack_header) (buffer : List Byte)
    (hc : header_check h = (h, true))
    (hb : ∀ i ∈ List.range h.n_items, item_in_bounds h buffer i) :
    verify_checksums h buffer
      = verify_result.checked ((List.range h.n_items).filter (item_mismatch h buffer)) := by
  unfold verify_checksums
  rw [hc]
  simp only [Bool.true_eq_false, if_false]
  rw [verify_items_of_in_bounds _ _ _ hb]

theorem entry_offset (d : item_descriptor) (pos : Nat) : (d.entry pos).offset = u32 pos := rfl

theorem entry_load_size (d : item_descriptor) (pos : Nat) :
    (d.entry pos).load_size = d.file_name.load_size := rfl

theorem entry_data_crc (d : item_descriptor) (pos : Nat) :
    (d.entry pos).data_crc = crc32 0 d.file_name.payload := rfl

theorem entry_size (d : item_descriptor) (pos : Nat) :
    (d.entry pos).size = d.file_name.size := rfl

theorem finalised_header_check (rev : Nat) (ds : List item_descriptor) :
    header_check (finalised_header rev ds) = (finalised_header rev ds, true) := by
  unfold finalised_header
  exact header_check_recalc _
/-- C8, witness: one item of one byte, whose first payload byte is replaced. -/
theorem tamper_detection_witness :
    verify_checksums
      (header_of_bytes ((do_write 0 [⟨[65], .regular [7], 0, 0⟩]).2.out.data.set 1024 0))
      ((do_write 0 [⟨[65], .regular [7], 0, 0⟩]).2.out.data.set 1024 0)
      = verify_result.checked [0] :=
  have h1 : ([⟨[65], .regular [7], 0, 0⟩] : List item_descriptor).length ≤ N_PACK_ITEMS :=
    show 1 ≤ N_PACK_ITEMS by decide
  have hok : (do_write 0 [⟨[65], .regular [7], 0, 0⟩]).1 = 0 := by
    rw [do_write_status]
    refine ⟨?_, h1⟩
    intro d hd
    rw [List.mem_singleton] at hd
    subst hd
    exact ⟨show strlen [65] ≤ PACK_LABEL_LEN by decide, fun h => Source.noConfusion h,
      show (Source.regular [7]).size ≠ 0 by decide⟩
  have hls : (Source.regular [7]).load_size = 512 := by decide
  have hitem : (header_of_bytes (do_write 0 [⟨[65], .regular [7], 0, 0⟩]).2.out.data).items[0]?
      = some ((⟨[65], .regular [7], 0, 0⟩ : item_descriptor).entry 1024) := by
    rw [do_write_header_read 0 _ hok]
    have e0 := finalised_item 0 _ h1 0 (Nat.zero_lt_succ _)
    simp only [List.getElem_cons_zero, List.take_zero, total_load_size_nil] at e0
    exact e0
  (tamper_detection 0 [⟨[65], .regular [7], 0, 0⟩] hok
    (by rw [do_write_length _ _ hok, total_load_size_single, hls]; decide)
    0 _ (by rw [do_write_header_read 0 _ hok]; exact Nat.zero_lt_succ _) hitem 1024
    (by show u32 1024 ≤ 1024; decide)
    (by show 1024 < u32 1024 + (Source.regular [7]).load_size; rw [hls]; decide)
    0 (by
      have hg := payload_get [⟨[65], .regular [7], 0, 0⟩]
        (header_bytes (finalised_header 0 [⟨[65], .regular [7], 0, 0⟩]))
        (header_bytes (change_header_to_trailer
          (finalised_header 0 [⟨[65], .regular [7], 0, 0⟩]))) 0 0 (Nat.zero_lt_succ _)
        (by show 0 < (Source.regular [7]).load_size; rw [hls]; decide)
      rw [← (do_write_layout 0 _ hok).1,
        header_bytes_length (do_write_layout 0 _ hok).2.2.1] at hg
      simp only [List.take_zero, total_load_size_nil, List.getElem_cons_zero] at hg
      rw [hg]
      show (zero_padded [7] (Source.regular [7]).load_size)[0]? ≠ some 0
      rw [hls, zero_padded_of_le [7] 512 (by decide),
        List.getElem?_append_left (show 0 < [(7 : Byte)].length by decide)]
      decide)).2

theorem zero_item_bytes : item_bytes zero_item = List.replicate 40 0 := by decide

theorem zero_items_bytes (n : Nat) :
    ((List.replicate n zero_item).map item_bytes).flatten = List.replicate (40 * n) 0 := by
  induction n with
  | zero => rfl
  | succ n ih =>
    rw [List.replicate_succ, List.map_cons, List.flatten_cons, ih, zero_item_bytes,
      ← List.replicate_add]
    congr 1
    omega

theorem two_items (rev : Nat) (d0 d1 : item_descriptor) :
    (finalised_header rev [d0, d1]).items
      = d0.entry 1024 :: d1.entry (1024 + d0.file_name.load_size)
          :: List.replicate 23 zero_item := rfl

/-- With two items in the table the second half of the header block is zero. -/
theorem two_items_header_tail (rev : Nat) (d0 d1 : item_descriptor)
    (h0 : strlen d0.label ≤ PACK_LABEL_LEN) (h1 : strlen d1.label ≤ PACK_LABEL_LEN) :
    (header_bytes (finalised_header rev [d0, d1])).drop 512 = List.replicate 512 0 := by
  have e : (header_bytes (finalised_header rev [d0, d1])).drop 512
      = ((header_bytes (finalised_header rev [d0, d1])).drop 24).drop 488 := by
    rw [List.drop_drop]
  rw [e, header_bytes_drop_24, two_items, List.map_cons, List.map_cons, List.flatten_cons,
    List.flatten_cons, zero_items_bytes,
    show 488 = 40 + 448 by rfl, drop_append_add _ _ 40 448 (item_bytes_length (entry_wf h0 _)),
    show 448 = 40 + 408 by rfl, drop_append_add _ _ 40 408 (item_bytes_length (entry_wf h1 _)),
    List.drop_replicate]


/-- After a first item whose payload takes `2 ^ 32 - 512` bytes the entry of the second
item points into the header block: once the first byte of the first payload is replaced,
both entries are reported. -/
theorem wrapped_item_reported (d0 d1 : item_descriptor) (ha0 : d0.accepted)
    (ha1 : d1.accepted) (hls0 : d0.file_name.load_size = 4294966784)
    (hls1 : d1.file_name.load_size = 512) (hp0 : d0.file_name.payload[0]? = some 0)
    (hp1 : d1.file_name.payload = 1 :: List.replicate 511 0) :
    (do_write 0 [d0, d1]).1 = 0 ∧
    (∃ first : pack_item,
      (header_of_bytes (do_write 0 [d0, d1]).2.out.data).items[0]? = some first ∧
      first.offset ≤ 1024 ∧ 1024 < first.offset + first.load_size) ∧
    (do_write 0 [d0, d1]).2.out.data[1024]? ≠ some 1 ∧
    verify_checksums (header_of_bytes ((do_write 0 [d0, d1]).2.out.data.set 1024 1))
      ((do_write 0 [d0, d1]).2.out.data.set 1024 1) = verify_result.checked [0, 1] := by
  have h2 : [d0, d1].length ≤ N_PACK_ITEMS := show 2 ≤ N_PACK_ITEMS by decide
  have hok : (do_write 0 [d0, d1]).1 = 0 := by
    rw [do_write_status]
    refine ⟨?_, h2⟩
    intro d hd
    rw [List.mem_cons, List.mem_singleton] at hd
    rcases hd with rfl | rfl
    · exact ha0
    · exact ha1
  obtain ⟨hf, _, hw, _, _⟩ := do_write_layout 0 _ hok
  have hHb := header_bytes_length hw
  have hlen := do_write_length 0 _ hok
  rw [total_load_size_cons, total_load_size_single, hls0, hls1] at hlen
  have hread := do_write_header_read 0 _ hok
  have e0 : (finalised_header 0 [d0, d1]).items[0]? = some (d0.entry 1024) := by
    rw [two_items]; rfl
  have e1 : (finalised_header 0 [d0, d1]).items[1]?
      = some (d1.entry (1024 + d0.file_name.load_size)) := by
    rw [two_items]; rfl
  have hoff0 : u32 1024 = 1024 := by decide
  have hoff1 : u32 (1024 + d0.file_name.load_size) = 512 := by
    rw [hls0]; decide
  have hq0 : 0 < [d0, d1][0].file_name.load_size := by
    show 0 < d0.file_name.load_size
    rw [hls0]; decide
  have hget := payload_get [d0, d1] (header_bytes (finalised_header 0 [d0, d1]))
    (header_bytes (change_header_to_trailer (finalised_header 0 [d0, d1]))) 0 0
    (Nat.zero_lt_succ _) hq0
  rw [← hf, hHb, List.take_zero, total_load_size_nil] at hget
  have hv : (do_write 0 [d0, d1]).2.out.data[1024]? ≠ some 1 := by
    have e : (do_write 0 [d0, d1]).2.out.data[1024]? = d0.file_name.payload[0]? := hget
    rw [e, hp0]
    decide
  have hs0 := tampered_slice [d0, d1] (header_bytes (finalised_header 0 [d0, d1]))
    (header_bytes (change_header_to_trailer (finalised_header 0 [d0, d1]))) 0 0 1
    (Nat.zero_lt_succ _) hq0 0 (Nat.zero_lt_succ _)
  rw [← hf, hHb, List.take_zero, total_load_size_nil, if_pos rfl] at hs0
  have hs0' : (((do_write 0 [d0, d1]).2.out.data.set 1024 1).drop 1024).take
      d0.file_name.load_size = d0.file_name.payload.set 0 1 := hs0
  have hset : (do_write 0 [d0, d1]).2.out.data.set 1024 1
      = header_bytes (finalised_header 0 [d0, d1]) ++
        ((payloads [d0, d1] ++
          header_bytes (change_header_to_trailer (finalised_header 0 [d0, d1]))).set 0 1) := by
    rw [hf, List.set_append_right _ _ (by rw [hHb]), hHb]
  have hs1 : (((do_write 0 [d0, d1]).2.out.data.set 1024 1).drop 512).take 512
      = 0 :: List.replicate 511 0 := by
    rw [hset, List.drop_append_of_le_length (by rw [hHb]; decide),
      two_items_header_tail 0 _ _ ha0.1 ha1.1, List.take_left' (List.length_replicate _ _)]
    rfl
  have hm0 : item_mismatch (finalised_header 0 [d0, d1])
      ((do_write 0 [d0, d1]).2.out.data.set 1024 1) 0 = true := by
    rw [item_mismatch_eq _ _ _ _ e0, entry_offset, entry_load_size, entry_data_crc, hoff0,
      hs0', u32_crc32]
    exact decide_eq_true (crc32_set_ne 0 _ 0 1
      (by rw [payload_length, hls0]; decide) (by rw [hp0]; decide))
  have hm1 : item_mismatch (finalised_header 0 [d0, d1])
      ((do_write 0 [d0, d1]).2.out.data.set 1024 1) 1 = true := by
    rw [item_mismatch_eq _ _ _ _ e1, entry_offset, entry_load_size, entry_data_crc, hoff1,
      hls1, hs1, u32_crc32, hp1]
    have hne := crc32_one_byte 0 [] (List.replicate 511 0) 0 1 (by decide)
    rw [List.nil_append, List.nil_append] at hne
    exact decide_eq_true hne
  have hr : List.range (finalised_header 0 [d0, d1]).n_items = [0, 1] := rfl
  have hb : ∀ i ∈ List.range (finalised_header 0 [d0, d1]).n_items,
      item_in_bounds (finalised_header 0 [d0, d1])
        ((do_write 0 [d0, d1]).2.out.data.set 1024 1) i := by
    intro i hi
    rw [hr, List.mem_cons, List.mem_singleton] at hi
    rcases hi with rfl | rfl
    · refine ⟨_, e0, ?_⟩
      rw [List.length_set, hlen, entry_offset, entry_load_size, hoff0, hls0]
      decide
    · refine ⟨_, e1, ?_⟩
      rw [List.length_set, hlen, entry_offset, entry_load_size, hoff1, hls1]
      decide
  have hh : header_of_bytes ((do_write 0 [d0, d1]).2.out.data.set 1024 1)
      = finalised_header 0 [d0, d1] := by
    rw [hset]
    exact header_of_bytes_header_bytes hw _
  refine ⟨hok, ⟨_, by rw [hread]; exact e0, ?_, ?_⟩, hv, ?_⟩
  · rw [entry_offset, hoff0]
  · rw [entry_offset, entry_load_size, hoff0, hls0]
    decide
  · rw [hh, verify_checksums_of_valid _ _ (finalised_header_check 0 _) hb, hr,
      List.filter_cons, hm0, if_pos rfl, List.filter_cons, hm1, if_pos rfl, List.filter_nil]

theorem big_item (big : List Byte) (hbig : big.length = 4294966784) (hz : big[0]? = some 0) :
    (item_descriptor.mk [65] (.regular big) 0 0).accepted ∧
    (Source.regular big).load_size = 4294966784 ∧
    (Source.regular big).payload[0]? = some 0 := by
  have hsz : (Source.regular big).size = 4294966784 := by
    rw [Source.size_regular, hbig]; rfl
  have hls : (Source.regular big).load_size = 4294966784 := by
    rw [Source.load_size_regular, hbig]; decide
  refine ⟨⟨show strlen [65] ≤ PACK_LABEL_LEN by decide, fun h => Source.noConfusion h,
    by show (Source.regular big).size ≠ 0; rw [hsz]; decide⟩, hls, ?_⟩
  show (zero_padded big (Source.regular big).load_size)[0]? = some 0
  rw [zero_padded_of_le big (Source.regular big).load_size (by rw [hls, hbig]),
    List.getElem?_append_left (by rw [hbig]; decide)]
  exact hz

theorem one_byte_item (small : List Byte) (hs : small = [1]) :
    (item_descriptor.mk [66] (.regular small) 0 0).accepted ∧
    (Source.regular small).load_size = 512 ∧
    (Source.regular small).payload = 1 :: List.replicate 511 0 := by
  have hsz : (Source.regular small).size = 1 := by
    rw [Source.size_regular, hs]; rfl
  have hls : (Source.regular small).load_size = 512 := by
    rw [Source.load_size_regular, hs]; decide
  refine ⟨⟨show strlen [66] ≤ PACK_LABEL_LEN by decide, fun h => Source.noConfusion h,
    by show (Source.regular small).size ≠ 0; rw [hsz]; decide⟩, hls, ?_⟩
  show zero_padded small (Source.regular small).load_size = _
  rw [hls, zero_padded_of_le small 512 (by rw [hs]; decide), hs]
  rfl

/-- C8 as stated fails: after a successful session with a source of `2 ^ 32 - 512` zero
bytes followed by a one-byte source, replacing the byte at position 1024 (inside the
payload of entry 0) by 1 makes `verify_checksums` report entry 1 as well as entry 0. -/
theorem tamper_detection_fails :
    (do_write 0 [⟨[65], .regular (List.replicate 4294966784 0), 0, 0⟩,
      ⟨[66], .regular [1], 0, 0⟩]).1 = 0 ∧
    (∃ first : pack_item,
      (header_of_bytes (do_write 0 [⟨[65], .regular (List.replicate 4294966784 0), 0, 0⟩,
        ⟨[66], .regular [1], 0, 0⟩]).2.out.data).items[0]? = some first ∧
      first.offset ≤ 1024 ∧ 1024 < first.offset + first.load_size) ∧
    (do_write 0 [⟨[65], .regular (List.replicate 4294966784 0), 0, 0⟩,
      ⟨[66], .regular [1], 0, 0⟩]).2.out.data[1024]? ≠ some 1 ∧
    verify_checksums
      (header_of_bytes ((do_write 0 [⟨[65], .regular (List.replicate 4294966784 0), 0, 0⟩,
        ⟨[66], .regular [1], 0, 0⟩]).2.out.data.set 1024 1))
      ((do_write 0 [⟨[65], .regular (List.replicate 4294966784 0), 0, 0⟩,
        ⟨[66], .regular [1], 0, 0⟩]).2.out.data.set 1024 1)
      = verify_result.checked [0, 1] :=
  have hb := big_item (List.replicate 4294966784 0) (List.length_replicate _ _)
    (by rw [List.getElem?_replicate]; exact if_pos (by decide))
  have hs := one_byte_item [1] rfl
  wrapped_item_reported ⟨[65], .regular (List.replicate 4294966784 0), 0, 0⟩
    ⟨[66], .regular [1], 0, 0⟩ hb.1 hs.1 hb.2.1 hs.2.1 hb.2.2 hs.2.2

/-! ## C13: sources whose length cannot be read -/

/-- C13 fails on the code: for a source that opens but cannot seek, `lseek` returns `-1`,
the `uint32_t` field `size` becomes `0xFFFFFFFF`, the test `item.size <= 0` does not hold
and `add_item` returns 0 with one more entry in the table (`size` `0xFFFFFFFF`,
`load_size` 0) and nothing written. -/
theorem unreadable_source_accepted :
    (add_item [65] 0 0 (.unseekable [1, 2, 3])
      { header := header_init 0, out := { data := [], pos := 0 } }).1 = add_status.ok ∧
    (add_item [65] 0 0 (.unseekable [1, 2, 3])
      { header := header_init 0, out := { data := [], pos := 0 } }).1.ret = 0 ∧
    (add_item [65] 0 0 (.unseekable [1, 2, 3])
      { header := header_init 0, out := { data := [], pos := 0 } }).2.header.n_items = 1 ∧
    (∃ item : pack_item,
      (add_item [65] 0 0 (.unseekable [1, 2, 3])
        { header := header_init 0, out := { data := [], pos := 0 } }).2.header.items[0]?
        = some item ∧
      item.size = 4294967295 ∧ item.load_size = 0) ∧
    (add_item [65] 0 0 (.unseekable [1, 2, 3])
      { header := header_init 0, out := { data := [], pos := 0 } }).2.out.data = [] := by
  have hsz : (Source.unseekable [1, 2, 3]).size = 4294967295 := by decide
  have hls : (Source.unseekable [1, 2, 3]).load_size = 0 := by decide
  have ha : (item_descriptor.mk [65] (.unseekable [1, 2, 3]) 0 0).accepted :=
    ⟨show strlen [65] ≤ PACK_LABEL_LEN by decide, fun h => Source.noConfusion h,
      by show (Source.unseekable [1, 2, 3]).size ≠ 0; rw [hsz]; decide⟩
  have h := add_item_of_accepted ⟨[65], .unseekable [1, 2, 3], 0, 0⟩
    { header := header_init 0, out := { data := [], pos := 0 } } ha rfl
  have h' : add_item [65] 0 0 (.unseekable [1, 2, 3])
      { header := header_init 0, out := { data := [], pos := 0 } } = _ := h
  have hp : (Source.unseekable [1, 2, 3]).payload = [] := by
    apply List.eq_nil_of_length_eq_zero
    rw [payload_length, hls]
  have hn : (header_init 0).n_items < N_PACK_ITEMS := by decide
  rw [h']
  simp only [add_item_to_header, if_pos hn, hp, List.append_nil]
  refine ⟨trivial, rfl, by decide, ⟨_, List.getElem?_set_self (by
    rw [(header_init_wf 0).items_len]; exact hn), hsz, hls⟩, trivial⟩

/-! ## C16: no rollback when the table is full -/

/-- C16 (amended): when `add_item` is called with a label of at most 15 bytes, a regular
source of `L` bytes, `0 < L < 2 ^ 32`, a full item table and the output file positioned at
its end, it returns `-1` at the capacity site, leaves the header block as it was, and
leaves the file longer by the `load_size` bytes of the padded payload. -/
theorem no_rollback (label : List Byte) (flags load_addr : Nat) (content : List Byte)
    (s : session) (hlabel : strlen label ≤ 15) (hpos : 0 < content.length)
    (hlt : content.length < 4294967296) (hfull : s.header.n_items = N_PACK_ITEMS)
    (hend : s.out.pos = s.out.data.length) :
    (add_item label flags load_addr (.regular content) s).1 = add_status.capacity_exceeded ∧
    (add_item label flags load_addr (.regular content) s).1.ret = -1 ∧
    (add_item label flags load_addr (.regular content) s).2.header = s.header ∧
    (add_item label flags load_addr (.regular content) s).2.out.data
      = s.out.data ++ (content.take (ALIGN_UP content.length)
          ++ List.replicate (ALIGN_UP content.length - content.length) 0) ∧
    (add_item label flags load_addr (.regular content) s).2.out.data.length
      = s.out.data.length + ALIGN_UP content.length ∧
    (add_item label flags load_addr (.regular content) s).2.out.pos
      = s.out.pos + ALIGN_UP content.length := by
  have hsz : (Source.regular content).size = content.length := by
    rw [Source.size_regular, u32_of_lt hlt]
  have hls : (Source.regular content).load_size = ALIGN_UP content.length := by
    unfold Source.load_size
    rw [hsz]
  have ha : (item_descriptor.mk label (.regular content) flags load_addr).accepted :=
    ⟨hlabel, fun h => Source.noConfusion h, by
      show (Source.regular content).size ≠ 0
      rw [hsz]; omega⟩
  have h := add_item_of_accepted ⟨label, .regular content, flags, load_addr⟩ s ha hend
  have h' : add_item label flags load_addr (.regular content) s = _ := h
  have hn : ¬ s.header.n_items < N_PACK_ITEMS := by omega
  have hp : (Source.regular content).payload = content.take (ALIGN_UP content.length)
      ++ List.replicate (ALIGN_UP content.length - content.length) 0 := by
    unfold Source.payload zero_padded
    rw [hls]
    rfl
  rw [h']
  simp only [add_item_to_header, if_neg hn, hp, hls]
  refine ⟨trivial, rfl, trivial, trivial, ?_, by rw [hend]⟩
  rw [← hp, List.length_append, payload_length, hls]

/-- C16, witness: a three-byte source and a full table. -/
theorem no_rollback_witness :
    (add_item [65] 0 0 (.regular [1, 2, 3])
      { header := { header_init 0 with n_items := N_PACK_ITEMS },
        out := { data := [9, 9], pos := 2 } }).1 = add_status.capacity_exceeded ∧
    (add_item [65] 0 0 (.regular [1, 2, 3])
      { header := { header_init 0 with n_items := N_PACK_ITEMS },
        out := { data := [9, 9], pos := 2 } }).2.out.data.length
      = 2 + ALIGN_UP 3 :=
  have h := no_rollback [65] 0 0 [1, 2, 3]
    { header := { header_init 0 with n_items := N_PACK_ITEMS },
      out := { data := [9, 9], pos := 2 } } (by decide) (by decide) (by decide) rfl rfl
  ⟨h.1, h.2.2.2.2.1⟩

/-- With a full table a source of `2 ^ 32` bytes is turned down as empty. -/
theorem full_table_empty_source (content : List Byte) (hc : content.length = 4294967296) :
    strlen [65] ≤ 15 ∧ content ≠ [] ∧
    (add_item [65] 0 0 (.regular content)
      { header := { header_init 0 with n_items := N_PACK_ITEMS },
        out := { data := [], pos := 0 } }).1 = add_status.empty_source ∧
    (add_item [65] 0 0 (.regular content)
      { header := { header_init 0 with n_items := N_PACK_ITEMS },
        out := { data := [], pos := 0 } }).2.out.data = [] := by
  have hsz : (Source.regular content).size = 0 := by
    rw [Source.size_regular, hc]; rfl
  have hna : ¬ (item_descriptor.mk [65] (.regular content) 0 0).accepted := by
    intro h
    exact h.2.2 hsz
  have h := add_item_of_not_accepted ⟨[65], .regular content, 0, 0⟩
    { header := { header_init 0 with n_items := N_PACK_ITEMS },
      out := { data := [], pos := 0 } } hna
  have h2 : (add_item [65] 0 0 (.regular content)
      { header := { header_init 0 with n_items := N_PACK_ITEMS },
        out := { data := [], pos := 0 } }).2 = _ := h.2
  refine ⟨by decide, ?_, ?_, by rw [h2]⟩
  · intro hnil
    rw [hnil] at hc
    exact absurd hc (by decide)
  · rw [add_item_status, hsz, if_neg (by decide), if_neg (fun h => Source.noConfusion h),
      if_pos (Nat.le_refl 0)]

/-- C16 as stated fails: with a one-byte label, a full table and a non-empty source of
exactly `2 ^ 32` bytes, `add_item` fails at the "empty source" site, not at the capacity
site, and the output file has not grown. -/
theorem no_rollback_fails :
    strlen [65] ≤ 15 ∧ List.replicate 4294967296 (0 : Byte) ≠ [] ∧
    (add_item [65] 0 0 (.regular (List.replicate 4294967296 0))
      { header := { header_init 0 with n_items := N_PACK_ITEMS },
        out := { data := [], pos := 0 } }).1 = add_status.empty_source ∧
    (add_item [65] 0 0 (.regular (List.replicate 4294967296 0))
      { header := { header_init 0 with n_items := N_PACK_ITEMS },
        out := { data := [], pos := 0 } }).2.out.data = [] :=
  full_table_empty_source (List.replicate 4294967296 0) (List.length_replicate _ _)

/-! ## C17: the capacity of the item table -/

/-- C17: the capacity `N_PACK_ITEMS` is `(1024 - 24) / 40 = 25`, with 24 the size of the
fixed header fields and 40 the size of one entry; `24 + 25 * 40 ≤ 1024`, so every entry
with an index below the capacity lies inside the 1024-byte header block. -/
theorem table_capacity :
    sizeof_header = 1024 ∧ sizeof_pack_header = 24 ∧ sizeof_pack_item = 40 ∧
    N_PACK_ITEMS = (1024 - 24) / 40 ∧ N_PACK_ITEMS = 25 ∧
    sizeof_pack_header + N_PACK_ITEMS * sizeof_pack_item ≤ sizeof_header ∧
    (∀ i : Nat, i < N_PACK_ITEMS →
      sizeof_pack_header + i * sizeof_pack_item + sizeof_pack_item ≤ sizeof_header) ∧
    (∀ h : pack_header, h.wf → h.items.length = N_PACK_ITEMS ∧
      (header_bytes h).length = sizeof_header) := by
  refine ⟨by decide, by decide, by decide, by decide, by decide, by decide, ?_, ?_⟩
  · intro i hi
    have h1 : N_PACK_ITEMS = 25 := by decide
    have h2 : sizeof_pack_header = 24 := by decide
    have h3 : sizeof_pack_item = 40 := by decide
    have h4 : sizeof_header = 1024 := by decide
    rw [h2, h3, h4]
    omega
  · intro h hw
    exact ⟨hw.items_len, header_bytes_length hw⟩

/-- C17, witness: the last slot of the table. -/
theorem table_capacity_witness :
    sizeof_pack_header + 24 * sizeof_pack_item + sizeof_pack_item ≤ sizeof_header :=
  table_capacity.2.2.2.2.2.2.1 24 (by decide)

/-! ## C19: early rejections leave the globals alone -/

/-- C19: when `add_item` returns at one of its first three failure sites (label longer
than 15 bytes, source that cannot be opened, source of length zero) the output file
(bytes and position) and the header block are as before the call. -/
theorem early_rejection_atomic (label : List Byte) (flags load_addr : Nat) (src : Source)
    (s : session) :
    (strlen label > 15 →
      (add_item label flags load_addr src s).1 = add_status.label_too_long ∧
      (add_item label flags load_addr src s).2 = s) ∧
    (strlen label ≤ 15 → src = .missing →
      (add_item label flags load_addr src s).1 = add_status.source_unavailable ∧
      (add_item label flags load_addr src s).2 = s) ∧
    (strlen label ≤ 15 → src = .regular [] →
      (add_item label flags load_addr src s).1 = add_status.empty_source ∧
      (add_item label flags load_addr src s).2 = s) ∧
    ((add_item label flags load_addr src s).1 = add_status.label_too_long ∨
      (add_item label flags load_addr src s).1 = add_status.source_unavailable ∨
      (add_item label flags load_addr src s).1 = add_status.empty_source →
      (add_item label flags load_addr src s).2.out = s.out ∧
      (add_item label flags load_addr src s).2.header = s.header) := by
  have key : ¬ (item_descriptor.mk label src flags load_addr).accepted →
      (add_item label flags load_addr src s).2 = s := fun hna =>
    (add_item_of_not_accepted ⟨label, src, flags, load_addr⟩ s hna).2
  refine ⟨?_, ?_, ?_, ?_⟩
  · intro h
    refine ⟨?_, key (fun ha => ?_)⟩
    · rw [add_item_status, if_pos (show strlen label > PACK_LABEL_LEN from h)]
    · have : strlen label ≤ PACK_LABEL_LEN := ha.1
      have e : PACK_LABEL_LEN = 15 := rfl
      omega
  · intro h hs
    refine ⟨?_, key (fun ha => ha.2.1 hs)⟩
    rw [add_item_status, if_neg (show ¬ strlen label > PACK_LABEL_LEN from Nat.not_lt.2 h),
      if_pos hs]
  · intro h hs
    have hsz : src.size = 0 := by rw [hs]; decide
    refine ⟨?_, key (fun ha => ha.2.2 hsz)⟩
    rw [add_item_status, if_neg (show ¬ strlen label > PACK_LABEL_LEN from Nat.not_lt.2 h),
      if_neg (by rw [hs]; exact fun h => Source.noConfusion h), if_pos (by rw [hsz])]
  · intro h
    have hna : ¬ (item_descriptor.mk label src flags load_addr).accepted := by
      intro ha
      have h1 : strlen label ≤ PACK_LABEL_LEN := ha.1
      have h2 : src ≠ .missing := ha.2.1
      have h3 : src.size ≠ 0 := ha.2.2
      rw [add_item_status, if_neg (Nat.not_lt.2 h1), if_neg h2,
        if_neg (by omega)] at h
      split at h
      · rcases h with h | h | h <;> exact absurd h (by decide)
      · rcases h with h | h | h <;> exact absurd h (by decide)
    rw [key hna]
    exact ⟨rfl, rfl⟩

/-- C19, witness: a label of 16 bytes, a missing source and an empty source. -/
theorem early_rejection_atomic_witness :
    (add_item (List.replicate 16 65) 0 0 (.regular [1])
      { header := header_init 0, out := { data := [9, 9], pos := 2 } }).2
      = { header := header_init 0, out := { data := [9, 9], pos := 2 } } ∧
    (add_item [65] 0 0 .missing
      { header := header_init 0, out := { data := [9, 9], pos := 2 } }).2
      = { header := header_init 0, out := { data := [9, 9], pos := 2 } } ∧
    (add_item [65] 0 0 (.regular [])
      { header := header_init 0, out := { data := [9, 9], pos := 2 } }).2
      = { header := header_init 0, out := { data := [9, 9], pos := 2 } } :=
  ⟨((early_rejection_atomic (List.replicate 16 65) 0 0 (.regular [1])
      { header := header_init 0, out := { data := [9, 9], pos := 2 } }).1 (by decide)).2,
    ((early_rejection_atomic [65] 0 0 .missing
      { header := header_init 0, out := { data := [9, 9], pos := 2 } }).2.1 (by decide) rfl).2,
    ((early_rejection_atomic [65] 0 0 (.regular [])
      { header := header_init 0, out := { data := [9, 9], pos := 2 } }).2.2.1 (by decide)
      rfl).2⟩

/-! ## C18: the table never overflows in a write session -/

theorem add_item_descriptor_length (parsed : Option item_descriptor)
    (table result : List item_descriptor)
    (h : add_item_descriptor parsed table = some result) :
    table.length < N_PACK_ITEMS ∧ result.length = table.length + 1 := by
  unfold add_item_descriptor at h
  by_cases hc : table.length ≥ N_PACK_ITEMS
  · rw [if_pos hc] at h
    exact Option.noConfusion h
  · rw [if_neg hc] at h
    cases parsed with
    | none => exact Option.noConfusion h
    | some d =>
      have e := Option.some.inj h
      rw [← e, List.length_append, List.length_singleton]
      exact ⟨by omega, rfl⟩

theorem parse_args_length (args : List (Option item_descriptor)) :
    ∀ (table result : List item_descriptor), table.length ≤ N_PACK_ITEMS →
      parse_args args table = some result → result.length ≤ N_PACK_ITEMS := by
  induction args with
  | nil =>
    intro table result ht h
    rw [parse_args] at h
    rw [← Option.some.inj h]
    exact ht
  | cons a rest ih =>
    intro table result ht h
    rw [parse_args] at h
    cases hs : add_item_descriptor a table with
    | none => rw [hs] at h; exact Option.noConfusion h
    | some t =>
      rw [hs] at h
      have hl := add_item_descriptor_length a table t hs
      exact ih t result (by omega) h

/-- The item loop of `do_write` run over a list is the loop over its first part followed
by the loop over the rest. -/
theorem write_items_append (pre post : List item_descriptor) : ∀ s : session,
    write_items (pre ++ post) s
      = if (write_items pre s).1 ≠ 0 then write_items pre s
        else write_items post (write_items pre s).2 := by
  induction pre with
  | nil =>
    intro s
    rw [List.nil_append, write_items]
    rfl
  | cons d pre ih =>
    intro s
    rw [List.cons_append, write_items, write_items]
    by_cases h : (add_item d.label d.flags d.load_addr d.file_name s).1.ret ≠ 0
    · rw [if_pos h, if_pos h]
      rfl
    · rw [if_neg h, if_neg h]
      exact ih _

theorem add_item_to_header_full (h : pack_header) (item : pack_item)
    (hfull : ¬ h.n_items < N_PACK_ITEMS) : add_item_to_header h item = (-1, h) := by
  unfold add_item_to_header
  rw [if_neg hfull]

/-- The two return sites of line 163 leave in `header` what `add_item_to_header` left. -/
theorem add_item_return_header (added : Int × pack_header) (out : pack_file) :
    (if added.1 = 0 then (add_status.ok, ({ header := added.2, out := out } : session))
      else (add_status.capacity_exceeded, { header := added.2, out := out })).2.header
      = added.2 := by
  by_cases h : added.1 = 0
  · rw [if_pos h]
  · rw [if_neg h]

theorem add_item_header_full (label : List Byte) (flags load_addr : Nat) (src : Source)
    (s : session) (hfull : ¬ s.header.n_items < N_PACK_ITEMS) :
    (add_item label flags load_addr src s).2.header = s.header := by
  unfold add_item
  by_cases h1 : strlen label > PACK_LABEL_LEN
  · rw [if_pos h1]
  · rw [if_neg h1]
    by_cases h2 : src = .missing
    · exact (congrArg (fun (r : add_status × session) => r.2.header) (if_pos h2)).trans rfl
    · refine (congrArg (fun (r : add_status × session) => r.2.header) (if_neg h2)).trans ?_
      by_cases h3 : u32_of_int (lseek_end src) ≤ 0
      · exact (congrArg (fun (r : add_status × session) => r.2.header) (if_pos h3)).trans rfl
      · refine (congrArg (fun (r : add_status × session) => r.2.header) (if_neg h3)).trans ?_
        refine (add_item_return_header _ _).trans ?_
        rw [add_item_to_header_full _ _ hfull]

theorem add_item_n_items_le (label : List Byte) (flags load_addr : Nat) (src : Source)
    (s : session) (h : s.header.n_items ≤ N_PACK_ITEMS) :
    (add_item label flags load_addr src s).2.header.n_items ≤ N_PACK_ITEMS := by
  have hN : N_PACK_ITEMS = 25 := by decide
  by_cases hlt : s.header.n_items < N_PACK_ITEMS
  · by_cases ha : (item_descriptor.mk label src flags load_addr).accepted
    · have hok : (add_item label flags load_addr src s).1 = add_status.ok := by
        have h1 : strlen label ≤ PACK_LABEL_LEN := ha.1
        have h2 : src ≠ .missing := ha.2.1
        have h3 : src.size ≠ 0 := ha.2.2
        rw [add_item_status, if_neg (Nat.not_lt.2 h1), if_neg h2, if_neg (by omega),
          if_pos hlt]
      rw [add_item_header _ _ _ _ _ hok]
      show u32 (s.header.n_items + 1) ≤ N_PACK_ITEMS
      rw [u32_of_lt (by omega)]
      omega
    · rw [(add_item_of_not_accepted ⟨label, src, flags, load_addr⟩ s ha).2]
      exact h
  · rw [add_item_header_full _ _ _ _ _ hlt]
    exact h

theorem write_items_n_items_le (ds : List item_descriptor) : ∀ s : session,
    s.header.n_items ≤ N_PACK_ITEMS → (write_items ds s).2.header.n_items ≤ N_PACK_ITEMS := by
  induction ds with
  | nil => intro s h; exact h
  | cons d ds ih =>
    intro s h
    rw [write_items]
    have h1 := add_item_n_items_le d.label d.flags d.load_addr d.file_name s h
    by_cases hr : (add_item d.label d.flags d.load_addr d.file_name s).1.ret ≠ 0
    · rw [if_pos hr]
      exact h1
    · rw [if_neg hr]
      exact ih _ h1

theorem session_start_eq (rev : Nat) :
    session_start rev
      = { header := header_init rev,
          out := { data := header_bytes (header_init rev), pos := 1024 } } := by
  unfold session_start
  rw [write_at_end _ _ rfl, header_bytes_length (header_init_wf rev), List.nil_append,
    List.length_nil, Nat.zero_add]

theorem do_write_eq (rev : Nat) (ds : List item_descriptor) :
    do_write rev ds
      = if (write_items ds (session_start rev)).1 ≠ 0 then write_items ds (session_start rev)
        else
          (0, { header := change_header_to_trailer
                  (header_finalise (write_items ds (session_start rev)).2).header
                out := ((header_finalise (write_items ds (session_start rev)).2
                  ).out.seek_set.write (header_bytes
                    (header_finalise (write_items ds (session_start rev)).2).header)
                  ).seek_end.write (header_bytes (change_header_to_trailer
                    (header_finalise (write_items ds (session_start rev)).2).header)) }) :=
  rfl

/-- The globals when the item loop of a write session reaches a descriptor, all
descriptors before it having been appended. -/
theorem session_before_item (rev : Nat) (pre : List item_descriptor)
    (ha : ∀ d ∈ pre, d.accepted) (hn : pre.length ≤ N_PACK_ITEMS) :
    (write_items pre (session_start rev)).1 = 0 ∧
    (write_items pre (session_start rev)).2.header.n_items = pre.length ∧
    (write_items pre (session_start rev)).2.out.pos
      = (write_items pre (session_start rev)).2.out.data.length := by
  have hl0 := header_bytes_length (header_init_wf rev)
  have h0 : (header_init rev).n_items = 0 := rfl
  rw [session_start_eq, write_items_of_accepted pre _ ha (by rw [h0, Nat.zero_add]; exact hn)
    (by rw [hl0])]
  refine ⟨rfl, ?_, ?_⟩
  · show (header_init rev).n_items + pre.length = pre.length
    rw [h0, Nat.zero_add]
  · show (header_bytes (header_init rev)).length + total_load_size pre
      = (header_bytes (header_init rev) ++ payloads pre).length
    rw [List.length_append, payloads_length]

theorem change_header_to_trailer_n_items (h : pack_header) :
    (change_header_to_trailer h).n_items = h.n_items := rfl

theorem recalc_header_crc_n_items (h : pack_header) :
    (recalc_header_crc h).n_items = h.n_items := rfl

theorem header_finalise_n_items (s : session) :
    (header_finalise s).header.n_items = s.header.n_items := by
  unfold header_finalise
  exact recalc_header_crc_n_items _

/-- C18: `parse_args` never builds a table of more than `N_PACK_ITEMS` descriptors; in a
write session over such a table, when the item loop has appended the descriptors before
descriptor `d`, `n_items` is the index of `d`, which is below the capacity, so `add_item`
does not fail at the capacity site and the call of `add_item_to_header` it makes returns
0; `n_items` is at most the capacity at every point of every session, and after a
successful session it is the number of descriptors. -/
theorem capacity_never_exceeded :
    (∀ (args : List (Option item_descriptor)) (table : List item_descriptor),
      parse_args args [] = some table → table.length ≤ N_PACK_ITEMS) ∧
    (∀ (rev : Nat) (pre post : List item_descriptor) (d : item_descriptor),
      (pre ++ d :: post).length ≤ N_PACK_ITEMS → (∀ x ∈ pre, x.accepted) →
      write_items (pre ++ d :: post) (session_start rev)
        = write_items (d :: post) (write_items pre (session_start rev)).2 ∧
      (write_items pre (session_start rev)).2.header.n_items = pre.length ∧
      pre.length < N_PACK_ITEMS ∧
      (add_item d.label d.flags d.load_addr d.file_name
        (write_items pre (session_start rev)).2).1 ≠ add_status.capacity_exceeded ∧
      (∀ item : pack_item, (add_item_to_header
        (write_items pre (session_start rev)).2.header item).1 = 0) ∧
      (d.accepted →
        (add_item d.label d.flags d.load_addr d.file_name
          (write_items pre (session_start rev)).2).1 = add_status.ok ∧
        (add_item d.label d.flags d.load_addr d.file_name
          (write_items pre (session_start rev)).2).2.header.n_items = pre.length + 1)) ∧
    (∀ (rev : Nat) (ds : List item_descriptor),
      (write_items ds (session_start rev)).2.header.n_items ≤ N_PACK_ITEMS ∧
      (do_write rev ds).2.header.n_items ≤ N_PACK_ITEMS ∧
      ((do_write rev ds).1 = 0 → (do_write rev ds).2.header.n_items = ds.length ∧
        (header_of_bytes (do_write rev ds).2.out.data).n_items = ds.length)) := by
  have hN : N_PACK_ITEMS = 25 := by decide
  refine ⟨?_, ?_, ?_⟩
  · intro args table h
    exact parse_args_length args [] table (Nat.zero_le _) h
  · intro rev pre post d hlen ha
    rw [List.length_append, List.length_cons] at hlen
    obtain ⟨h1, h2, h3⟩ := session_before_item rev pre ha (by omega)
    have hlt : (write_items pre (session_start rev)).2.header.n_items < N_PACK_ITEMS := by
      rw [h2]; omega
    refine ⟨?_, h2, by omega, ?_, ?_, ?_⟩
    · rw [write_items_append, if_neg (by rw [h1]; exact fun h => h rfl)]
    · rw [add_item_status]
      by_cases c1 : strlen d.label > PACK_LABEL_LEN
      · rw [if_pos c1]
        exact fun h => add_status.noConfusion h
      · rw [if_neg c1]
        by_cases c2 : d.file_name = .missing
        · rw [if_pos c2]
          exact fun h => add_status.noConfusion h
        · rw [if_neg c2]
          by_cases c3 : d.file_name.size ≤ 0
          · rw [if_pos c3]
            exact fun h => add_status.noConfusion h
          · rw [if_neg c3, if_pos hlt]
            exact fun h => add_status.noConfusion h
    · intro item
      unfold add_item_to_header
      rw [if_pos hlt]
    · intro hd
      rw [add_item_of_accepted d _ hd h3, if_pos hlt]
      refine ⟨rfl, ?_⟩
      show (add_item_to_header _ _).2.n_items = pre.length + 1
      unfold add_item_to_header
      rw [if_pos hlt]
      show u32 (_ + 1) = pre.length + 1
      rw [h2, u32_of_lt (by omega)]
  · intro rev ds
    have hinv := write_items_n_items_le ds (session_start rev)
      (by rw [session_start_eq]; exact Nat.zero_le _)
    refine ⟨hinv, ?_, ?_⟩
    · rw [do_write_eq]
      by_cases hr : (write_items ds (session_start rev)).1 ≠ 0
      · rw [if_pos hr]
        exact hinv
      · rw [if_neg hr]
        exact le_of_eq_of_le
          ((change_header_to_trailer_n_items _).trans (header_finalise_n_items _)) hinv
    · intro hok
      obtain ⟨_, hh, _, _, _⟩ := do_write_layout rev ds hok
      refine ⟨?_, ?_⟩
      · exact (congrArg pack_header.n_items hh).trans
          ((change_header_to_trailer_n_items _).trans (finalised_n_items rev ds))
      · rw [do_write_header_read rev ds hok, finalised_n_items]

/-- C18, witness: a table of two descriptors, seen when the loop reaches the second. -/
theorem capacity_never_exceeded_witness :
    (write_items [⟨[65], .regular [1], 0, 0⟩] (session_start 0)).2.header.n_items = 1 ∧
    (add_item [66] 0 0 (.regular [2])
      (write_items [⟨[65], .regular [1], 0, 0⟩] (session_start 0)).2).1
      ≠ add_status.capacity_exceeded :=
  have h := capacity_never_exceeded.2.1 0 [⟨[65], .regular [1], 0, 0⟩] []
    ⟨[66], .regular [2], 0, 0⟩ (show 2 ≤ N_PACK_ITEMS by decide) (by
      intro x hx
      rw [List.mem_singleton] at hx
      subst hx
      exact ⟨show strlen [65] ≤ PACK_LABEL_LEN by decide, fun h => Source.noConfusion h,
        show (Source.regular [1]).size ≠ 0 by decide⟩)
  ⟨h.2.1, h.2.2.2.1⟩

/-! ## The read session -/

theorem to_int_of_lt {n : Nat} (h : n < 2147483648) : to_int n = (n : Int) := by
  unfold to_int
  have e : n % 4294967296 = n := Nat.mod_eq_of_lt (by omega)
  rw [e, if_pos h]

theorem header_of_bytes_items_length (b : List Byte) :
    (header_of_bytes b).items.length = N_PACK_ITEMS := by
  unfold header_of_bytes
  rw [List.length_map, List.length_range]

theorem print_items_range' (h : pack_header) : ∀ (m k : Nat), k + m ≤ h.items.length →
    print_items h (List.range' k m) = some ((h.items.drop k).take m) := by
  intro m
  induction m with
  | zero =>
    intro k _
    rw [List.range'_zero, List.take_zero]
    rfl
  | succ m ih =>
    intro k hk
    have hlt : k < h.items.length := by omega
    rw [List.range'_succ, print_items, List.getElem?_eq_getElem hlt]
    simp only []
    rw [ih (k + 1) (by omega), List.drop_eq_getElem_cons hlt, List.take_succ_cons]

theorem print_items_range (h : pack_header) (n : Nat) (hn : n ≤ h.items.length) :
    print_items h (List.range n) = some (h.items.take n) := by
  rw [List.range_eq_range', print_items_range' h n 0 (by omega), List.drop_zero]

/-- What `print_header` writes for a header block whose `n_items` is inside the table. -/
theorem print_header_of_le (h : pack_header) (hn : h.n_items ≤ h.items.length) :
    print_header h
      = some { magic := h.magic, version := h.version, revision := h.revision,
               pack_size := h.pack_size, n_items := h.n_items, crc := h.hdr_crc,
               items := h.items.take h.n_items } := by
  unfold print_header
  rw [print_items_range h _ hn]

theorem read_count_self {n : Nat} (h : n ≤ MAX_RW_COUNT) : read_count n n = n := by
  unfold read_count
  omega

/-- The function `do_list` on a file that holds a header block, is short enough for one
call of `read` to load it, and whose `n_items` is inside the table: the header is printed,
then `verify_checksums` runs on the whole file. -/
theorem do_list_of_loaded (file : List Byte) (hlo : sizeof_header ≤ file.length)
    (hhi : file.length ≤ MAX_RW_COUNT)
    (hn : (header_of_bytes file).n_items ≤ N_PACK_ITEMS) :
    do_list file
      = list_result.listed
          { magic := (header_of_bytes file).magic
            version := (header_of_bytes file).version
            revision := (header_of_bytes file).revision
            pack_size := (header_of_bytes file).pack_size
            n_items := (header_of_bytes file).n_items
            crc := (header_of_bytes file).hdr_crc
            items := (header_of_bytes file).items.take (header_of_bytes file).n_items }
          (verify_checksums (header_of_bytes file) file) := by
  have hM : MAX_RW_COUNT = 2147479552 := rfl
  have hneg : ¬ ((file.length : Int) < 0) := by omega
  have hshort : ¬ (file.length < sizeof_header) := by omega
  have hgot : ¬ ((file.length : Int) ≠ (file.length : Int)) := fun h => h rfl
  unfold do_list
  rw [to_int_of_lt (by omega)]
  simp only [Int.toNat_ofNat]
  rw [read_count_self hhi, List.take_length, if_neg hneg, if_neg hgot, if_neg hshort,
    print_header_of_le _ (by rw [header_of_bytes_items_length]; exact hn)]

theorem header_check_fst (h : pack_header) : (header_check h).1 = h := rfl

theorem header_check_snd (h : pack_header) :
    (header_check h).2
      = decide (h.hdr_crc = u32 (crc32 0 (header_bytes { h with hdr_crc := 0 }))) := rfl

theorem verify_checksums_of_mismatch (h : pack_header) (buffer : List Byte)
    (hbad : h.hdr_crc ≠ u32 (crc32 0 (header_bytes { h with hdr_crc := 0 }))) :
    verify_checksums h buffer = verify_result.header_mismatch := by
  have h2 : (header_check h).2 = false := by
    rw [header_check_snd]
    exact decide_eq_false hbad
  unfold verify_checksums
  simp only []
  rw [if_pos h2]

/-! ## C11: a header checksum mismatch -/

/-- The header block of a fresh session with a `hdr_crc` field that is one more than the
checksum of the block: a block that fails the header check. -/
theorem stale_header (rev : Nat) :
    ({ header_init rev with
        hdr_crc := u32 (crc32 0 (header_bytes (header_init rev)) + 1) } : pack_header).wf ∧
    u32 (crc32 0 (header_bytes (header_init rev)) + 1)
      ≠ u32 (crc32 0 (header_bytes (header_init rev))) := by
  have hw := header_init_wf rev
  refine ⟨⟨hw.magic_lt, hw.version_lt, hw.n_items_lt, hw.pack_size_lt, hw.revision_lt,
    u32_lt _, hw.items_len, hw.items_wf⟩, ?_⟩
  have hc := crc32_lt 0 (header_bytes (header_init rev))
  unfold u32
  omega

/-- The read session on the block of `stale_header`: the header fields are printed, then
the header check fails. -/
theorem stale_header_listed (rev : Nat) :
    do_list (header_bytes { header_init rev with
        hdr_crc := u32 (crc32 0 (header_bytes (header_init rev)) + 1) })
      = list_result.listed
          { magic := PACK_HDR_MAGIC, version := 1, revision := u32 rev, pack_size := 0,
            n_items := 0, crc := u32 (crc32 0 (header_bytes (header_init rev)) + 1),
            items := [] }
          verify_result.header_mismatch := by
  obtain ⟨hw, hne⟩ := stale_header rev
  have hl := header_bytes_length hw
  have hr := header_of_bytes_header_bytes hw []
  rw [List.append_nil] at hr
  rw [do_list_of_loaded _ (by rw [hl]; decide) (by rw [hl]; decide)
    (by rw [hr]; exact Nat.zero_le _), hr, verify_checksums_of_mismatch _ _ hne]
  rfl

/-- C11 (amended): for a file of at least 1024 and at most `0x7ffff000` bytes (what one
call of `read` loads) whose header block has `n_items` at most `N_PACK_ITEMS` and a stored
`hdr_crc` that differs from the CRC-32 of the block with that field zeroed, `do_list` first
prints the header fields and the first `n_items` entries, and then `verify_checksums` ends
the process with exit code 1 without checking any item: its result is the header mismatch
whatever the buffer holds. -/
theorem header_mismatch_fatal (file : List Byte) (hlo : sizeof_header ≤ file.length)
    (hhi : file.length ≤ MAX_RW_COUNT)
    (hn : (header_of_bytes file).n_items ≤ N_PACK_ITEMS)
    (hbad : (header_of_bytes file).hdr_crc
      ≠ u32 (crc32 0 (header_bytes { header_of_bytes file with hdr_crc := 0 }))) :
    do_list file
      = list_result.listed
          { magic := (header_of_bytes file).magic
            version := (header_of_bytes file).version
            revision := (header_of_bytes file).revision
            pack_size := (header_of_bytes file).pack_size
            n_items := (header_of_bytes file).n_items
            crc := (header_of_bytes file).hdr_crc
            items := (header_of_bytes file).items.take (header_of_bytes file).n_items }
          verify_result.header_mismatch ∧
    (do_list file).exit_code = some 1 ∧
    ∀ buffer : List Byte,
      verify_checksums (header_of_bytes file) buffer = verify_result.header_mismatch := by
  have h := do_list_of_loaded file hlo hhi hn
  rw [verify_checksums_of_mismatch _ _ hbad] at h
  refine ⟨h, ?_, fun buffer => verify_checksums_of_mismatch _ buffer hbad⟩
  rw [h]
  rfl

/-- C11, witness: the header block of a fresh session of revision 1 with a `hdr_crc`
field that is off by one. -/
theorem header_mismatch_fatal_witness :
    (do_list (header_bytes { header_init 1 with
        hdr_crc := u32 (crc32 0 (header_bytes (header_init 1)) + 1) })).exit_code = some 1 :=
  have hw := (stale_header 1).1
  have hr : header_of_bytes (header_bytes { header_init 1 with
      hdr_crc := u32 (crc32 0 (header_bytes (header_init 1)) + 1) })
      = { header_init 1 with
          hdr_crc := u32 (crc32 0 (header_bytes (header_init 1)) + 1) } := by
    have h := header_of_bytes_header_bytes hw []
    rw [List.append_nil] at h
    exact h
  (header_mismatch_fatal _
    (by rw [header_bytes_length hw]; decide)
    (by rw [header_bytes_length hw]; decide)
    (by rw [hr]; exact Nat.zero_le _)
    (by rw [hr]; exact (stale_header 1).2)).2.1

/-- C11 as stated fails: on the 1024-byte file that holds the header block of a fresh
session of revision 0 with a `hdr_crc` field that is off by one, `do_list` prints the
header fields before the header check fails. -/
theorem header_mismatch_fatal_fails :
    do_list (header_bytes { header_init 0 with
        hdr_crc := u32 (crc32 0 (header_bytes (header_init 0)) + 1) })
      = list_result.listed
          { magic := 0x4B434150, version := 1, revision := 0, pack_size := 0, n_items := 0,
            crc := u32 (crc32 0 (header_bytes (header_init 0)) + 1), items := [] }
          verify_result.header_mismatch :=
  stale_header_listed 0

/-! ## C12: item checksum mismatches -/

theorem header_check_of_eq (h : pack_header)
    (hok : h.hdr_crc = u32 (crc32 0 (header_bytes { h with hdr_crc := 0 }))) :
    header_check h = (h, true) :=
  Prod.ext (header_check_fst h) (by rw [header_check_snd]; exact decide_eq_true hok)

theorem hdr_crc_of_header_check (h : pack_header) (hc : header_check h = (h, true)) :
    h.hdr_crc = u32 (crc32 0 (header_bytes { h with hdr_crc := 0 })) := by
  have h2 : (header_check h).2 = true := by rw [hc]
  rw [header_check_snd] at h2
  exact of_decide_eq_true h2

/-- The indices the item loop reports, said without `item_mismatch`. -/
theorem mem_mismatches (h : pack_header) (buffer : List Byte) (hn : h.n_items ≤ h.items.length)
    (i : Nat) :
    i ∈ (List.range h.n_items).filter (item_mismatch h buffer) ↔
      i < h.n_items ∧ ∃ item : pack_item, h.items[i]? = some item ∧
        crc32 0 ((buffer.drop item.offset).take item.load_size) ≠ item.data_crc := by
  rw [List.mem_filter, List.mem_range]
  constructor
  · rintro ⟨hi, hm⟩
    have hlt : i < h.items.length := by omega
    have hget := List.getElem?_eq_getElem hlt
    rw [item_mismatch_eq h buffer i _ hget, u32_crc32] at hm
    exact ⟨hi, _, hget, of_decide_eq_true hm⟩
  · rintro ⟨hi, item, hget, hne⟩
    refine ⟨hi, ?_⟩
    rw [item_mismatch_eq h buffer i item hget, u32_crc32]
    exact decide_eq_true hne

/-- C12 (amended): for a file of at least 1024 and at most `0x7ffff000` bytes (what one
call of `read` loads) whose header block has a valid `hdr_crc`, has `n_items` at most
`N_PACK_ITEMS` and whose first `n_items` entries all have `offset + load_size` at most the
length of the file, `verify_checksums` returns, having reported exactly the indices
`i < n_items` for which the CRC-32 of the `load_size` bytes of the file from `offset` on
differs from the stored `data_crc` (so a mismatch at one index does not stop the check of
a later one), and the read session ends with exit code 0. -/
theorem item_mismatches_nonfatal (file : List Byte) (hlo : sizeof_header ≤ file.length)
    (hhi : file.length ≤ MAX_RW_COUNT)
    (hn : (header_of_bytes file).n_items ≤ N_PACK_ITEMS)
    (hok : (header_of_bytes file).hdr_crc
      = u32 (crc32 0 (header_bytes { header_of_bytes file with hdr_crc := 0 })))
    (hb : ∀ (i : Nat) (item : pack_item), i < (header_of_bytes file).n_items →
      (header_of_bytes file).items[i]? = some item →
      item.offset + item.load_size ≤ file.length) :
    verify_checksums (header_of_bytes file) file
      = verify_result.checked ((List.range (header_of_bytes file).n_items).filter
          (item_mismatch (header_of_bytes file) file)) ∧
    (∀ i : Nat,
      i ∈ (List.range (header_of_bytes file).n_items).filter
          (item_mismatch (header_of_bytes file) file) ↔
        i < (header_of_bytes file).n_items ∧
        ∃ item : pack_item, (header_of_bytes file).items[i]? = some item ∧
          crc32 0 ((file.drop item.offset).take item.load_size) ≠ item.data_crc) ∧
    (∃ printed : listing, do_list file = list_result.listed printed
      (verify_result.checked ((List.range (header_of_bytes file).n_items).filter
        (item_mismatch (header_of_bytes file) file)))) ∧
    (do_list file).exit_code = some 0 := by
  have hlen := header_of_bytes_items_length file
  have hbounds : ∀ i ∈ List.range (header_of_bytes file).n_items,
      item_in_bounds (header_of_bytes file) file i := by
    intro i hi
    rw [List.mem_range] at hi
    have hget := List.getElem?_eq_getElem (show i < (header_of_bytes file).items.length by omega)
    exact ⟨_, hget, hb i _ hi hget⟩
  have hv := verify_checksums_of_valid _ file (header_check_of_eq _ hok) hbounds
  have hl := do_list_of_loaded file hlo hhi hn
  rw [hv] at hl
  refine ⟨hv, mem_mismatches _ file (by omega), ⟨_, hl⟩, ?_⟩
  rw [hl]
  rfl

/-- The file of a successful write session of at most `0x7ffff000` bytes, and the same
file with some bytes replaced outside the header block, meet the conditions under which
the read session checks every item. -/
theorem written_archive_loaded (rev : Nat) (ds : List item_descriptor)
    (hok : (do_write rev ds).1 = 0)
    (hfit : (do_write rev ds).2.out.data.length ≤ MAX_RW_COUNT) (file : List Byte)
    (hlen : file.length = (do_write rev ds).2.out.data.length)
    (hhead : header_of_bytes file = finalised_header rev ds) :
    sizeof_header ≤ file.length ∧ file.length ≤ MAX_RW_COUNT ∧
    (header_of_bytes file).n_items ≤ N_PACK_ITEMS ∧
    (header_of_bytes file).hdr_crc
      = u32 (crc32 0 (header_bytes { header_of_bytes file with hdr_crc := 0 })) ∧
    (∀ (i : Nat) (item : pack_item), i < (header_of_bytes file).n_items →
      (header_of_bytes file).items[i]? = some item →
      item.offset + item.load_size ≤ file.length) := by
  obtain ⟨_, _, _, _, hn⟩ := do_write_layout rev ds hok
  have hl := do_write_length rev ds hok
  have hs : sizeof_header = 1024 := by decide
  have hM : MAX_RW_COUNT = 2147479552 := rfl
  rw [hhead, hlen]
  refine ⟨by rw [hl, hs]; omega, hfit, by rw [finalised_n_items]; exact hn,
    hdr_crc_of_header_check _ (finalised_header_check rev ds), ?_⟩
  intro i item hi hget
  rw [finalised_n_items] at hi
  obtain ⟨h1, h2, h3⟩ := do_write_item rev ds hok (by omega) i hi
  rw [h1] at hget
  cases hget
  rw [h2, entry_load_size, hl]
  omega

/-- The item loop of `verify_checksums` has no defined result once an entry points past
the end of the buffer. -/
theorem verify_items_out_of_bounds (h : pack_header) (buffer : List Byte) (i : Nat)
    (rest : List Nat) (item : pack_item) (hi : h.items[i]? = some item)
    (hout : ¬ item.offset + item.load_size ≤ buffer.length) :
    verify_items h buffer (i :: rest) = none := by
  rw [verify_items, hi]
  simp only []
  rw [if_neg hout]

theorem verify_checksums_out_of_bounds (h : pack_header) (buffer : List Byte)
    (hc : header_check h = (h, true)) (i : Nat) (rest : List Nat) (item : pack_item)
    (hr : List.range h.n_items = i :: rest) (hi : h.items[i]? = some item)
    (hout : ¬ item.offset + item.load_size ≤ buffer.length) :
    verify_checksums h buffer = verify_result.undefined := by
  unfold verify_checksums
  rw [hc]
  simp only [Bool.true_eq_false, if_false]
  rw [hr, verify_items_out_of_bounds h buffer i rest item hi hout]

/-- A one-item archive cut off after its header block: the header check passes and the
item loop reads past the end of the file. -/
theorem truncated_archive (rev : Nat) (d : item_descriptor) (ha : d.accepted)
    (hls : 0 < d.file_name.load_size) :
    (do_write rev [d]).1 = 0 ∧
    ((do_write rev [d]).2.out.data.take 1024).length = 1024 ∧
    (header_of_bytes ((do_write rev [d]).2.out.data.take 1024)).hdr_crc
      = u32 (crc32 0 (header_bytes
          { header_of_bytes ((do_write rev [d]).2.out.data.take 1024) with hdr_crc := 0 })) ∧
    (header_of_bytes ((do_write rev [d]).2.out.data.take 1024)).n_items = 1 ∧
    (∃ item : pack_item,
      (header_of_bytes ((do_write rev [d]).2.out.data.take 1024)).items[0]? = some item ∧
      item.offset = 1024 ∧ item.load_size = d.file_name.load_size) ∧
    verify_checksums (header_of_bytes ((do_write rev [d]).2.out.data.take 1024))
      ((do_write rev [d]).2.out.data.take 1024) = verify_result.undefined ∧
    (do_list ((do_write rev [d]).2.out.data.take 1024)).exit_code = none := by
  have h1 : [d].length ≤ N_PACK_ITEMS := show 1 ≤ N_PACK_ITEMS by decide
  have hok : (do_write rev [d]).1 = 0 := by
    rw [do_write_status]
    refine ⟨?_, h1⟩
    intro x hx
    rw [List.mem_singleton] at hx
    rw [hx]
    exact ha
  obtain ⟨_, _, hw, _, _⟩ := do_write_layout rev [d] hok
  have hHb := header_bytes_length hw
  have hr := header_of_bytes_header_bytes hw []
  rw [List.append_nil] at hr
  have hitem : (finalised_header rev [d]).items[0]? = some (d.entry 1024) := by
    have e0 := finalised_item rev [d] h1 0 (Nat.zero_lt_succ _)
    simp only [List.getElem_cons_zero, List.take_zero, total_load_size_nil] at e0
    exact e0
  have hoff : (d.entry 1024).offset = 1024 := by
    rw [entry_offset]
    exact u32_of_lt (by decide)
  have hv : verify_checksums (finalised_header rev [d])
      (header_bytes (finalised_header rev [d])) = verify_result.undefined := by
    have hrange : List.range (finalised_header rev [d]).n_items = [0] := by
      rw [finalised_n_items]
      rfl
    exact verify_checksums_out_of_bounds _ _ (finalised_header_check rev [d]) 0 [] _ hrange
      hitem (by rw [hoff, entry_load_size, hHb]; omega)
  have hl := do_list_of_loaded (header_bytes (finalised_header rev [d]))
    (by rw [hHb]; decide) (by rw [hHb]; decide)
    (by rw [hr, finalised_n_items]; exact h1)
  rw [do_write_header_block rev [d] hok, hr]
  refine ⟨hok, hHb, hdr_crc_of_header_check _ (finalised_header_check rev [d]), rfl,
    ⟨_, hitem, hoff, entry_load_size d 1024⟩, hv, ?_⟩
  rw [hl, hr, hv]
  rfl

/-- A one-item archive whose first payload byte is replaced: the read session meets the
conditions under which every item is checked, and the item is reported. -/
theorem tampered_one_item (rev : Nat) (d : item_descriptor) (v : Byte) (ha : d.accepted)
    (hls : d.file_name.load_size = 512) (hp : d.file_name.payload[0]? ≠ some v) :
    (sizeof_header ≤ ((do_write rev [d]).2.out.data.set 1024 v).length ∧
      ((do_write rev [d]).2.out.data.set 1024 v).length ≤ MAX_RW_COUNT ∧
      (header_of_bytes ((do_write rev [d]).2.out.data.set 1024 v)).n_items ≤ N_PACK_ITEMS ∧
      (header_of_bytes ((do_write rev [d]).2.out.data.set 1024 v)).hdr_crc
        = u32 (crc32 0 (header_bytes
            { header_of_bytes ((do_write rev [d]).2.out.data.set 1024 v) with
              hdr_crc := 0 })) ∧
      (∀ (i : Nat) (item : pack_item),
        i < (header_of_bytes ((do_write rev [d]).2.out.data.set 1024 v)).n_items →
        (header_of_bytes ((do_write rev [d]).2.out.data.set 1024 v)).items[i]? = some item →
        item.offset + item.load_size ≤ ((do_write rev [d]).2.out.data.set 1024 v).length)) ∧
    verify_checksums (header_of_bytes ((do_write rev [d]).2.out.data.set 1024 v))
      ((do_write rev [d]).2.out.data.set 1024 v) = verify_result.checked [0] := by
  have h1 : [d].length ≤ N_PACK_ITEMS := show 1 ≤ N_PACK_ITEMS by decide
  have hok : (do_write rev [d]).1 = 0 := by
    rw [do_write_status]
    refine ⟨?_, h1⟩
    intro x hx
    rw [List.mem_singleton] at hx
    rw [hx]
    exact ha
  obtain ⟨hf, _, hw, _, _⟩ := do_write_layout rev [d] hok
  have hHb := header_bytes_length hw
  have hlen : (do_write rev [d]).2.out.data.length = 2560 := by
    rw [do_write_length rev [d] hok, total_load_size_single, hls]
  have e : 1024 + total_load_size ([d].take 0) + 0 = 1024 := by
    rw [List.take_zero, total_load_size_nil]
  have hg := payload_get [d] (header_bytes (finalised_header rev [d]))
    (header_bytes (change_header_to_trailer (finalised_header rev [d]))) 0 0
    (Nat.zero_lt_succ _) (by show 0 < d.file_name.load_size; omega)
  rw [← hf, hHb, e] at hg
  have ht := verify_tampered rev [d] hok (by rw [hlen]; decide) 0 0 v (Nat.zero_lt_succ _)
    (by show 0 < d.file_name.load_size; omega)
    (by rw [e, hg]; exact hp)
  rw [e] at ht
  refine ⟨written_archive_loaded rev [d] hok (by rw [hlen]; decide) _
    (List.length_set _ _ _) ht.1, ?_⟩
  rw [ht.1]
  exact ht.2

/-- C12, witness: the archive with one item of one byte, whose first payload byte is
replaced: the item is reported and the session ends with exit code 0. -/
theorem item_mismatches_nonfatal_witness :
    (do_list ((do_write 0 [⟨[65], .regular [7], 0, 0⟩]).2.out.data.set 1024 0)).exit_code
      = some 0 ∧
    verify_checksums
      (header_of_bytes ((do_write 0 [⟨[65], .regular [7], 0, 0⟩]).2.out.data.set 1024 0))
      ((do_write 0 [⟨[65], .regular [7], 0, 0⟩]).2.out.data.set 1024 0)
      = verify_result.checked [0] :=
  have hls : (Source.regular [7]).load_size = 512 := by decide
  have h := tampered_one_item 0 ⟨[65], .regular [7], 0, 0⟩ 0
    ⟨show strlen [65] ≤ PACK_LABEL_LEN by decide, fun h => Source.noConfusion h,
      show (Source.regular [7]).size ≠ 0 by decide⟩ hls (by
      show (zero_padded [7] (Source.regular [7]).load_size)[0]? ≠ some 0
      rw [hls, zero_padded_of_le [7] 512 (by decide),
        List.getElem?_append_left (show 0 < [(7 : Byte)].length by decide)]
      decide)
  ⟨(item_mismatches_nonfatal _ h.1.1 h.1.2.1 h.1.2.2.1 h.1.2.2.2.1 h.1.2.2.2.2).2.2.2, h.2⟩

/-- C12 as stated fails: the archive with one item of one byte, cut off after its 1024-byte
header block, has a valid header checksum, and its entry 0 has offset 1024 and `load_size`
512, so the item loop of `verify_checksums` reads past the end of the buffer: nothing is
guaranteed about what it reports or about the exit code. -/
theorem item_mismatches_nonfatal_fails :
    (do_write 0 [⟨[65], .regular [7], 0, 0⟩]).1 = 0 ∧
    ((do_write 0 [⟨[65], .regular [7], 0, 0⟩]).2.out.data.take 1024).length = 1024 ∧
    (header_of_bytes ((do_write 0 [⟨[65], .regular [7], 0, 0⟩]).2.out.data.take 1024)).hdr_crc
      = u32 (crc32 0 (header_bytes
          { header_of_bytes ((do_write 0 [⟨[65], .regular [7], 0, 0⟩]).2.out.data.take 1024)
            with hdr_crc := 0 })) ∧
    (header_of_bytes ((do_write 0 [⟨[65], .regular [7], 0, 0⟩]).2.out.data.take 1024)).n_items
      = 1 ∧
    (∃ item : pack_item,
      (header_of_bytes ((do_write 0 [⟨[65], .regular [7], 0, 0⟩]).2.out.data.take 1024)
        ).items[0]? = some item ∧
      item.offset = 1024 ∧ item.load_size = 512) ∧
    verify_checksums
      (header_of_bytes ((do_write 0 [⟨[65], .regular [7], 0, 0⟩]).2.out.data.take 1024))
      ((do_write 0 [⟨[65], .regular [7], 0, 0⟩]).2.out.data.take 1024)
      = verify_result.undefined ∧
    (do_list ((do_write 0 [⟨[65], .regular [7], 0, 0⟩]).2.out.data.take 1024)).exit_code
      = none :=
  have hls : (Source.regular [7]).load_size = 512 := by decide
  have h := truncated_archive 0 ⟨[65], .regular [7], 0, 0⟩
    ⟨show strlen [65] ≤ PACK_LABEL_LEN by decide, fun h => Source.noConfusion h,
      show (Source.regular [7]).size ≠ 0 by decide⟩
    (by show 0 < (Source.regular [7]).load_size; rw [hls]; decide)
  ⟨h.1, h.2.1, h.2.2.1, h.2.2.2.1,
    ⟨h.2.2.2.2.1.choose, h.2.2.2.2.1.choose_spec.1, h.2.2.2.2.1.choose_spec.2.1,
      h.2.2.2.2.1.choose_spec.2.2.trans hls⟩,
    h.2.2.2.2.2.1, h.2.2.2.2.2.2⟩

/-! ## C14: the stored `data_crc` -/

/-- The checksum the copy loop of `add_item` accumulates block by block is the checksum,
in one call, of the bytes it copies; the file it writes to plays no part. -/
theorem copy_loop_crc (k : Nat) : ∀ (load_size copied : Nat) (input : List Byte)
    (crc : Nat) (out : pack_file), load_size = copied + 512 * k → crc < 4294967296 →
    (copy_loop load_size copied input crc out).1 = crc32 crc (zero_padded input (512 * k)) := by
  induction k with
  | zero =>
    intro load_size copied input crc out hl hc
    rw [copy_loop, if_neg (by omega), Nat.mul_zero, zero_padded_zero, crc32_nil hc]
  | succ k ih =>
    intro load_size copied input crc out hl hc
    rw [copy_loop, if_pos (by omega)]
    simp only []
    rw [read_block_eq, u32_crc32,
      ih load_size (copied + PACK_BLOCK_SIZE) _ _ _ (by simp only [PACK_BLOCK_SIZE]; omega)
        (crc32_lt _ _), crc32_append,
      show 512 * (k + 1) = 512 + 512 * k by omega, zero_padded_add]
    rfl

theorem data_crc_one_shot (src : Source) (out : pack_file) :
    (copy_loop src.load_size 0 src.content 0 out).1
      = one_shot_data_crc src.content src.load_size := by
  obtain ⟨k, hk⟩ := ALIGN_UP_dvd src.size
  have hk' : src.load_size = 512 * k := hk
  rw [copy_loop_crc k src.load_size 0 src.content 0 out (by omega) (by decide), hk']
  rfl

theorem entry_data_crc_one_shot (d : item_descriptor) (pos : Nat) :
    (d.entry pos).data_crc = one_shot_data_crc d.file_name.content (d.entry pos).load_size :=
  rfl

/-- After a first item whose payload takes `2 ^ 32 - 512` bytes the entry of the second
item points into the header block, whose second half is zero: the checksum of the bytes
it points at is not the one stored for it. -/
theorem wrapped_second_crc (d0 d1 : item_descriptor) (ha0 : d0.accepted)
    (ha1 : d1.accepted) (hls0 : d0.file_name.load_size = 4294966784)
    (hls1 : d1.file_name.load_size = 512)
    (hp1 : d1.file_name.payload = 1 :: List.replicate 511 0) :
    (do_write 0 [d0, d1]).1 = 0 ∧
    ∃ second : pack_item,
      (header_of_bytes (do_write 0 [d0, d1]).2.out.data).items[1]? = some second ∧
      second.offset = 512 ∧ second.load_size = 512 ∧
      second.data_crc = one_shot_data_crc d1.file_name.content second.load_size ∧
      crc32 0 (((do_write 0 [d0, d1]).2.out.data.drop second.offset).take second.load_size)
        ≠ second.data_crc := by
  have h2 : [d0, d1].length ≤ N_PACK_ITEMS := show 2 ≤ N_PACK_ITEMS by decide
  have hok : (do_write 0 [d0, d1]).1 = 0 := by
    rw [do_write_status]
    refine ⟨?_, h2⟩
    intro d hd
    rw [List.mem_cons, List.mem_singleton] at hd
    rcases hd with rfl | rfl
    · exact ha0
    · exact ha1
  obtain ⟨hf, _, hw, _, _⟩ := do_write_layout 0 _ hok
  have hHb := header_bytes_length hw
  have hread := do_write_header_read 0 _ hok
  have e1 : (finalised_header 0 [d0, d1]).items[1]?
      = some (d1.entry (1024 + d0.file_name.load_size)) := by
    rw [two_items]; rfl
  have hoff1 : u32 (1024 + d0.file_name.load_size) = 512 := by
    rw [hls0]; decide
  have hs1 : ((do_write 0 [d0, d1]).2.out.data.drop 512).take 512
      = 0 :: List.replicate 511 0 := by
    rw [hf, List.drop_append_of_le_length (by rw [hHb]; decide),
      two_items_header_tail 0 _ _ ha0.1 ha1.1, List.take_left' (List.length_replicate _ _)]
    rfl
  refine ⟨hok, _, by rw [hread]; exact e1, ?_, ?_, entry_data_crc_one_shot _ _, ?_⟩
  · rw [entry_offset, hoff1]
  · rw [entry_load_size, hls1]
  · rw [entry_offset, entry_load_size, entry_data_crc, hoff1, hls1, hs1, hp1]
    have hne := crc32_one_byte 0 [] (List.replicate 511 0) 0 1 (by decide)
    rw [List.nil_append, List.nil_append] at hne
    exact hne

theorem pack_item_mk_load_size (flags : Nat) (label : List Byte)
    (load_addr offset size load_size data_crc : Nat) :
    (pack_item.mk flags label load_addr offset size load_size data_crc).load_size
      = load_size := rfl

theorem pack_item_mk_data_crc (flags : Nat) (label : List Byte)
    (load_addr offset size load_size data_crc : Nat) :
    (pack_item.mk flags label load_addr offset size load_size data_crc).data_crc
      = data_crc := rfl

/-- The entry a call of `add_item` that returns 0 stores in the table. -/
theorem add_item_entry (label : List Byte) (flags load_addr : Nat) (src : Source)
    (s : session) (hslots : s.header.items.length = N_PACK_ITEMS)
    (hok : (add_item label flags load_addr src s).1 = add_status.ok) :
    ∃ item : pack_item,
      (add_item label flags load_addr src s).2.header.items[s.header.n_items]? = some item ∧
      item.load_size = src.load_size ∧
      item.data_crc = (copy_loop src.load_size 0 src.content 0 s.out).1 := by
  obtain ⟨_, hn⟩ := add_item_ok_accepted label flags load_addr src s hok
  rw [add_item_header _ _ _ _ _ hok]
  exact ⟨_, List.getElem?_set_self (by omega), pack_item_mk_load_size _ _ _ _ _ _ _,
    pack_item_mk_data_crc _ _ _ _ _ _ _⟩

theorem add_item_entry_crc (label : List Byte) (flags load_addr : Nat) (src : Source)
    (s : session) (hslots : s.header.items.length = N_PACK_ITEMS)
    (hok : (add_item label flags load_addr src s).1 = add_status.ok) :
    ∃ item : pack_item,
      (add_item label flags load_addr src s).2.header.items[s.header.n_items]? = some item ∧
      item.data_crc = (copy_loop item.load_size 0 src.content 0 s.out).1 ∧
      item.data_crc = one_shot_data_crc src.content item.load_size := by
  obtain ⟨item, h1, h2, h3⟩ := add_item_entry label flags load_addr src s hslots hok
  have h4 := h3.trans (data_crc_one_shot src s.out)
  rw [← h2] at h3 h4
  exact ⟨item, h1, h3, h4⟩

/-- C14 (amended): for every call of `add_item` that returns 0, the `data_crc` stored in
the new entry, which the copy loop accumulates block by block, is the CRC-32 (initial
value 0), in one call, of the first `load_size` bytes of the source followed by zeros; and
in the file of a successful write session shorter than `2 ^ 32` bytes it is the CRC-32 of
the `load_size` bytes of the file from the `offset` of the entry on, the value
`verify_checksums` computes. -/
theorem stored_data_crc :
    (∀ (label : List Byte) (flags load_addr : Nat) (src : Source) (s : session),
      s.header.items.length = N_PACK_ITEMS →
      (add_item label flags load_addr src s).1 = add_status.ok →
      ∃ item : pack_item,
        (add_item label flags load_addr src s).2.header.items[s.header.n_items]? = some item ∧
        item.data_crc = (copy_loop item.load_size 0 src.content 0 s.out).1 ∧
        item.data_crc = one_shot_data_crc src.content item.load_size) ∧
    (∀ (rev : Nat) (ds : List item_descriptor), (do_write rev ds).1 = 0 →
      (do_write rev ds).2.out.data.length < 4294967296 →
      ∀ (i : Nat) (hi : i < ds.length),
      ∃ item : pack_item,
        (header_of_bytes (do_write rev ds).2.out.data).items[i]? = some item ∧
        item.data_crc = one_shot_data_crc ds[i].file_name.content item.load_size ∧
        crc32 0 (((do_write rev ds).2.out.data.drop item.offset).take item.load_size)
          = item.data_crc) := by
  constructor
  · intro label flags load_addr src s hslots hok
    exact add_item_entry_crc label flags load_addr src s hslots hok
  · intro rev ds hok hfit i hi
    obtain ⟨hf, _, hw, _, _⟩ := do_write_layout rev ds hok
    have hHb := header_bytes_length hw
    obtain ⟨h1, h2, _⟩ := do_write_item rev ds hok hfit i hi
    have hs := payload_slice ds (header_bytes (finalised_header rev ds))
      (header_bytes (change_header_to_trailer (finalised_header rev ds))) i hi
    rw [← hf, hHb] at hs
    refine ⟨_, by rw [do_write_header_read rev ds hok]; exact h1,
      entry_data_crc_one_shot _ _, ?_⟩
    rw [h2, entry_load_size, entry_data_crc, hs]

/-- C14, witness: a 600-byte source added in a fresh session, and the archive with one
item of one byte. -/
theorem stored_data_crc_witness :
    (∃ item : pack_item,
      (add_item [65] 0 0 (.regular (List.replicate 600 7))
        (session_start 0)).2.header.items[(session_start 0).header.n_items]? = some item ∧
      item.data_crc = (copy_loop item.load_size 0 (Source.regular (List.replicate 600 7)).content
        0 (session_start 0).out).1 ∧
      item.data_crc = one_shot_data_crc (Source.regular (List.replicate 600 7)).content
        item.load_size) ∧
    ∃ item : pack_item,
      (header_of_bytes (do_write 0 [⟨[65], .regular [7], 0, 0⟩]).2.out.data).items[0]?
        = some item ∧
      item.data_crc = one_shot_data_crc [7] item.load_size ∧
      crc32 0 (((do_write 0 [⟨[65], .regular [7], 0, 0⟩]).2.out.data.drop item.offset).take
        item.load_size) = item.data_crc :=
  have hls : (Source.regular [7]).load_size = 512 := by decide
  have hok : (do_write 0 [⟨[65], .regular [7], 0, 0⟩]).1 = 0 := by
    rw [do_write_status]
    refine ⟨?_, show 1 ≤ N_PACK_ITEMS by decide⟩
    intro d hd
    rw [List.mem_singleton] at hd
    subst hd
    exact ⟨show strlen [65] ≤ PACK_LABEL_LEN by decide, fun h => Source.noConfusion h,
      show (Source.regular [7]).size ≠ 0 by decide⟩
  ⟨stored_data_crc.1 [65] 0 0 (.regular (List.replicate 600 7)) (session_start 0)
      (by simp [session_start, header_init])
      (by rw [add_item_status, Source.size_regular, List.length_replicate]; decide),
    stored_data_crc.2 0 [⟨[65], .regular [7], 0, 0⟩] hok
      (by rw [do_write_length _ _ hok, total_load_size_single, hls]; decide)
      0 (Nat.zero_lt_succ _)⟩

/-- C14 as stated fails: after a successful session with a source of `2 ^ 32 - 512` zero
bytes followed by a one-byte source, entry 1 has the wrapped offset 512 and `load_size`
512; its `data_crc` is the one-shot checksum of its padded payload, but the checksum of
the file at `[offset, offset + load_size)`, which the reader computes, is another value. -/
theorem stored_data_crc_fails :
    (do_write 0 [⟨[65], .regular (List.replicate 4294966784 0), 0, 0⟩,
      ⟨[66], .regular [1], 0, 0⟩]).1 = 0 ∧
    ∃ second : pack_item,
      (header_of_bytes (do_write 0 [⟨[65], .regular (List.replicate 4294966784 0), 0, 0⟩,
        ⟨[66], .regular [1], 0, 0⟩]).2.out.data).items[1]? = some second ∧
      second.offset = 512 ∧ second.load_size = 512 ∧
      second.data_crc = one_shot_data_crc [1] second.load_size ∧
      crc32 0 (((do_write 0 [⟨[65], .regular (List.replicate 4294966784 0), 0, 0⟩,
        ⟨[66], .regular [1], 0, 0⟩]).2.out.data.drop second.offset).take second.load_size)
        ≠ second.data_crc :=
  have hb := big_item (List.replicate 4294966784 0) (List.length_replicate _ _)
    (by rw [List.getElem?_replicate]; exact if_pos (by decide))
  have hs := one_byte_item [1] rfl
  wrapped_second_crc ⟨[65], .regular (List.replicate 4294966784 0), 0, 0⟩
    ⟨[66], .regular [1], 0, 0⟩ hb.1 hs.1 hb.2.1 hs.2.1 hs.2.2

/-! ## C15: the layout of the finished file -/

theorem header_of_bytes_self {h : pack_header} (hw : h.wf) :
    header_of_bytes (header_bytes h) = h := by
  have e := header_of_bytes_header_bytes hw []
  rw [List.append_nil] at e
  exact e

theorem rd32_header_bytes {h : pack_header} (hw : h.wf) : rd32 (header_bytes h) = h.magic := by
  have e : (header_of_bytes (header_bytes h)).magic = rd32 (header_bytes h) := rfl
  rw [← e, header_of_bytes_self hw]

/-- The file when the item loop of a write session is over, before `header_finalise`: the
placeholder header followed by the payloads. -/
theorem session_after_items (rev : Nat) (ds : List item_descriptor)
    (ha : ∀ d ∈ ds, d.accepted) (hn : ds.length ≤ N_PACK_ITEMS) :
    (write_items ds (session_start rev)).2.out.data
      = header_bytes (header_init rev) ++ payloads ds := by
  have hl0 := header_bytes_length (header_init_wf rev)
  have h0 : (header_init rev).n_items = 0 := rfl
  rw [session_start_eq, write_items_of_accepted ds _ ha (by rw [h0, Nat.zero_add]; exact hn)
    (by rw [hl0])]

/-- C15 (amended): after a successful write session whose file is shorter than `2 ^ 32`
bytes, the length of the file is the `pack_size` of the header block; the first 1024
bytes are the image of a header block with magic `0x4B434150`, version 1, the revision of
the session (as an `unsigned`), `n_items` the number of descriptors, that `pack_size` and
a valid `hdr_crc`, and they are not the placeholder written first; the bytes from
`pack_size - 1024` to the end are the image of the trailer made from that header block,
with magic `0x5041434B`; and the bytes `[1024, pack_size - 1024)` are the bytes the file
held from 1024 on when the item loop was over, the payloads. -/
theorem finished_file_layout (rev : Nat) (ds : List item_descriptor)
    (hok : (do_write rev ds).1 = 0)
    (hfit : (do_write rev ds).2.out.data.length < 4294967296) :
    (do_write rev ds).2.out.data.length
      = (header_of_bytes (do_write rev ds).2.out.data).pack_size ∧
    (do_write rev ds).2.out.data.take 1024
      = header_bytes (header_of_bytes (do_write rev ds).2.out.data) ∧
    (header_of_bytes (do_write rev ds).2.out.data).magic = 0x4B434150 ∧
    (header_of_bytes (do_write rev ds).2.out.data).version = 1 ∧
    (header_of_bytes (do_write rev ds).2.out.data).revision = u32 rev ∧
    (header_of_bytes (do_write rev ds).2.out.data).n_items = ds.length ∧
    (header_of_bytes (do_write rev ds).2.out.data).hdr_crc
      = u32 (crc32 0 (header_bytes
          { header_of_bytes (do_write rev ds).2.out.data with hdr_crc := 0 })) ∧
    (do_write rev ds).2.out.data.take 1024 ≠ header_bytes (header_init rev) ∧
    (do_write rev ds).2.out.data.drop
        ((header_of_bytes (do_write rev ds).2.out.data).pack_size - 1024)
      = header_bytes (change_header_to_trailer
          (header_of_bytes (do_write rev ds).2.out.data)) ∧
    rd32 ((do_write rev ds).2.out.data.drop
        ((header_of_bytes (do_write rev ds).2.out.data).pack_size - 1024)) = 0x5041434B ∧
    ((do_write rev ds).2.out.data.drop 1024).take
        ((header_of_bytes (do_write rev ds).2.out.data).pack_size - 1024 - 1024)
      = (write_items ds (session_start rev)).2.out.data.drop 1024 ∧
    (write_items ds (session_start rev)).2.out.data.drop 1024 = payloads ds := by
  obtain ⟨hf, _, hw, ha, hn⟩ := do_write_layout rev ds hok
  have hlen := do_write_length rev ds hok
  have hHb := header_bytes_length hw
  have hl0 := header_bytes_length (header_init_wf rev)
  have hread := do_write_header_read rev ds hok
  have hps : (finalised_header rev ds).pack_size = 1024 + total_load_size ds + 1024 := by
    rw [finalised_pack_size, u32_of_lt (by omega)]
  have htr := do_write_trailer_block rev ds hok
  have hW : (write_items ds (session_start rev)).2.out.data.drop 1024 = payloads ds := by
    rw [session_after_items rev ds ha hn, ← hl0]
    exact List.drop_left _ _
  rw [hread, hps]
  refine ⟨hlen, do_write_header_block rev ds hok, rfl, rfl, rfl, rfl,
    hdr_crc_of_header_check _ (finalised_header_check rev ds), ?_, ?_, ?_, ?_, hW⟩
  · rw [do_write_header_block rev ds hok]
    intro he
    have e := congrArg header_of_bytes he
    rw [header_of_bytes_self hw, header_of_bytes_self (header_init_wf rev)] at e
    have e2 := congrArg pack_header.pack_size e
    rw [hps] at e2
    have e3 : (header_init rev).pack_size = 0 := rfl
    omega
  · rw [← hlen]
    exact htr
  · rw [← hlen, htr, rd32_header_bytes (change_header_to_trailer_wf hw)]
    rfl
  · rw [hW, hf, ← hHb, List.drop_left, hHb,
      show 1024 + total_load_size ds + 1024 - 1024 - 1024 = total_load_size ds by omega,
      ← payloads_length]
    exact List.take_left _ _

/-- C15, witness: the archive with one item of one byte. -/
theorem finished_file_layout_witness :
    (do_write 0 [⟨[65], .regular [7], 0, 0⟩]).2.out.data.length
      = (header_of_bytes (do_write 0 [⟨[65], .regular [7], 0, 0⟩]).2.out.data).pack_size ∧
    (header_of_bytes (do_write 0 [⟨[65], .regular [7], 0, 0⟩]).2.out.data).n_items = 1 ∧
    rd32 ((do_write 0 [⟨[65], .regular [7], 0, 0⟩]).2.out.data.drop
      ((header_of_bytes (do_write 0 [⟨[65], .regular [7], 0, 0⟩]).2.out.data).pack_size
        - 1024)) = 0x5041434B :=
  have hls : (Source.regular [7]).load_size = 512 := by decide
  have hok : (do_write 0 [⟨[65], .regular [7], 0, 0⟩]).1 = 0 := by
    rw [do_write_status]
    refine ⟨?_, show 1 ≤ N_PACK_ITEMS by decide⟩
    intro d hd
    rw [List.mem_singleton] at hd
    subst hd
    exact ⟨show strlen [65] ≤ PACK_LABEL_LEN by decide, fun h => Source.noConfusion h,
      show (Source.regular [7]).size ≠ 0 by decide⟩
  have h := finished_file_layout 0 [⟨[65], .regular [7], 0, 0⟩] hok
    (by rw [do_write_length _ _ hok, total_load_size_single, hls]; decide)
  ⟨h.1, h.2.2.2.2.2.1, h.2.2.2.2.2.2.2.2.2.1⟩

/-- With one item of `2 ^ 32 - 512` bytes the file is longer than `2 ^ 32` bytes and its
length is not the `pack_size` of the header block. -/
theorem file_longer_than_pack_size (big : List Byte) (hbig : big.length = 4294966784) :
    (do_write 0 [⟨[65], .regular big, 0, 0⟩]).1 = 0 ∧
    (header_of_bytes (do_write 0 [⟨[65], .regular big, 0, 0⟩]).2.out.data).pack_size = 1536 ∧
    (do_write 0 [⟨[65], .regular big, 0, 0⟩]).2.out.data.length = 4294968832 ∧
    (do_write 0 [⟨[65], .regular big, 0, 0⟩]).2.out.data.length
      ≠ (header_of_bytes (do_write 0 [⟨[65], .regular big, 0, 0⟩]).2.out.data).pack_size := by
  obtain ⟨hok, hps, _, _⟩ := pack_size_wraps big hbig
  have hls : (Source.regular big).load_size = 4294966784 := by
    rw [Source.load_size_regular, hbig]; decide
  have hlen : (do_write 0 [⟨[65], .regular big, 0, 0⟩]).2.out.data.length = 4294968832 := by
    rw [do_write_length _ _ hok, total_load_size_single, hls]
  refine ⟨hok, hps, hlen, ?_⟩
  rw [hps, hlen]
  decide

/-- C15 as stated fails: after a successful session with one source of `2 ^ 32 - 512`
bytes the file has `2 ^ 32 + 1536` bytes, while the `pack_size` of its header block is
1536. -/
theorem finished_file_layout_fails :
    (do_write 0 [⟨[65], .regular (List.replicate 4294966784 0), 0, 0⟩]).1 = 0 ∧
    (header_of_bytes (do_write 0 [⟨[65], .regular (List.replicate 4294966784 0), 0, 0⟩]
      ).2.out.data).pack_size = 1536 ∧
    (do_write 0 [⟨[65], .regular (List.replicate 4294966784 0), 0, 0⟩]).2.out.data.length
      = 4294968832 ∧
    (do_write 0 [⟨[65], .regular (List.replicate 4294966784 0), 0, 0⟩]).2.out.data.length
      ≠ (header_of_bytes (do_write 0 [⟨[65], .regular (List.replicate 4294966784 0), 0, 0⟩]
        ).2.out.data).pack_size :=
  file_longer_than_pack_size (List.replicate 4294966784 0) (List.length_replicate _ _)

/-! ## C20: the reads of the reader on the output of the writer -/

theorem do_list_no_buffer (file : List Byte) (h : to_int file.length < 0) :
    do_list file = list_result.no_buffer := by
  unfold do_list
  simp only []
  rw [if_pos h]

/-- A file too long for one call of `read` whose length is still an `int`: the call
returns `0x7ffff000`, not `fsize`, and the process ends before the header is looked at. -/
theorem do_list_short_read (file : List Byte) (hlo : MAX_RW_COUNT < file.length)
    (hhi : file.length < 2147483648) : do_list file = list_result.short_read := by
  have hM : MAX_RW_COUNT = 2147479552 := rfl
  have hneg : ¬ ((file.length : Int) < 0) := by omega
  have hr : read_count file.length file.length = 2147479552 := by
    unfold read_count
    omega
  have hne : ((2147479552 : Nat) : Int) ≠ (file.length : Int) := by omega
  unfold do_list
  rw [to_int_of_lt hhi]
  simp only [Int.toNat_ofNat]
  rw [hr, if_neg hneg, if_pos hne]

theorem to_int_neg {n : Nat} (hlo : 2147483648 ≤ n) (hhi : n < 4294967296) : to_int n < 0 := by
  unfold to_int
  have e : n % 4294967296 = n := Nat.mod_eq_of_lt hhi
  rw [e, if_neg (by omega)]
  omega

/-- The function `do_list` on a file of which `fsize` bytes are loaded, when these hold a
header block whose `n_items` is inside the table. -/
theorem do_list_of_fsize (file : List Byte) (fsize : Nat)
    (hsize : to_int file.length = (fsize : Int)) (hmax : fsize ≤ MAX_RW_COUNT)
    (hle : fsize ≤ file.length)
    (hlo : sizeof_header ≤ (file.take fsize).length)
    (hn : (header_of_bytes (file.take fsize)).n_items ≤ N_PACK_ITEMS) :
    do_list file
      = list_result.listed
          { magic := (header_of_bytes (file.take fsize)).magic
            version := (header_of_bytes (file.take fsize)).version
            revision := (header_of_bytes (file.take fsize)).revision
            pack_size := (header_of_bytes (file.take fsize)).pack_size
            n_items := (header_of_bytes (file.take fsize)).n_items
            crc := (header_of_bytes (file.take fsize)).hdr_crc
            items := (header_of_bytes (file.take fsize)).items.take
              (header_of_bytes (file.take fsize)).n_items }
          (verify_checksums (header_of_bytes (file.take fsize)) (file.take fsize)) := by
  have hneg : ¬ ((fsize : Int) < 0) := by omega
  have hshort : ¬ ((file.take fsize).length < sizeof_header) := by omega
  have hgot : ¬ ((fsize : Int) ≠ (fsize : Int)) := fun h => h rfl
  have hr : read_count file.length fsize = fsize := by
    unfold read_count
    omega
  unfold do_list
  rw [hsize]
  simp only [Int.toNat_ofNat]
  rw [hr, if_neg hneg, if_neg hgot, if_neg hshort,
    print_header_of_le _ (by rw [header_of_bytes_items_length]; exact hn)]

/-- On the file of a successful write session shorter than `2 ^ 32` bytes no item is
reported. -/
theorem verify_written (rev : Nat) (ds : List item_descriptor) (hok : (do_write rev ds).1 = 0)
    (hfit : (do_write rev ds).2.out.data.length < 4294967296) :
    verify_checksums (finalised_header rev ds) (do_write rev ds).2.out.data
      = verify_result.checked [] := by
  obtain ⟨hf, _, hw, _, _⟩ := do_write_layout rev ds hok
  have hlen := do_write_length rev ds hok
  have hHb := header_bytes_length hw
  have hitems : ∀ i ∈ List.range (finalised_header rev ds).n_items,
      item_in_bounds (finalised_header rev ds) (do_write rev ds).2.out.data i ∧
      item_mismatch (finalised_header rev ds) (do_write rev ds).2.out.data i = false := by
    intro i hi
    rw [finalised_n_items, List.mem_range] at hi
    obtain ⟨h1, h2, h3⟩ := do_write_item rev ds hok hfit i hi
    have hs := payload_slice ds (header_bytes (finalised_header rev ds))
      (header_bytes (change_header_to_trailer (finalised_header rev ds))) i hi
    rw [← hf, hHb] at hs
    constructor
    · refine ⟨_, h1, ?_⟩
      rw [h2, entry_load_size, hlen]
      omega
    · rw [item_mismatch_eq _ _ _ _ h1, h2, entry_load_size, entry_data_crc, hs, u32_crc32]
      exact decide_eq_false (fun h => h rfl)
  rw [verify_checksums_of_valid _ _ (finalised_header_check rev ds) (fun i hi => (hitems i hi).1),
    List.filter_eq_nil_iff.2 (fun i hi => by rw [(hitems i hi).2]; exact Bool.false_ne_true)]

/-- C20 (amended): in the file of a successful write session that is shorter than `2 ^ 32`
bytes, `n_items` is the number of descriptors and at most `N_PACK_ITEMS`, `pack_size` is
the length of the file, and every entry `i < n_items` lies inside the item table and has
`1024 ≤ offset` and `offset + load_size ≤ pack_size - 1024`, so every read of the item loop
of `verify_checksums` stays inside the header block and the file, and no item is
reported; `do_list` on the file prints the header and ends with exit code 0 when the file
has at most `0x7ffff000` bytes (what one call of `read` loads); when the file is longer,
`do_list` ends with exit code 1 before it looks at the header: the call of `read` comes
short, or, from `2 ^ 31` bytes on, there is no buffer. -/
theorem reader_in_bounds (rev : Nat) (ds : List item_descriptor)
    (hok : (do_write rev ds).1 = 0)
    (hfit : (do_write rev ds).2.out.data.length < 4294967296) :
    (header_of_bytes (do_write rev ds).2.out.data).n_items = ds.length ∧
    (header_of_bytes (do_write rev ds).2.out.data).n_items ≤ N_PACK_ITEMS ∧
    (header_of_bytes (do_write rev ds).2.out.data).pack_size
      = (do_write rev ds).2.out.data.length ∧
    (∀ i : Nat, i < (header_of_bytes (do_write rev ds).2.out.data).n_items →
      ∃ item : pack_item,
        (header_of_bytes (do_write rev ds).2.out.data).items[i]? = some item ∧
        1024 ≤ item.offset ∧
        item.offset + item.load_size
          ≤ (header_of_bytes (do_write rev ds).2.out.data).pack_size - 1024 ∧
        item.offset + item.load_size ≤ (do_write rev ds).2.out.data.length - 1024 ∧
        item_in_bounds (header_of_bytes (do_write rev ds).2.out.data)
          (do_write rev ds).2.out.data i) ∧
    verify_checksums (header_of_bytes (do_write rev ds).2.out.data)
      (do_write rev ds).2.out.data = verify_result.checked [] ∧
    ((do_write rev ds).2.out.data.length ≤ MAX_RW_COUNT →
      (∃ printed : listing, do_list (do_write rev ds).2.out.data
        = list_result.listed printed (verify_result.checked [])) ∧
      (do_list (do_write rev ds).2.out.data).exit_code = some 0) ∧
    (MAX_RW_COUNT < (do_write rev ds).2.out.data.length →
      (do_write rev ds).2.out.data.length < 2147483648 →
      do_list (do_write rev ds).2.out.data = list_result.short_read ∧
      (do_list (do_write rev ds).2.out.data).exit_code = some 1) ∧
    (2147483648 ≤ (do_write rev ds).2.out.data.length →
      do_list (do_write rev ds).2.out.data = list_result.no_buffer ∧
      (do_list (do_write rev ds).2.out.data).exit_code = some 1) := by
  obtain ⟨_, _, _, _, hn⟩ := do_write_layout rev ds hok
  have hlen := do_write_length rev ds hok
  have hread := do_write_header_read rev ds hok
  have hps : (finalised_header rev ds).pack_size = 1024 + total_load_size ds + 1024 := by
    rw [finalised_pack_size, u32_of_lt (by omega)]
  have hv := verify_written rev ds hok hfit
  have hs : sizeof_header = 1024 := by decide
  refine ⟨by rw [hread, finalised_n_items], by rw [hread, finalised_n_items]; exact hn,
    by rw [hread, hps, hlen], ?_, by rw [hread]; exact hv, ?_, ?_, ?_⟩
  · intro i hi
    rw [hread, finalised_n_items] at hi
    obtain ⟨h1, h2, h3⟩ := do_write_item rev ds hok hfit i hi
    rw [hread, hps, hlen]
    refine ⟨_, h1, by rw [h2]; omega, ?_, ?_, _, h1, ?_⟩
    · rw [h2, entry_load_size]; omega
    · rw [h2, entry_load_size]; omega
    · rw [h2, entry_load_size]; omega
  · intro h31
    have hl := do_list_of_loaded _ (by rw [hlen, hs]; omega) h31
      (by rw [hread, finalised_n_items]; exact hn)
    rw [hread, hv] at hl
    refine ⟨⟨_, hl⟩, ?_⟩
    rw [hl]
    rfl
  · intro hlo h31
    have hl := do_list_short_read _ hlo h31
    refine ⟨hl, ?_⟩
    rw [hl]
    rfl
  · intro h31
    have hl := do_list_no_buffer _ (to_int_neg h31 hfit)
    refine ⟨hl, ?_⟩
    rw [hl]
    rfl

/-- C20, witness: the archive with one item of one byte. -/
theorem reader_in_bounds_witness :
    (∃ item : pack_item,
      (header_of_bytes (do_write 0 [⟨[65], .regular [7], 0, 0⟩]).2.out.data).items[0]?
        = some item ∧
      1024 ≤ item.offset ∧
      item.offset + item.load_size
        ≤ (header_of_bytes (do_write 0 [⟨[65], .regular [7], 0, 0⟩]).2.out.data).pack_size
          - 1024 ∧
      item.offset + item.load_size
        ≤ (do_write 0 [⟨[65], .regular [7], 0, 0⟩]).2.out.data.length - 1024 ∧
      item_in_bounds (header_of_bytes (do_write 0 [⟨[65], .regular [7], 0, 0⟩]).2.out.data)
        (do_write 0 [⟨[65], .regular [7], 0, 0⟩]).2.out.data 0) ∧
    (do_list (do_write 0 [⟨[65], .regular [7], 0, 0⟩]).2.out.data).exit_code = some 0 :=
  have hls : (Source.regular [7]).load_size = 512 := by decide
  have hok : (do_write 0 [⟨[65], .regular [7], 0, 0⟩]).1 = 0 := by
    rw [do_write_status]
    refine ⟨?_, show 1 ≤ N_PACK_ITEMS by decide⟩
    intro d hd
    rw [List.mem_singleton] at hd
    subst hd
    exact ⟨show strlen [65] ≤ PACK_LABEL_LEN by decide, fun h => Source.noConfusion h,
      show (Source.regular [7]).size ≠ 0 by decide⟩
  have hlen : (do_write 0 [⟨[65], .regular [7], 0, 0⟩]).2.out.data.length = 2560 := by
    rw [do_write_length _ _ hok, total_load_size_single, hls]
  have h := reader_in_bounds 0 [⟨[65], .regular [7], 0, 0⟩] hok (by rw [hlen]; decide)
  ⟨h.2.2.2.1 0 (by rw [h.1]; exact Nat.zero_lt_succ _),
    (h.2.2.2.2.2.1 (by rw [hlen]; decide)).2⟩

theorem to_int_wrapped : to_int 4294969344 = ((2048 : Nat) : Int) := by
  unfold to_int
  decide

/-- After a first item whose payload takes `2 ^ 32 - 512` bytes and a second of 512 bytes
the file has `2 ^ 32 + 2048` bytes: the offset of the second entry wraps around to 512,
`pack_size` to 2048, and `do_list` loads 2048 bytes, of which the first entry claims the
bytes from 1024 to `2 ^ 32 + 512`. -/
theorem reader_out_of_bounds (d0 d1 : item_descriptor) (ha0 : d0.accepted)
    (ha1 : d1.accepted) (hls0 : d0.file_name.load_size = 4294966784)
    (hls1 : d1.file_name.load_size = 512) :
    (do_write 0 [d0, d1]).1 = 0 ∧
    (do_write 0 [d0, d1]).2.out.data.length = 4294969344 ∧
    (header_of_bytes (do_write 0 [d0, d1]).2.out.data).pack_size = 2048 ∧
    (∃ first second : pack_item,
      (header_of_bytes (do_write 0 [d0, d1]).2.out.data).items[0]? = some first ∧
      (header_of_bytes (do_write 0 [d0, d1]).2.out.data).items[1]? = some second ∧
      first.offset = 1024 ∧ first.load_size = 4294966784 ∧
      second.offset = 512 ∧ second.load_size = 512) ∧
    (∃ printed : listing, do_list (do_write 0 [d0, d1]).2.out.data
      = list_result.listed printed verify_result.undefined) ∧
    (do_list (do_write 0 [d0, d1]).2.out.data).exit_code = none := by
  have h2 : [d0, d1].length ≤ N_PACK_ITEMS := show 2 ≤ N_PACK_ITEMS by decide
  have hok : (do_write 0 [d0, d1]).1 = 0 := by
    rw [do_write_status]
    refine ⟨?_, h2⟩
    intro d hd
    rw [List.mem_cons, List.mem_singleton] at hd
    rcases hd with rfl | rfl
    · exact ha0
    · exact ha1
  obtain ⟨hf, _, hw, _, _⟩ := do_write_layout 0 _ hok
  have hHb := header_bytes_length hw
  have hlen := do_write_length 0 _ hok
  rw [total_load_size_cons, total_load_size_single, hls0, hls1] at hlen
  have hread := do_write_header_read 0 _ hok
  have e0 : (finalised_header 0 [d0, d1]).items[0]? = some (d0.entry 1024) := by
    rw [two_items]; rfl
  have e1 : (finalised_header 0 [d0, d1]).items[1]?
      = some (d1.entry (1024 + d0.file_name.load_size)) := by
    rw [two_items]; rfl
  have hoff0 : u32 1024 = 1024 := by decide
  have hoff1 : u32 (1024 + d0.file_name.load_size) = 512 := by
    rw [hls0]; decide
  have hps : (finalised_header 0 [d0, d1]).pack_size = 2048 := by
    rw [finalised_pack_size, total_load_size_cons, total_load_size_single, hls0, hls1]
    decide
  have htake : (do_write 0 [d0, d1]).2.out.data.take 2048
      = header_bytes (finalised_header 0 [d0, d1]) ++
        (payloads [d0, d1] ++
          header_bytes (change_header_to_trailer (finalised_header 0 [d0, d1]))).take 1024 := by
    rw [hf, List.take_append_eq_append_take, List.take_of_length_le (by rw [hHb]; decide), hHb]
  have hbl : ((do_write 0 [d0, d1]).2.out.data.take 2048).length = 2048 := by
    rw [List.length_take, hlen]
    decide
  have hhead : header_of_bytes ((do_write 0 [d0, d1]).2.out.data.take 2048)
      = finalised_header 0 [d0, d1] := by
    rw [htake]
    exact header_of_bytes_header_bytes hw _
  have hv : verify_checksums (finalised_header 0 [d0, d1])
      ((do_write 0 [d0, d1]).2.out.data.take 2048) = verify_result.undefined :=
    verify_checksums_out_of_bounds _ _ (finalised_header_check 0 _) 0 [1] _ rfl e0
      (by rw [entry_offset, entry_load_size, hoff0, hls0, hbl]; decide)
  have hl := do_list_of_fsize (do_write 0 [d0, d1]).2.out.data 2048
    (by rw [hlen]; exact to_int_wrapped) (by decide) (by rw [hlen]; decide)
    (by rw [hbl]; decide)
    (by rw [hhead, finalised_n_items]; exact h2)
  rw [hhead, hv] at hl
  refine ⟨hok, hlen, by rw [hread]; exact hps,
    ⟨_, _, by rw [hread]; exact e0, by rw [hread]; exact e1, ?_, ?_, ?_, ?_⟩, ⟨_, hl⟩, ?_⟩
  · rw [entry_offset, hoff0]
  · rw [entry_load_size, hls0]
  · rw [entry_offset, hoff1]
  · rw [entry_load_size, hls1]
  · rw [hl]
    rfl

/-- C20 as stated fails: after a successful session with a source of `2 ^ 32 - 512` zero
bytes followed by a one-byte source the file has `2 ^ 32 + 2048` bytes and `pack_size` is
2048; entry 1 has offset 512, below 1024, entry 0 has `offset + load_size` above
`pack_size - 1024`, and `do_list`, which loads 2048 bytes of the file, reads past the end
of its buffer in the item loop of `verify_checksums`. -/
theorem reader_in_bounds_fails :
    (do_write 0 [⟨[65], .regular (List.replicate 4294966784 0), 0, 0⟩,
      ⟨[66], .regular [1], 0, 0⟩]).1 = 0 ∧
    (do_write 0 [⟨[65], .regular (List.replicate 4294966784 0), 0, 0⟩,
      ⟨[66], .regular [1], 0, 0⟩]).2.out.data.length = 4294969344 ∧
    (header_of_bytes (do_write 0 [⟨[65], .regular (List.replicate 4294966784 0), 0, 0⟩,
      ⟨[66], .regular [1], 0, 0⟩]).2.out.data).pack_size = 2048 ∧
    (∃ first second : pack_item,
      (header_of_bytes (do_write 0 [⟨[65], .regular (List.replicate 4294966784 0), 0, 0⟩,
        ⟨[66], .regular [1], 0, 0⟩]).2.out.data).items[0]? = some first ∧
      (header_of_bytes (do_write 0 [⟨[65], .regular (List.replicate 4294966784 0), 0, 0⟩,
        ⟨[66], .regular [1], 0, 0⟩]).2.out.data).items[1]? = some second ∧
      first.offset = 1024 ∧ first.load_size = 4294966784 ∧
      second.offset = 512 ∧ second.load_size = 512) ∧
    (∃ printed : listing,
      do_list (do_write 0 [⟨[65], .regular (List.replicate 4294966784 0), 0, 0⟩,
        ⟨[66], .regular [1], 0, 0⟩]).2.out.data
        = list_result.listed printed verify_result.undefined) ∧
    (do_list (do_write 0 [⟨[65], .regular (List.replicate 4294966784 0), 0, 0⟩,
      ⟨[66], .regular [1], 0, 0⟩]).2.out.data).exit_code = none :=
  have hb := big_item (List.replicate 4294966784 0) (List.length_replicate _ _)
    (by rw [List.getElem?_replicate]; exact if_pos (by decide))
  have hs := one_byte_item [1] rfl
  reader_out_of_bounds ⟨[65], .regular (List.replicate 4294966784 0), 0, 0⟩
    ⟨[66], .regular [1], 0, 0⟩ hb.1 hs.1 hb.2.1 hs.2.1

end Packtool
